import Mathlib

/-!
# Verification development for bellshade/C

Shallow embedding of `project/NeuralNetwork/nn.c` (and `nn.h`).

Modelling conventions
* `float` values are elements of an arbitrary linearly ordered field `α`
  (exact arithmetic); the libm function `expf` is a parameter `expf : α → α`.
* A C pointer to an array (`float *element`, `struct Matrix *weight_matrices`, ...)
  is a function from offsets to values; a store through the pointer is
  `Function.update`.  Every allocation owns its storage: two different
  matrices / rows never share storage (this is what the arena allocator
  provides), a view (`row_convert_to_matrix`, slices) is a copy of the address
  function and a store through a view is written back to the viewed object.
* `assert` failures make a function return `none`.
* `size_t` is `Nat`; where a `size_t` expression of the source can wrap around
  it is computed with `size_add`, `size_sub`, `size_mul` (arithmetic modulo `2^64`).
  Loop counters never wrap.  `total_layers - 1` is truncated subtraction: every
  network built by `neural_network_allocate` has `total_layers > 1`.
* A C `for` loop `for (i = 0; i < n; ++i) body` is `for_loop n body`.
-/

namespace NN

/-! ## Loops and `size_t` arithmetic -/

/-- The loop `for (i = 0; i < n; ++i) s = body i s`. -/
def for_loop {σ : Type} (n : Nat) (body : Nat → σ → σ) (s : σ) : σ :=
  match n with
  | 0 => s
  | k + 1 => body k (for_loop k body s)

/-- The loop `for (i = 0; i < n; ++i)` whose body can fail an assertion. -/
def for_loop_opt {σ : Type} (n : Nat) (body : Nat → σ → Option σ) (s : σ) : Option σ :=
  match n with
  | 0 => some s
  | k + 1 => (for_loop_opt k body s).bind (body k)

/-- The loop `for (i = n; i > 0; --i) s = body i s`. -/
def for_loop_down {σ : Type} (n : Nat) (body : Nat → σ → σ) (s : σ) : σ :=
  match n with
  | 0 => s
  | k + 1 => for_loop_down k body (body (k + 1) s)

/-- Number of values of `size_t` (LP64: 64-bit `size_t`). -/
def SIZE_MODULUS : Nat := 2 ^ 64

/-- Addition of two `size_t` values. -/
def size_add (a b : Nat) : Nat := (a + b) % SIZE_MODULUS

/-- Subtraction of two `size_t` values (both below `SIZE_MODULUS`). -/
def size_sub (a b : Nat) : Nat := (a + SIZE_MODULUS - b) % SIZE_MODULUS

/-- Multiplication of two `size_t` values. -/
def size_mul (a b : Nat) : Nat := (a * b) % SIZE_MODULUS

/-! ## Data model (`nn.h`) -/

/-- The enumeration `enum ActivationType`; `ACTIVATION_SIGMOID` has value 0. -/
inductive ActivationType where
  | ACTIVATION_SIGMOID
  | ACTIVATION_TANH
  | ACTIVATION_RELU
  | ACTIVATION_NONE
  deriving DecidableEq, Repr

open ActivationType

/-- The structure `struct MemoryArena`: capacity and use are counted in buffers
(words of `sizeof(uintptr_t)` bytes).  The bytes of `memory_buffer` live in the
objects carved out of the arena. -/
structure MemoryArena where
  total_capacity : Nat
  used_buffers : Nat
  deriving DecidableEq, Repr

/-- The structure `struct Matrix`, row-major. -/
structure Matrix (α : Type) where
  num_rows : Nat
  num_columns : Nat
  element : Nat → α

/-- The structure `struct Row`. -/
structure Row (α : Type) where
  num_columns : Nat
  element : Nat → α

/-- The structure `struct NeuralNetwork`. -/
structure NeuralNetwork (α : Type) where
  layer_sizes : Nat → Nat
  total_layers : Nat
  weight_matrices : Nat → Matrix α
  bias_vectors : Nat → Row α
  activation_vectors : Nat → Row α
  activation_types : Nat → ActivationType

/-- The structure `struct BatchProcessor`. -/
structure BatchProcessor (α : Type) where
  current_start_idx : Nat
  accumulated_cost : α
  is_epoch_finished : Bool

section Model

variable {α : Type} [LinearOrderedField α]

/-- The macro `matrix_at` used as an rvalue. -/
def matrix_at (m : Matrix α) (row_idx col_idx : Nat) : α :=
  m.element (row_idx * m.num_columns + col_idx)

/-- The macro `matrix_at` used as an lvalue: `matrix_at(m, r, c) = v`. -/
def matrix_set (m : Matrix α) (row_idx col_idx : Nat) (v : α) : Matrix α :=
  { m with element := Function.update m.element (row_idx * m.num_columns + col_idx) v }

/-- The store `row.element[col_idx] = v` (macro `row_at` as an lvalue). -/
def row_set (r : Row α) (col_idx : Nat) (v : α) : Row α :=
  { r with element := Function.update r.element col_idx v }

/-! ## Activation functions -/

/-- The function `activation_sigmoid`. -/
def activation_sigmoid (expf : α → α) (input_value : α) : α :=
  1 / (1 + expf (-input_value))

/-- The function `activation_relu`. -/
def activation_relu (input_value : α) : α :=
  if input_value > 0 then input_value else 0

/-- The function `activation_tanh`. -/
def activation_tanh (expf : α → α) (input_value : α) : α :=
  let exp_positive := expf input_value
  let exp_negative := expf (-input_value)
  (exp_positive - exp_negative) / (exp_positive + exp_negative)

/-- The function `activation_apply`. -/
def activation_apply (expf : α → α) (input_value : α) (activation_type : ActivationType) : α :=
  match activation_type with
  | ACTIVATION_SIGMOID => activation_sigmoid expf input_value
  | ACTIVATION_RELU => activation_relu input_value
  | ACTIVATION_TANH => activation_tanh expf input_value
  | ACTIVATION_NONE => input_value

/-- The function `activation_compute_derivative`. -/
def activation_compute_derivative (activated_value : α) (activation_type : ActivationType) : α :=
  match activation_type with
  | ACTIVATION_SIGMOID => activated_value * (1 - activated_value)
  | ACTIVATION_RELU => if activated_value ≥ 0 then 1 else 0
  | ACTIVATION_TANH => 1 - activated_value * activated_value
  | ACTIVATION_NONE => 1

/-! ## Matrix operations -/

/-- The function `matrix_get_row`. -/
def matrix_get_row (source_matrix : Matrix α) (row_index : Nat) : Option (Row α) :=
  if row_index < source_matrix.num_rows then
    some { num_columns := source_matrix.num_columns
           element := fun i => source_matrix.element (row_index * source_matrix.num_columns + 0 + i) }
  else none

/-- The function `row_convert_to_matrix`. -/
def row_convert_to_matrix (source_row : Row α) : Matrix α :=
  { num_rows := 1, num_columns := source_row.num_columns, element := source_row.element }

/-- Write-back of a store made through the view `row_convert_to_matrix(r)`:
the row keeps its length and sees the view's storage. -/
def row_of_view (r : Row α) (view : Matrix α) : Row α :=
  { r with element := view.element }

/-- The function `row_create_slice`. -/
def row_create_slice (source_row : Row α) (start_index slice_length : Nat) : Option (Row α) :=
  if start_index < source_row.num_columns then
    if size_add start_index slice_length ≤ source_row.num_columns then
      some { num_columns := slice_length
             element := fun i => source_row.element (start_index + i) }
    else none
  else none

/-- The function `matrix_fill_with_value`. -/
def matrix_fill_with_value (target_matrix : Matrix α) (fill_value : α) : Matrix α :=
  for_loop target_matrix.num_rows (fun row_idx m =>
    for_loop target_matrix.num_columns (fun col_idx m =>
      matrix_set m row_idx col_idx fill_value) m) target_matrix

/-- The function `matrix_add_elementwise`; the result is the destination matrix. -/
def matrix_add_elementwise (destination_matrix source_matrix : Matrix α) : Option (Matrix α) :=
  if destination_matrix.num_rows = source_matrix.num_rows then
    if destination_matrix.num_columns = source_matrix.num_columns then
      some (for_loop destination_matrix.num_rows (fun row_idx m =>
        for_loop destination_matrix.num_columns (fun col_idx m =>
          matrix_set m row_idx col_idx
            (matrix_at m row_idx col_idx + matrix_at source_matrix row_idx col_idx)) m)
        destination_matrix)
    else none
  else none

/-- The function `matrix_multiply_dot_product`; the result is the result matrix. -/
def matrix_multiply_dot_product (result_matrix matrix_a matrix_b : Matrix α) :
    Option (Matrix α) :=
  if matrix_a.num_columns = matrix_b.num_rows then
    if result_matrix.num_rows = matrix_a.num_rows then
      if result_matrix.num_columns = matrix_b.num_columns then
        some (for_loop result_matrix.num_rows (fun row_idx m =>
          for_loop result_matrix.num_columns (fun col_idx m =>
            for_loop matrix_a.num_columns (fun inner_idx m =>
              matrix_set m row_idx col_idx
                (matrix_at m row_idx col_idx +
                  matrix_at matrix_a row_idx inner_idx * matrix_at matrix_b inner_idx col_idx))
              (matrix_set m row_idx col_idx 0)) m) result_matrix)
      else none
    else none
  else none

/-- The function `matrix_copy_data`; the result is the destination matrix. -/
def matrix_copy_data (destination_matrix source_matrix : Matrix α) : Option (Matrix α) :=
  if destination_matrix.num_rows = source_matrix.num_rows then
    if destination_matrix.num_columns = source_matrix.num_columns then
      some (for_loop destination_matrix.num_rows (fun row_idx m =>
        for_loop destination_matrix.num_columns (fun col_idx m =>
          matrix_set m row_idx col_idx (matrix_at source_matrix row_idx col_idx)) m)
        destination_matrix)
    else none
  else none

/-- The function `matrix_apply_activation`. -/
def matrix_apply_activation (expf : α → α) (target_matrix : Matrix α)
    (activation_type : ActivationType) : Matrix α :=
  for_loop target_matrix.num_rows (fun row_idx m =>
    for_loop target_matrix.num_columns (fun col_idx m =>
      matrix_set m row_idx col_idx
        (activation_apply expf (matrix_at m row_idx col_idx) activation_type)) m) target_matrix

/-- The macro `row_copy_data`; the result is the destination row. -/
def row_copy_data (dst_row src_row : Row α) : Option (Row α) :=
  (matrix_copy_data (row_convert_to_matrix dst_row) (row_convert_to_matrix src_row)).map
    (row_of_view dst_row)

/-- The macro `row_fill_with_value`. -/
def row_fill_with_value (target_row : Row α) (fill_value : α) : Row α :=
  row_of_view target_row (matrix_fill_with_value (row_convert_to_matrix target_row) fill_value)

/-- The function `matrix_create_row_slice`. -/
def matrix_create_row_slice (source_matrix : Matrix α) (start_row num_rows : Nat) :
    Option (Matrix α) :=
  if size_add start_row num_rows ≤ source_matrix.num_rows then
    some { num_rows := num_rows
           num_columns := source_matrix.num_columns
           element := fun i => source_matrix.element (start_row * source_matrix.num_columns + 0 + i) }
  else none

/-! ## Memory management -/

/-- The value `sizeof(*arena.memory_buffer)`, that is `sizeof(uintptr_t)` (LP64). -/
def buffer_element_size : Nat := 8

/-- The value `sizeof(float)`. -/
def sizeof_float : Nat := 4

/-- The value `sizeof(struct Matrix)` (LP64: two `size_t` and a pointer). -/
def sizeof_Matrix : Nat := 24

/-- The value `sizeof(struct Row)` (LP64: a `size_t` and a pointer). -/
def sizeof_Row : Nat := 16

/-- The value `sizeof(enum ActivationType)`. -/
def sizeof_ActivationType : Nat := 4

/-- The local `required_buffers` of `arena_allocate_memory`. -/
def required_buffers (size_in_bytes : Nat) : Nat :=
  size_sub (size_add size_in_bytes buffer_element_size) 1 / buffer_element_size

/-- The function `arena_allocate_memory` called with an arena (`arena_ptr != NULL`; the
`calloc` fallback for a null arena is not part of the model).  The result is the arena
after the call; the region handed out is zero-filled and owned by the caller. -/
def arena_allocate_memory (arena : MemoryArena) (size_in_bytes : Nat) : Option MemoryArena :=
  if size_add arena.used_buffers (required_buffers size_in_bytes) ≤ arena.total_capacity then
    some { arena with
           used_buffers := size_add arena.used_buffers (required_buffers size_in_bytes) }
  else none

/-- The function `arena_reset`. -/
def arena_reset (arena : MemoryArena) : MemoryArena :=
  { arena with used_buffers := 0 }

/-- The function `matrix_allocate`: the new matrix is zero-filled. -/
def matrix_allocate (arena : MemoryArena) (num_rows num_columns : Nat) :
    Option (MemoryArena × Matrix α) :=
  (arena_allocate_memory arena (size_mul (size_mul sizeof_float num_rows) num_columns)).map
    fun arena1 => (arena1, { num_rows := num_rows, num_columns := num_columns, element := fun _ => 0 })

/-- The macro `row_allocate`. -/
def row_allocate (arena : MemoryArena) (num_columns : Nat) : Option (MemoryArena × Row α) :=
  (matrix_allocate arena 1 num_columns).bind fun am =>
    (matrix_get_row am.2 0).map fun r => (am.1, r)

/-! ## Neural network -/

/-- Body of the loop `for (layer_idx = 1; layer_idx < total_layers; ++layer_idx)` of
`neural_network_allocate` (nn.c lines 399-405). -/
def neural_network_allocate_layer (layer_architecture : Nat → Nat) (layer_idx : Nat)
    (st : MemoryArena × NeuralNetwork α) : Option (MemoryArena × NeuralNetwork α) :=
  (matrix_allocate st.1 (layer_architecture (layer_idx - 1)) (layer_architecture layer_idx)).bind
    fun aw =>
  (row_allocate aw.1 (layer_architecture layer_idx)).bind fun ab =>
  (row_allocate ab.1 (layer_architecture layer_idx)).bind fun aa =>
    some (aa.1,
      { st.2 with
        weight_matrices := Function.update st.2.weight_matrices (layer_idx - 1) aw.2
        bias_vectors := Function.update st.2.bias_vectors (layer_idx - 1) ab.2
        activation_vectors := Function.update st.2.activation_vectors layer_idx aa.2
        activation_types := Function.update st.2.activation_types layer_idx ACTIVATION_RELU })

/-- The function `neural_network_allocate`.  The four arrays come zero-filled out of the
arena: a zero `struct Matrix` / `struct Row` has no columns, the zero tag is
`ACTIVATION_SIGMOID`. -/
def neural_network_allocate (arena : MemoryArena) (layer_architecture : Nat → Nat)
    (total_layers : Nat) : Option (MemoryArena × NeuralNetwork α) :=
  if total_layers > 1 then
    (arena_allocate_memory arena (size_mul sizeof_Matrix (total_layers - 1))).bind fun arena1 =>
    (arena_allocate_memory arena1 (size_mul sizeof_Row (total_layers - 1))).bind fun arena2 =>
    (arena_allocate_memory arena2 (size_mul sizeof_Row total_layers)).bind fun arena3 =>
    (arena_allocate_memory arena3 (size_mul sizeof_ActivationType total_layers)).bind fun arena4 =>
    (row_allocate arena4 (layer_architecture 0)).bind fun (a0 : MemoryArena × Row α) =>
    (for_loop_opt (total_layers - 1)
        (fun k (st : MemoryArena × NeuralNetwork α) =>
          neural_network_allocate_layer layer_architecture (k + 1) st)
        (a0.1,
          { layer_sizes := layer_architecture
            total_layers := total_layers
            weight_matrices := fun _ => { num_rows := 0, num_columns := 0, element := fun _ => 0 }
            bias_vectors := fun _ => { num_columns := 0, element := fun _ => 0 }
            activation_vectors :=
              Function.update (fun _ => { num_columns := 0, element := fun _ => 0 }) 0 a0.2
            activation_types :=
              Function.update (fun _ => ACTIVATION_SIGMOID) 0 ACTIVATION_NONE })).map
      fun st =>
        (st.1,
          { st.2 with
            activation_types :=
              Function.update st.2.activation_types (total_layers - 1) ACTIVATION_SIGMOID })
  else none

/-- The function `neural_network_zero_weights`. -/
def neural_network_zero_weights (network : NeuralNetwork α) : NeuralNetwork α :=
  let last_layer_index := network.total_layers - 1
  let network1 := for_loop last_layer_index (fun layer_idx (n : NeuralNetwork α) =>
    { n with
      weight_matrices := Function.update n.weight_matrices layer_idx
        (matrix_fill_with_value (n.weight_matrices layer_idx) 0)
      bias_vectors := Function.update n.bias_vectors layer_idx
        (row_fill_with_value (n.bias_vectors layer_idx) 0)
      activation_vectors := Function.update n.activation_vectors layer_idx
        (row_fill_with_value (n.activation_vectors layer_idx) 0) }) network
  { network1 with
    activation_vectors := Function.update network1.activation_vectors last_layer_index
      (row_fill_with_value (network1.activation_vectors last_layer_index) 0) }

/-- Body of the layer loop of `neural_network_forward_pass` (nn.c lines 441-457). -/
def neural_network_forward_layer (expf : α → α) (layer_idx : Nat) (network : NeuralNetwork α) :
    Option (NeuralNetwork α) :=
  (matrix_multiply_dot_product
      (row_convert_to_matrix (network.activation_vectors (layer_idx + 1)))
      (row_convert_to_matrix (network.activation_vectors layer_idx))
      (network.weight_matrices layer_idx)).bind fun product =>
  (matrix_add_elementwise product (row_convert_to_matrix (network.bias_vectors layer_idx))).bind
    fun summed =>
    some { network with
           activation_vectors := Function.update network.activation_vectors (layer_idx + 1)
             (row_of_view (network.activation_vectors (layer_idx + 1))
               (matrix_apply_activation expf summed (network.activation_types (layer_idx + 1)))) }

/-- The function `neural_network_forward_pass`. -/
def neural_network_forward_pass (expf : α → α) (network : NeuralNetwork α) :
    Option (NeuralNetwork α) :=
  if network.total_layers > 1 then
    for_loop_opt (network.total_layers - 1) (neural_network_forward_layer expf) network
  else none

/-- Body of the loop over `prev_neuron_idx` in `neural_network_compute_gradients`
(nn.c lines 528-535), acting on the gradient network. -/
def backprop_weight_step (network : NeuralNetwork α) (layer_idx neuron_idx : Nat)
    (error_value derivative_value : α) (prev_neuron_idx : Nat) (g : NeuralNetwork α) :
    NeuralNetwork α :=
  let previous_activation :=
    (network.activation_vectors (layer_idx - 1)).element prev_neuron_idx
  let weight_gradient := error_value * derivative_value * previous_activation
  { g with
    weight_matrices := Function.update g.weight_matrices (layer_idx - 1)
      (matrix_set (g.weight_matrices (layer_idx - 1)) prev_neuron_idx neuron_idx
        (matrix_at (g.weight_matrices (layer_idx - 1)) prev_neuron_idx neuron_idx
          + weight_gradient))
    activation_vectors := Function.update g.activation_vectors (layer_idx - 1)
      (row_set (g.activation_vectors (layer_idx - 1)) prev_neuron_idx
        ((g.activation_vectors (layer_idx - 1)).element prev_neuron_idx
          + error_value * derivative_value
            * matrix_at (network.weight_matrices (layer_idx - 1)) prev_neuron_idx neuron_idx)) }

/-- Body of the loop over `neuron_idx` in `neural_network_compute_gradients`
(nn.c lines 518-536), acting on the gradient network. -/
def backprop_neuron_step (network : NeuralNetwork α) (layer_idx neuron_idx : Nat)
    (g : NeuralNetwork α) : NeuralNetwork α :=
  let previous_layer_size := (network.activation_vectors (layer_idx - 1)).num_columns
  let activation_value := (network.activation_vectors layer_idx).element neuron_idx
  let error_value := (g.activation_vectors layer_idx).element neuron_idx
  let derivative_value :=
    activation_compute_derivative activation_value (network.activation_types layer_idx)
  for_loop previous_layer_size
    (backprop_weight_step network layer_idx neuron_idx error_value derivative_value)
    { g with
      bias_vectors := Function.update g.bias_vectors (layer_idx - 1)
        (row_set (g.bias_vectors (layer_idx - 1)) neuron_idx
          ((g.bias_vectors (layer_idx - 1)).element neuron_idx
            + error_value * derivative_value)) }

/-- Body of the loop `for (layer_idx = total_layers - 1; layer_idx > 0; --layer_idx)` of
`neural_network_compute_gradients` (nn.c lines 506-537), acting on the gradient network. -/
def backprop_layer_step (network : NeuralNetwork α) (layer_idx : Nat) (g : NeuralNetwork α) :
    NeuralNetwork α :=
  let current_layer_size := (network.activation_vectors layer_idx).num_columns
  for_loop current_layer_size (backprop_neuron_step network layer_idx) g

/-- The statements of `neural_network_compute_gradients` that follow the forward pass of one
sample (nn.c lines 493-537): reset of the error scratch, output error, backpropagation.
`network` is the live network after the forward pass. -/
def gradient_backward (network : NeuralNetwork α) (target_output : Row α) (output_columns : Nat)
    (gradient_network : NeuralNetwork α) : NeuralNetwork α :=
  let g1 := for_loop network.total_layers (fun layer_idx g =>
    { g with
      activation_vectors := Function.update g.activation_vectors layer_idx
        (row_fill_with_value (g.activation_vectors layer_idx) 0) }) gradient_network
  let g2 := for_loop output_columns (fun output_idx g =>
    { g with
      activation_vectors := Function.update g.activation_vectors (network.total_layers - 1)
        (row_set (g.activation_vectors (network.total_layers - 1)) output_idx
          ((network.activation_vectors (network.total_layers - 1)).element output_idx
            - target_output.element output_idx)) }) g1
  for_loop_down (network.total_layers - 1) (backprop_layer_step network) g2

/-- Body of the loop over `sample_idx` in `neural_network_compute_gradients`
(nn.c lines 482-538); the state is the live network and the gradient network. -/
def gradient_sample_step (expf : α → α) (training_data : Matrix α)
    (input_columns output_columns : Nat) (sample_idx : Nat)
    (st : NeuralNetwork α × NeuralNetwork α) : Option (NeuralNetwork α × NeuralNetwork α) :=
  (matrix_get_row training_data sample_idx).bind fun sample_row =>
  if size_add input_columns output_columns ≤ sample_row.num_columns then
    (row_create_slice sample_row 0 input_columns).bind fun input_data =>
    (row_create_slice sample_row input_columns output_columns).bind fun target_output =>
    (row_copy_data (st.1.activation_vectors 0) input_data).bind fun input_row =>
    (neural_network_forward_pass expf
        { st.1 with
          activation_vectors := Function.update st.1.activation_vectors 0 input_row }).bind
      fun network1 =>
        some (network1, gradient_backward network1 target_output output_columns st.2)
  else none

/-- The averaging loop of `neural_network_compute_gradients` (nn.c lines 541-551). -/
def gradient_average (total_layers sample_count : Nat) (gradient_network : NeuralNetwork α) :
    NeuralNetwork α :=
  for_loop (total_layers - 1) (fun layer_idx g =>
    { g with
      weight_matrices := Function.update g.weight_matrices layer_idx
        (for_loop (g.weight_matrices layer_idx).num_rows (fun row_idx m =>
          for_loop (g.weight_matrices layer_idx).num_columns (fun col_idx m =>
            matrix_set m row_idx col_idx (matrix_at m row_idx col_idx / (sample_count : α))) m)
          (g.weight_matrices layer_idx))
      bias_vectors := Function.update g.bias_vectors layer_idx
        (for_loop (g.bias_vectors layer_idx).num_columns (fun bias_idx r =>
          row_set r bias_idx (r.element bias_idx / (sample_count : α)))
          (g.bias_vectors layer_idx)) }) gradient_network

/-- The function `neural_network_compute_gradients`.  The result is the arena after the call,
the live network after the call (its activation vectors are written by the forward passes)
and the returned gradient network. -/
def neural_network_compute_gradients (expf : α → α) (arena : MemoryArena)
    (network : NeuralNetwork α) (training_data : Matrix α) :
    Option (MemoryArena × NeuralNetwork α × NeuralNetwork α) :=
  let sample_count := training_data.num_rows
  let input_columns := network.layer_sizes 0
  let output_columns := network.layer_sizes (network.total_layers - 1)
  (neural_network_allocate arena network.layer_sizes network.total_layers).bind fun ag =>
  (for_loop_opt sample_count
      (gradient_sample_step expf training_data input_columns output_columns)
      (network, neural_network_zero_weights ag.2)).map fun st =>
    (ag.1, st.1, gradient_average network.total_layers sample_count st.2)

/-- The function `neural_network_apply_gradients`; the result is the updated network. -/
def neural_network_apply_gradients (network gradient_network : NeuralNetwork α)
    (learning_rate : α) : NeuralNetwork α :=
  for_loop (network.total_layers - 1) (fun layer_idx n =>
    { n with
      weight_matrices := Function.update n.weight_matrices layer_idx
        (for_loop (n.weight_matrices layer_idx).num_rows (fun row_idx m =>
          for_loop (n.weight_matrices layer_idx).num_columns (fun col_idx m =>
            matrix_set m row_idx col_idx
              (matrix_at m row_idx col_idx
                - learning_rate * matrix_at (gradient_network.weight_matrices layer_idx)
                    row_idx col_idx)) m)
          (n.weight_matrices layer_idx))
      bias_vectors := Function.update n.bias_vectors layer_idx
        (for_loop (n.bias_vectors layer_idx).num_columns (fun bias_idx r =>
          row_set r bias_idx
            (r.element bias_idx
              - learning_rate * (gradient_network.bias_vectors layer_idx).element bias_idx))
          (n.bias_vectors layer_idx)) }) network

/-- Body of the loop over `sample_idx` in `neural_network_calculate_cost`
(nn.c lines 795-811); the state is `total_cost` and the network. -/
def calculate_cost_sample (expf : α → α) (test_dataset : Matrix α)
    (input_size output_size : Nat) (sample_idx : Nat) (st : α × NeuralNetwork α) :
    Option (α × NeuralNetwork α) :=
  (matrix_get_row test_dataset sample_idx).bind fun sample_row =>
  (row_create_slice sample_row 0 input_size).bind fun input_data =>
  (row_create_slice sample_row input_size output_size).bind fun expected_output =>
  (row_copy_data (st.2.activation_vectors 0) input_data).bind fun input_row =>
  (neural_network_forward_pass expf
      { st.2 with
        activation_vectors := Function.update st.2.activation_vectors 0 input_row }).bind
    fun network1 =>
      some (for_loop output_size (fun output_idx total_cost =>
              let prediction_diff :=
                (network1.activation_vectors (network1.total_layers - 1)).element output_idx
                  - expected_output.element output_idx
              total_cost + prediction_diff * prediction_diff) st.1,
            network1)

/-- The function `neural_network_calculate_cost`.  The result is the returned cost and the
network after the call (its activation vectors are written by the forward passes). -/
def neural_network_calculate_cost (expf : α → α) (network : NeuralNetwork α)
    (test_dataset : Matrix α) : Option (α × NeuralNetwork α) :=
  let sample_count := test_dataset.num_rows
  let input_size := (network.activation_vectors 0).num_columns
  let output_size := (network.activation_vectors (network.total_layers - 1)).num_columns
  (for_loop_opt sample_count (calculate_cost_sample expf test_dataset input_size output_size)
      (0, network)).map fun st => (st.1 / (sample_count : α), st.2)

/-! ## Batch processing -/

/-- The local `actual_batch_size` of `batch_process_training_data` (nn.c lines 697-698). -/
def batch_actual_size (current_start_idx batch_size num_rows : Nat) : Nat :=
  if size_add current_start_idx batch_size ≥ num_rows then size_sub num_rows current_start_idx
  else batch_size

/-- The local `total_batch_count` of `batch_process_training_data` (nn.c line 716). -/
def batch_total_count (num_rows batch_size : Nat) : Nat :=
  size_sub (size_add num_rows batch_size) 1 / batch_size

/-- The reset of the cursor on entry of `batch_process_training_data` (nn.c lines 690-694). -/
def batch_restart (batch_processor : BatchProcessor α) : BatchProcessor α :=
  if batch_processor.is_epoch_finished then
    { current_start_idx := 0, accumulated_cost := 0, is_epoch_finished := false }
  else batch_processor

/-- The end of `batch_process_training_data` (nn.c lines 711-719): the cursor after the batch
whose cost is `cost`.  The integer division by `batch_size = 0` does not return. -/
def batch_advance (batch_processor : BatchProcessor α) (batch_size actual_batch_size num_rows : Nat)
    (cost : α) : Option (BatchProcessor α) :=
  let bp1 : BatchProcessor α :=
    { batch_processor with
      accumulated_cost := batch_processor.accumulated_cost + cost
      current_start_idx := size_add batch_processor.current_start_idx actual_batch_size }
  if bp1.current_start_idx ≥ num_rows then
    if batch_size = 0 then none
    else
      some { bp1 with
             accumulated_cost := bp1.accumulated_cost / (batch_total_count num_rows batch_size : α)
             is_epoch_finished := true }
  else some bp1

/-- The function `batch_process_training_data`.  The result is the arena, the cursor and the
network after the call. -/
def batch_process_training_data (expf : α → α) (arena : MemoryArena)
    (batch_processor : BatchProcessor α) (batch_size : Nat) (network : NeuralNetwork α)
    (training_dataset : Matrix α) (learning_rate : α) :
    Option (MemoryArena × BatchProcessor α × NeuralNetwork α) :=
  let bp0 := batch_restart batch_processor
  let actual_batch_size :=
    batch_actual_size bp0.current_start_idx batch_size training_dataset.num_rows
  (matrix_create_row_slice training_dataset bp0.current_start_idx actual_batch_size).bind
    fun current_batch =>
  let arena_checkpoint := arena.used_buffers
  (neural_network_compute_gradients expf arena network current_batch).bind fun r =>
  let network1 := neural_network_apply_gradients r.2.1 r.2.2 learning_rate
  (neural_network_calculate_cost expf network1 current_batch).bind fun c =>
  (batch_advance bp0 batch_size actual_batch_size training_dataset.num_rows c.1).map fun bp1 =>
    ({ r.1 with used_buffers := arena_checkpoint }, bp1, c.2)

/-- A matrix literal: `num_rows x num_columns` with the storage listed row by row. -/
def matrix_of_list (num_rows num_columns : Nat) (l : List α) : Matrix α :=
  { num_rows := num_rows, num_columns := num_columns, element := fun i => l.getD i 0 }

/-! ## Specification vocabulary -/

/-- The shape invariant of a network (spec, data model): at least two layers, weight matrix
`i` has shape `(width[i], width[i+1])`, bias vector `i` has length `width[i+1]`, activation
vector `i` has length `width[i]`, where `width = layer_sizes`. -/
def shape_invariant (network : NeuralNetwork α) : Prop :=
  2 ≤ network.total_layers ∧
  (∀ i, i + 1 < network.total_layers →
    (network.weight_matrices i).num_rows = network.layer_sizes i ∧
    (network.weight_matrices i).num_columns = network.layer_sizes (i + 1) ∧
    (network.bias_vectors i).num_columns = network.layer_sizes (i + 1)) ∧
  (∀ i, i < network.total_layers →
    (network.activation_vectors i).num_columns = network.layer_sizes i)

/-- The value that one iteration of the layer loop of `neural_network_forward_pass` leaves in
unit `j` of layer `layer_idx + 1` (matrix product, bias, activation). -/
def forward_layer_value (expf : α → α) (network : NeuralNetwork α) (layer_idx j : Nat) : α :=
  activation_apply expf
    ((∑ p ∈ Finset.range (network.activation_vectors layer_idx).num_columns,
        (network.activation_vectors layer_idx).element p
          * matrix_at (network.weight_matrices layer_idx) p j)
      + (network.bias_vectors layer_idx).element j)
    (network.activation_types (layer_idx + 1))

/-- The network `b` is the network `a` up to the contents of the activation vectors:
same architecture, same weights, biases and tags, activation vectors of the same lengths. -/
def same_parameters (a b : NeuralNetwork α) : Prop :=
  b.layer_sizes = a.layer_sizes ∧ b.total_layers = a.total_layers ∧
  b.weight_matrices = a.weight_matrices ∧ b.bias_vectors = a.bias_vectors ∧
  b.activation_types = a.activation_types ∧
  ∀ l, (b.activation_vectors l).num_columns = (a.activation_vectors l).num_columns

/-- The forward pass of sample `s` of a dataset, as `neural_network_calculate_cost`,
`neural_network_calculate_accuracy` and `neural_network_compute_gradients` run it: the first
`input_size` columns of row `s` are copied into `activations[0]`, then
`neural_network_forward_pass` is called.  The result is the network after the pass. -/
def sample_forward (expf : α → α) (network : NeuralNetwork α) (dataset : Matrix α) (s : Nat) :
    Option (NeuralNetwork α) :=
  (matrix_get_row dataset s).bind fun sample_row =>
  (row_create_slice sample_row 0 (network.activation_vectors 0).num_columns).bind fun input_data =>
  (row_copy_data (network.activation_vectors 0) input_data).bind fun input_row =>
  neural_network_forward_pass expf
    { network with activation_vectors := Function.update network.activation_vectors 0 input_row }

/-- Unit `j` of layer `l` after `sample_forward` on sample `s`. -/
def sample_activation (expf : α → α) (network : NeuralNetwork α) (dataset : Matrix α)
    (s l j : Nat) : α :=
  match sample_forward expf network dataset s with
  | some n => (n.activation_vectors l).element j
  | none => 0

/-- The prediction for sample `s`: output unit `k` after `sample_forward`. -/
def prediction (expf : α → α) (network : NeuralNetwork α) (dataset : Matrix α) (s k : Nat) : α :=
  sample_activation expf network dataset s (network.total_layers - 1) k

/-- The target of sample `s`: the `k`-th column after the `input_size` feature columns. -/
def target (network : NeuralNetwork α) (dataset : Matrix α) (s k : Nat) : α :=
  matrix_at dataset s ((network.activation_vectors 0).num_columns + k)

/-- The preconditions of the per-sample code on a dataset: every row has the feature columns
followed by the target columns, the output layer is not empty, and the column count is a
`size_t` value. -/
def dataset_fits (network : NeuralNetwork α) (dataset : Matrix α) : Prop :=
  network.layer_sizes 0 + network.layer_sizes (network.total_layers - 1) ≤ dataset.num_columns ∧
  0 < network.layer_sizes (network.total_layers - 1) ∧
  dataset.num_columns < SIZE_MODULUS

/-- A concrete network over `ℚ` with layer widths 2, 3, 1 (tags as set by
`neural_network_allocate`), used to instantiate the theorems. -/
def example_network : NeuralNetwork ℚ :=
  { layer_sizes := fun i => [2, 3, 1].getD i 0
    total_layers := 3
    weight_matrices := fun i =>
      if i = 0 then matrix_of_list 2 3 [1, -2, 3, 4, 5, -6]
      else if i = 1 then matrix_of_list 3 1 [1, -1, 2]
      else { num_rows := 0, num_columns := 0, element := fun _ => 0 }
    bias_vectors := fun i =>
      if i = 0 then { num_columns := 3, element := fun _ => 1 }
      else if i = 1 then { num_columns := 1, element := fun _ => 0 }
      else { num_columns := 0, element := fun _ => 0 }
    activation_vectors := fun i => { num_columns := [2, 3, 1].getD i 0, element := fun _ => 0 }
    activation_types := fun i =>
      [ACTIVATION_NONE, ACTIVATION_RELU, ACTIVATION_SIGMOID].getD i ACTIVATION_SIGMOID }

/-- A concrete dataset over `ℚ`: five rows of two features and one target. -/
def example_dataset : Matrix ℚ :=
  matrix_of_list 5 3 [1, 2, 0, 0, 1, 1, 1, 1, 0, 2, 0, 1, 0, 0, 1]

/-- A rational function standing in for `expf` in concrete instances. -/
def example_expf (x : ℚ) : ℚ := 1 + x + x * x / 2

/-- The target of sample `s` as a row of `output width` entries. -/
def target_row (network : NeuralNetwork α) (dataset : Matrix α) (s : Nat) : Row α :=
  { num_columns := network.layer_sizes (network.total_layers - 1)
    element := fun k => target network dataset s k }



/-- Buffers taken by one `matrix_allocate(arena, num_rows, num_columns)`. -/
def matrix_required_buffers (num_rows num_columns : Nat) : Nat :=
  required_buffers (size_mul (size_mul sizeof_float num_rows) num_columns)

/-- Buffers taken by iteration `layer_idx` of the layer loop of `neural_network_allocate`. -/
def layer_required_buffers (layer_architecture : Nat → Nat) (layer_idx : Nat) : Nat :=
  matrix_required_buffers (layer_architecture (layer_idx - 1)) (layer_architecture layer_idx)
    + matrix_required_buffers 1 (layer_architecture layer_idx)
    + matrix_required_buffers 1 (layer_architecture layer_idx)

/-- Buffers taken by `neural_network_allocate(arena, layer_architecture, total_layers)`: the
sum of the buffers of its allocations, in the order in which the source makes them. -/
def neural_network_required_buffers (layer_architecture : Nat → Nat) (total_layers : Nat) : Nat :=
  required_buffers (size_mul sizeof_Matrix (total_layers - 1))
    + required_buffers (size_mul sizeof_Row (total_layers - 1))
    + required_buffers (size_mul sizeof_Row total_layers)
    + required_buffers (size_mul sizeof_ActivationType total_layers)
    + matrix_required_buffers 1 (layer_architecture 0)
    + ∑ k ∈ Finset.range (total_layers - 1), layer_required_buffers layer_architecture (k + 1)

/-- The arena has room for a network of the given architecture. -/
def arena_has_room (arena : MemoryArena) (layer_architecture : Nat → Nat) (total_layers : Nat) :
    Prop :=
  arena.total_capacity < SIZE_MODULUS ∧
  arena.used_buffers + neural_network_required_buffers layer_architecture total_layers
    ≤ arena.total_capacity

/-- The network that `neural_network_allocate` builds after `k` iterations of its layer
loop (all storage zero-filled). -/
def allocated_network (layer_architecture : Nat → Nat) (total_layers k : Nat) : NeuralNetwork α :=
  { layer_sizes := layer_architecture
    total_layers := total_layers
    weight_matrices := fun i =>
      if i < k then
        { num_rows := layer_architecture i, num_columns := layer_architecture (i + 1)
          element := fun _ => 0 }
      else { num_rows := 0, num_columns := 0, element := fun _ => 0 }
    bias_vectors := fun i =>
      if i < k then { num_columns := layer_architecture (i + 1), element := fun _ => 0 }
      else { num_columns := 0, element := fun _ => 0 }
    activation_vectors := fun i =>
      if i < k + 1 then { num_columns := layer_architecture i, element := fun _ => 0 }
      else { num_columns := 0, element := fun _ => 0 }
    activation_types := fun i =>
      if i = 0 then ACTIVATION_NONE else if i < k + 1 then ACTIVATION_RELU
      else ACTIVATION_SIGMOID }

/-- The network that a successful `neural_network_allocate` returns: zero-filled storage of
the shapes given by the architecture, tags NONE, RELU, ..., RELU, SIGMOID. -/
def neural_network_fresh (layer_architecture : Nat → Nat) (total_layers : Nat) : NeuralNetwork α :=
  { allocated_network layer_architecture total_layers (total_layers - 1) with
    activation_types :=
      Function.update
        (allocated_network layer_architecture total_layers (total_layers - 1) :
          NeuralNetwork α).activation_types
        (total_layers - 1) ACTIVATION_SIGMOID }

/-- An arena of 1000 buffers, none of them used. -/
def example_arena : MemoryArena := { total_capacity := 1000, used_buffers := 0 }

/-- The widths 2, 3, 1 of `example_network`. -/
def example_architecture : Nat → Nat := fun i => [2, 3, 1].getD i 0

/-- The weight matrix that `neural_network_apply_gradients` leaves in place of
`weights`, updated from the gradient matrix `gradient`. -/
def updated_weights (weights gradient : Matrix α) (learning_rate : α) : Matrix α :=
  { weights with element := fun x =>
      if x < weights.num_rows * weights.num_columns then
        weights.element x
          - learning_rate * matrix_at gradient (x / weights.num_columns) (x % weights.num_columns)
      else weights.element x }

/-- The bias vector that `neural_network_apply_gradients` leaves in place of `biases`. -/
def updated_biases (biases gradient : Row α) (learning_rate : α) : Row α :=
  { biases with element := fun x =>
      if x < biases.num_columns then biases.element x - learning_rate * gradient.element x
      else biases.element x }

/-- The error term that backpropagation assigns to unit `j` of layer `total_layers - 1 - d`,
for the activations `a` and the target `tgt` of one sample: at the output layer the
difference between activation and target, below it the sum over the units of the next layer
of their error times the derivative of their activation times the connecting weight. -/
def backprop_error (network : NeuralNetwork α) (a : Nat → Nat → α) (tgt : Nat → α) :
    Nat → Nat → α
  | 0, j => a (network.total_layers - 1) j - tgt j
  | d + 1, p =>
    ∑ j ∈ Finset.range (network.layer_sizes (network.total_layers - 1 - d)),
      backprop_error network a tgt d j
        * activation_compute_derivative (a (network.total_layers - 1 - d) j)
            (network.activation_types (network.total_layers - 1 - d))
        * matrix_at (network.weight_matrices (network.total_layers - 1 - d - 1)) p j

/-- The factor `error_value * derivative_value` of unit `j` of layer `l`. -/
def backprop_delta (network : NeuralNetwork α) (a : Nat → Nat → α) (tgt : Nat → α)
    (l j : Nat) : α :=
  backprop_error network a tgt (network.total_layers - 1 - l) j
    * activation_compute_derivative (a l j) (network.activation_types l)

/-- The state of the gradient network `G` during the backpropagation of one sample, when the
layers above `k` are done: `g` is the gradient network before the sample, `n` the live network
after the forward pass, `tgt` the target.  Shapes are those of `g`; the accumulators of the
layers `m >= k` have received the contribution of the sample; the error rows of the layers
`m >= k` hold the error, those below hold zero. -/
def backprop_invariant (n : NeuralNetwork α) (tgt : Nat → α) (g G : NeuralNetwork α)
    (k : Nat) : Prop :=
  G.layer_sizes = g.layer_sizes ∧ G.total_layers = g.total_layers ∧
  G.activation_types = g.activation_types ∧
  (∀ m, (G.weight_matrices m).num_rows = (g.weight_matrices m).num_rows ∧
    (G.weight_matrices m).num_columns = (g.weight_matrices m).num_columns ∧
    (G.bias_vectors m).num_columns = (g.bias_vectors m).num_columns ∧
    (G.activation_vectors m).num_columns = (g.activation_vectors m).num_columns) ∧
  (∀ m, m < k → G.weight_matrices m = g.weight_matrices m ∧ G.bias_vectors m = g.bias_vectors m) ∧
  (∀ m, k ≤ m → m + 1 < n.total_layers →
    (∀ p j, p < n.layer_sizes m → j < n.layer_sizes (m + 1) →
      matrix_at (G.weight_matrices m) p j
        = matrix_at (g.weight_matrices m) p j
          + backprop_delta n (fun l x => (n.activation_vectors l).element x) tgt (m + 1) j
            * (n.activation_vectors m).element p) ∧
    (∀ j, j < n.layer_sizes (m + 1) →
      (G.bias_vectors m).element j
        = (g.bias_vectors m).element j
          + backprop_delta n (fun l x => (n.activation_vectors l).element x) tgt (m + 1) j)) ∧
  (∀ m, k ≤ m → m < n.total_layers → ∀ p, p < n.layer_sizes m →
    (G.activation_vectors m).element p
      = backprop_error n (fun l x => (n.activation_vectors l).element x) tgt
          (n.total_layers - 1 - m) p) ∧
  (∀ m, m < k → ∀ p, p < n.layer_sizes m → (G.activation_vectors m).element p = 0)

/-- The factor `error_value * derivative_value` of unit `j` of layer `l` for sample `s` of a
dataset (activations of `sample_forward`, targets of the dataset). -/
def sample_delta (expf : α → α) (network : NeuralNetwork α) (dataset : Matrix α)
    (s l j : Nat) : α :=
  backprop_delta network (sample_activation expf network dataset s) (target network dataset s) l j

/-- The contribution of sample `s` to the gradient of weight `(p, j)` of layer `m`. -/
def sample_weight_gradient (expf : α → α) (network : NeuralNetwork α) (dataset : Matrix α)
    (s m p j : Nat) : α :=
  sample_delta expf network dataset s (m + 1) j * sample_activation expf network dataset s m p

/-- The matrix that the averaging loop of `neural_network_compute_gradients` leaves in place
of the accumulator `gradient`. -/
def averaged_weights (gradient : Matrix α) (sample_count : Nat) : Matrix α :=
  { gradient with element := fun x =>
      if x < gradient.num_rows * gradient.num_columns then
        gradient.element x / (sample_count : α)
      else gradient.element x }

/-- The row that the averaging loop of `neural_network_compute_gradients` leaves in place of
the accumulator `gradient`. -/
def averaged_biases (gradient : Row α) (sample_count : Nat) : Row α :=
  { gradient with element := fun x =>
      if x < gradient.num_columns then gradient.element x / (sample_count : α)
      else gradient.element x }

/-- A network over `ℚ` with one input unit and one SIGMOID output unit, all parameters zero. -/
def single_unit_network : NeuralNetwork ℚ :=
  { layer_sizes := fun i => [1, 1].getD i 0
    total_layers := 2
    weight_matrices := fun _ => matrix_of_list 1 1 [0]
    bias_vectors := fun _ => { num_columns := 1, element := fun _ => 0 }
    activation_vectors := fun i => { num_columns := [1, 1].getD i 0, element := fun _ => 0 }
    activation_types := fun i => [ACTIVATION_NONE, ACTIVATION_SIGMOID].getD i ACTIVATION_SIGMOID }

/-- A dataset of one sample: feature 0, target 0. -/
def single_sample : Matrix ℚ := matrix_of_list 1 2 [0, 0]

/-- The one-row batch consisting of row `s` of a dataset, as
`matrix_create_row_slice(dataset, s, 1)` returns it. -/
def single_row_batch (dataset : Matrix α) (s : Nat) : Matrix α :=
  { num_rows := 1
    num_columns := dataset.num_columns
    element := fun i => dataset.element (s * dataset.num_columns + 0 + i) }

/-- The storage of the dataset is addressable: its size in bytes is a `size_t` value. -/
def dataset_in_memory (dataset : Matrix α) : Prop :=
  sizeof_float * dataset.num_rows * dataset.num_columns < SIZE_MODULUS

/-- The function `arena_create`, for a `malloc` that succeeds.  The buffer itself is not part
of the model; a fresh arena has no buffer in use. -/
def arena_create (size_in_bytes : Nat) : MemoryArena :=
  { total_capacity := size_sub (size_add size_in_bytes buffer_element_size) 1 / buffer_element_size
    used_buffers := 0 }

/-- The first `k` calls of `batch_process_training_data` that the loop of
`neural_network_train` makes: every call works on the arena, the cursor and the network that
the call before it left. -/
def batch_steps (expf : α → α) (batch_size : Nat) (training_dataset : Matrix α)
    (learning_rate : α) (k : Nat) (st : MemoryArena × BatchProcessor α × NeuralNetwork α) :
    Option (MemoryArena × BatchProcessor α × NeuralNetwork α) :=
  for_loop_opt k (fun _ st =>
    batch_process_training_data expf st.1 st.2.1 batch_size st.2.2 training_dataset
      learning_rate) st

/-- A dataset over `ℚ` of 100 rows of two features and one target. -/
def example_dataset_100 : Matrix ℚ :=
  { num_rows := 100, num_columns := 3, element := fun i => ((i % 7 : Nat) : ℚ) }

/-- The scan of `matrix_normalize_minmax` for the minimum and the maximum of column
`col_idx` (nn.c lines 881-888): both start at row 0, the loop
`for (row_idx = 1; row_idx < num_rows; ++row_idx)` makes `num_rows - 1` iterations.  The
result is `(column_min_value, column_max_value)`. -/
def column_extremes (target_matrix : Matrix α) (col_idx : Nat) : α × α :=
  for_loop (target_matrix.num_rows - 1) (fun k (st : α × α) =>
    let current_value := matrix_at target_matrix (k + 1) col_idx
    (if current_value < st.1 then current_value else st.1,
     if current_value > st.2 then current_value else st.2))
    (matrix_at target_matrix 0 col_idx, matrix_at target_matrix 0 col_idx)

/-- The local `value_range` of `matrix_normalize_minmax` (nn.c lines 891-892). -/
def column_value_range (target_matrix : Matrix α) (col_idx : Nat) : α :=
  if (column_extremes target_matrix col_idx).2 - (column_extremes target_matrix col_idx).1 = 0
  then 1
  else (column_extremes target_matrix col_idx).2 - (column_extremes target_matrix col_idx).1

/-- The function `matrix_normalize_minmax`, with `float` as an ordered field (exact
arithmetic on finite values). -/
def matrix_normalize_minmax (target_matrix : Matrix α) (num_input_columns : Nat)
    (new_min_value new_max_value : α) : Matrix α :=
  for_loop num_input_columns (fun col_idx m =>
    for_loop m.num_rows (fun row_idx m1 =>
      matrix_set m1 row_idx col_idx
        (((matrix_at m1 row_idx col_idx - (column_extremes m col_idx).1)
            / column_value_range m col_idx)
          * (new_max_value - new_min_value) + new_min_value)) m) target_matrix

/-- A 3 x 2 matrix over `ℚ`: column 0 holds 1, 3, 2 and column 1 is constant. -/
def example_columns : Matrix ℚ := matrix_of_list 3 2 [1, 5, 3, 5, 2, 5]

/-- The exchange of the rows `current_idx` and `random_idx` in `matrix_shuffle_rows`
(nn.c lines 770-774). -/
def matrix_swap_rows (target_matrix : Matrix α) (current_idx random_idx : Nat) : Matrix α :=
  for_loop target_matrix.num_columns (fun col_idx m =>
    let temp_value := matrix_at m current_idx col_idx
    let m1 := matrix_set m current_idx col_idx (matrix_at m random_idx col_idx)
    matrix_set m1 random_idx col_idx temp_value) target_matrix

/-- The function `matrix_shuffle_rows`.  The generator is a stream: call number `k` of
`rand()` returns `rand k`; the state of the loop is the matrix and the number of calls made
so far.  Inside the loop `current_idx < num_rows`, so `num_rows - current_idx` and the sum do
not wrap. -/
def matrix_shuffle_rows (rand : Nat → Nat) (target_matrix : Matrix α) (calls : Nat) :
    Matrix α × Nat :=
  if target_matrix.num_rows ≤ 1 then (target_matrix, calls)
  else
    for_loop target_matrix.num_rows (fun current_idx (st : Matrix α × Nat) =>
      let random_idx := current_idx + rand st.2 % (target_matrix.num_rows - current_idx)
      if current_idx ≠ random_idx then (matrix_swap_rows st.1 current_idx random_idx, st.2 + 1)
      else (st.1, st.2 + 1)) (target_matrix, calls)

/-- The rows of a matrix as a multiset, each row taken as the list of its column values. -/
def matrix_rows (m : Matrix α) : Multiset (List α) :=
  (Multiset.range m.num_rows).map fun i =>
    (List.range m.num_columns).map fun j => matrix_at m i j



/-- The swap target `random_idx` that iteration `i` of `matrix_shuffle_rows` computes on a
matrix of `n` rows, when `calls` calls of `rand()` were made before the shuffle. -/
def shuffle_target (rand : Nat → Nat) (n calls i : Nat) : Nat :=
  i + rand (calls + i) % (n - i)

/-- The row order after the first `k` iterations of the shuffle with swap targets `t`:
position `i` holds the row that was at `shuffle_order t k i`. -/
def shuffle_order (t : Nat → Nat) : Nat → Equiv.Perm Nat
  | 0 => 1
  | k + 1 => shuffle_order t k * Equiv.swap k (t k)

/-- The composition of the exchanges of the iterations `k, ..., k + d - 1`. -/
def shuffle_tail (t : Nat → Nat) : Nat → Nat → Equiv.Perm Nat
  | 0, _ => 1
  | d + 1, k => Equiv.swap k (t k) * shuffle_tail t d (k + 1)

/-- The function `arena_allocate_memory` on an arena, with the contents of `memory_buffer`
and the returned pointer made explicit: `buffer b` is byte `b` of the buffer, the pointer
`&memory_buffer[used_buffers]` is given by its word offset, and `memset` clears the
`size_in_bytes` bytes from the byte at `offset * sizeof(uintptr_t)` on.  The result is the
arena and the buffer after the call and the word offset of the region. -/
def arena_allocate_region (arena : MemoryArena) (buffer : Nat → Nat) (size_in_bytes : Nat) :
    Option (MemoryArena × (Nat → Nat) × Nat) :=
  if size_add arena.used_buffers (required_buffers size_in_bytes) ≤ arena.total_capacity then
    let allocated_memory := arena.used_buffers
    some ({ arena with
            used_buffers := size_add arena.used_buffers (required_buffers size_in_bytes) },
          (fun b =>
            if allocated_memory * buffer_element_size ≤ b ∧
                b < allocated_memory * buffer_element_size + size_in_bytes then 0
            else buffer b),
          allocated_memory)
  else none

/-- A value of the C type `float` (IEEE 754 binary32): a finite number, an infinity with its
sign, or a NaN.  The sign of a zero and the payload of a NaN are not modelled. -/
inductive Binary32 where
  | finite (value : ℚ)
  | infinite (negative : Bool)
  | nan
  deriving DecidableEq

/-- Rounding of a rational to the nearest integer, ties to the even one. -/
def round_half_even (t : ℚ) : ℤ :=
  if t - ⌊t⌋ < 1 / 2 then ⌊t⌋
  else if 1 / 2 < t - ⌊t⌋ then ⌊t⌋ + 1
  else if ⌊t⌋ % 2 = 0 then ⌊t⌋
  else ⌊t⌋ + 1

/-- The binary32 value of an exact result (round to nearest, ties to even): 24 significant
bits, least exponent -126 (below it the spacing stays `2^-149`), and overflow to an infinity
from `2^128 - 2^103` on, the midpoint between the greatest finite value and `2^128`. -/
def binary32_round (x : ℚ) : Binary32 :=
  if x = 0 then Binary32.finite 0
  else if 2 ^ 128 - 2 ^ 103 ≤ |x| then Binary32.infinite (decide (x < 0))
  else
    let exponent : ℤ := max (Int.log 2 |x|) (-126)
    let spacing : ℚ := 2 ^ (exponent - 23)
    Binary32.finite (round_half_even (x / spacing) * spacing)

/-- The operator `+` on `float`. -/
def binary32_add : Binary32 → Binary32 → Binary32
  | Binary32.finite x, Binary32.finite y => binary32_round (x + y)
  | Binary32.finite _, Binary32.infinite t => Binary32.infinite t
  | Binary32.infinite s, Binary32.finite _ => Binary32.infinite s
  | Binary32.infinite s, Binary32.infinite t =>
    if s = t then Binary32.infinite s else Binary32.nan
  | Binary32.nan, _ => Binary32.nan
  | _, Binary32.nan => Binary32.nan

/-- The operator `-` on `float`. -/
def binary32_sub : Binary32 → Binary32 → Binary32
  | Binary32.finite x, Binary32.finite y => binary32_round (x - y)
  | Binary32.finite _, Binary32.infinite t => Binary32.infinite (!t)
  | Binary32.infinite s, Binary32.finite _ => Binary32.infinite s
  | Binary32.infinite s, Binary32.infinite t =>
    if s = t then Binary32.nan else Binary32.infinite s
  | Binary32.nan, _ => Binary32.nan
  | _, Binary32.nan => Binary32.nan

/-- The operator `*` on `float`. -/
def binary32_mul : Binary32 → Binary32 → Binary32
  | Binary32.finite x, Binary32.finite y => binary32_round (x * y)
  | Binary32.finite x, Binary32.infinite t =>
    if x = 0 then Binary32.nan else Binary32.infinite (xor (decide (x < 0)) t)
  | Binary32.infinite s, Binary32.finite y =>
    if y = 0 then Binary32.nan else Binary32.infinite (xor s (decide (y < 0)))
  | Binary32.infinite s, Binary32.infinite t => Binary32.infinite (xor s t)
  | Binary32.nan, _ => Binary32.nan
  | _, Binary32.nan => Binary32.nan

/-- The operator `/` on `float`.  A nonzero finite value divided by zero is an infinity,
given here the sign of the dividend (the sign of the zero is not modelled). -/
def binary32_div : Binary32 → Binary32 → Binary32
  | Binary32.finite x, Binary32.finite y =>
    if y = 0 then (if x = 0 then Binary32.nan else Binary32.infinite (decide (x < 0)))
    else binary32_round (x / y)
  | Binary32.finite _, Binary32.infinite _ => Binary32.finite 0
  | Binary32.infinite s, Binary32.finite y => Binary32.infinite (xor s (decide (y < 0)))
  | Binary32.infinite _, Binary32.infinite _ => Binary32.nan
  | Binary32.nan, _ => Binary32.nan
  | _, Binary32.nan => Binary32.nan

/-- The operator `<` on `float`; a comparison with a NaN is false. -/
def binary32_lt : Binary32 → Binary32 → Bool
  | Binary32.finite x, Binary32.finite y => decide (x < y)
  | Binary32.finite _, Binary32.infinite t => !t
  | Binary32.infinite s, Binary32.finite _ => s
  | Binary32.infinite s, Binary32.infinite t => s && !t
  | Binary32.nan, _ => false
  | _, Binary32.nan => false

/-- The operator `==` on `float`; a NaN is equal to nothing. -/
def binary32_eq : Binary32 → Binary32 → Bool
  | Binary32.finite x, Binary32.finite y => decide (x = y)
  | Binary32.infinite s, Binary32.infinite t => decide (s = t)
  | _, _ => false

/-- The scan of `matrix_normalize_minmax` for the minimum and the maximum of column
`col_idx` (nn.c lines 881-888) in binary32, with the comparisons of `float`. -/
def column_extremes_binary32 (target_matrix : Matrix Binary32) (col_idx : Nat) :
    Binary32 × Binary32 :=
  for_loop (target_matrix.num_rows - 1) (fun k (st : Binary32 × Binary32) =>
    let current_value := matrix_at target_matrix (k + 1) col_idx
    (if binary32_lt current_value st.1 then current_value else st.1,
     if binary32_lt st.2 current_value then current_value else st.2))
    (matrix_at target_matrix 0 col_idx, matrix_at target_matrix 0 col_idx)

/-- The local `value_range` of `matrix_normalize_minmax` (nn.c lines 891-892) in binary32. -/
def column_value_range_binary32 (target_matrix : Matrix Binary32) (col_idx : Nat) : Binary32 :=
  if binary32_eq
      (binary32_sub (column_extremes_binary32 target_matrix col_idx).2
        (column_extremes_binary32 target_matrix col_idx).1) (Binary32.finite 0)
  then Binary32.finite 1
  else binary32_sub (column_extremes_binary32 target_matrix col_idx).2
    (column_extremes_binary32 target_matrix col_idx).1

/-- The function `matrix_normalize_minmax` in binary32: the loops of nn.c lines 876-902 with
every operation of the expression rounded to `float`, with infinities and NaN. -/
def matrix_normalize_minmax_binary32 (target_matrix : Matrix Binary32) (num_input_columns : Nat)
    (new_min_value new_max_value : Binary32) : Matrix Binary32 :=
  for_loop num_input_columns (fun col_idx m =>
    for_loop m.num_rows (fun row_idx m1 =>
      matrix_set m1 row_idx col_idx
        (binary32_add
          (binary32_mul
            (binary32_div
              (binary32_sub (matrix_at m1 row_idx col_idx) (column_extremes_binary32 m col_idx).1)
              (column_value_range_binary32 m col_idx))
            (binary32_sub new_max_value new_min_value))
          new_min_value)) m) target_matrix

/-- A matrix of `float` with every entry equal to `value`. -/
def constant_matrix (num_rows num_columns : Nat) (value : Binary32) : Matrix Binary32 :=
  { num_rows := num_rows, num_columns := num_columns, element := fun _ => value }

end Model

end NN

namespace Bellshade

/-! ## `math/algoritma_euclid.c` -/

/-- The loop `while (B != 0) { reminder = A % B; A = B; B = reminder; }` of `euklides`
and the `return A` after it; `%` on `int` truncates towards zero (`Int.tmod`). -/
def euklides_loop (A B : Int) : Int :=
  if _h : B = 0 then A else euklides_loop B (A.tmod B)
termination_by B.natAbs
decreasing_by
  rcases A with a | a <;> rcases B with b | b
  · have hb : b ≠ 0 := by rintro rfl; exact _h rfl
    show (Int.ofNat (a % b)).natAbs < _
    simpa using Nat.mod_lt a (Nat.pos_of_ne_zero hb)
  · show (Int.ofNat (a % (b+1))).natAbs < _
    simpa using Nat.mod_lt a (Nat.succ_pos b)
  · have hb : b ≠ 0 := by rintro rfl; exact _h rfl
    show (-Int.ofNat ((a+1) % b)).natAbs < _
    simpa using Nat.mod_lt (a+1) (Nat.pos_of_ne_zero hb)
  · show (-Int.ofNat ((a+1) % (b+1))).natAbs < _
    simpa using Nat.mod_lt (a+1) (Nat.succ_pos b)

/-- The function `euklides`; `none` is the `exit(1)` taken when `A < B`. -/
def euklides (A B : Int) : Option Int :=
  if A < B then none else some (euklides_loop A B)

/-! ## `algoritma/searching/linear_search.c` -/

/-- The loop of `linear_search` from index `i` with `remaining` iterations left;
`return i` leaves the loop, `return -1` follows it. -/
def linear_search_loop (array : Nat → Int) (target : Int) : Nat → Nat → Int
  | 0, _ => -1
  | remaining + 1, i =>
    if array i = target then (i : Int) else linear_search_loop array target remaining (i + 1)

/-- The function `linear_search(array, target, jumlah_elemen)`; the loop
`for (i = 0; i < jumlah_elemen; i++)` runs `jumlah_elemen` times (no iteration when
`jumlah_elemen` is negative). -/
def linear_search (array : Nat → Int) (target : Int) (jumlah_elemen : Int) : Int :=
  linear_search_loop array target jumlah_elemen.toNat 0

/-- The array `{30, 1, 91, 63, 3, 32}` of `main` in `linear_search.c`. -/
def linear_search_example : Nat → Int := fun i => [30, 1, 91, 63, 3, 32].getD i 0

/-! ## `hashing/hash_xor8.c` -/

/-- The function `xor8`; the string is the list of its characters before the terminating
`'\0'`, `hash` is a `uint8_t`. -/
def xor8 (s : List Nat) : Nat :=
  let hash := s.foldl (fun hash c => (hash + c) &&& 0xff) 0
  ((hash ^^^ 0xff) + 1) &&& 0xff

/-- The string `"bellshade C"` of `main` in `hash_xor8.c`, as character codes. -/
def xor8_example : List Nat := [98, 101, 108, 108, 115, 104, 97, 100, 101, 32, 67]

/-! ## Sorting: specification vocabulary -/

/-- The first `n` elements of `b` are in non-decreasing order. -/
def sorted_below (n : Nat) (b : Nat → Int) : Prop :=
  ∀ i j, i ≤ j → j < n → b i ≤ b j

/-- The list of the first `n` elements of an array. -/
def first_elements (n : Nat) (a : Nat → Int) : List Int :=
  (List.range n).map a

/-- The array `b` is the array `a` with its first `n` elements rearranged by a permutation of
the indices `0 .. n-1`. -/
def permutation_below (n : Nat) (a b : Nat → Int) : Prop :=
  ∃ σ : Equiv.Perm Nat, (∀ i, n ≤ i → σ i = i) ∧ ∀ i, b i = a (σ i)

/-! ## `algoritma/sorting/bubble_sort.c` -/

/-- The function `tukar` applied to `&array[i]` and `&array[j]`. -/
def tukar (array : Nat → Int) (i j : Nat) : Nat → Int :=
  Function.update (Function.update array i (array j)) j (array i)

/-- The first `k` iterations (`indeks = 1 .. k`) of the `for` loop of `bubble_sort`; the
result is the array and `newn`. -/
def bubble_pass (array : Nat → Int) : Nat → (Nat → Int) × Nat
  | 0 => (array, 0)
  | k + 1 =>
    let st := bubble_pass array k
    if st.1 k > st.1 (k + 1) then (tukar st.1 k (k + 1), k + 1) else st

/-- The `do ... while (jumlah_elemen > 1)` loop of `bubble_sort`, run for at most `fuel`
passes (`none`: more passes are needed). -/
def bubble_loop : Nat → (Nat → Int) → Nat → Option (Nat → Int)
  | 0, _, _ => none
  | fuel + 1, array, jumlah_elemen =>
    let st := bubble_pass array (jumlah_elemen - 1)
    if st.2 > 1 then bubble_loop fuel st.1 st.2 else some st.1

/-- The function `bubble_sort(array, jumlah_elemen)`, run for at most `fuel` passes; the `for`
loop `for (indeks = 1; indeks < jumlah_elemen; indeks++)` makes `jumlah_elemen - 1`
iterations (none when `jumlah_elemen ≤ 1`). -/
def bubble_sort (fuel : Nat) (array : Nat → Int) (jumlah_elemen : Int) : Option (Nat → Int) :=
  bubble_loop fuel array jumlah_elemen.toNat

/-- The array `{4, 2, 0, 1, 3, 9, 5, 7, 8, 6}` of `main` in the sorting programs. -/
def sort_example : Nat → Int := fun i => [4, 2, 0, 1, 3, 9, 5, 7, 8, 6].getD i 0

/-! ## `algoritma/sorting/insertion_sort.c` -/

/-- The loop `while ((j > 0) && (array[j-1] > x)) { array[j] = array[j-1]; --j; }` of
`insertion_sort`, entered with the given `j`; the result is the array and the final `j`. -/
def insertion_shift (x : Int) : Nat → (Nat → Int) → (Nat → Int) × Nat
  | 0, array => (array, 0)
  | j + 1, array =>
    if array j > x then insertion_shift x j (Function.update array (j + 1) (array j))
    else (array, j + 1)

/-- Body of the `for` loop of `insertion_sort`. -/
def insertion_step (indeks : Nat) (array : Nat → Int) : Nat → Int :=
  let x := array indeks
  let st := insertion_shift x indeks array
  Function.update st.1 st.2 x

/-- The first `k` iterations (`indeks = 1 .. k`) of the `for` loop of `insertion_sort`. -/
def insertion_steps (array : Nat → Int) : Nat → (Nat → Int)
  | 0 => array
  | k + 1 => insertion_step (k + 1) (insertion_steps array k)

/-- The function `insertion_sort(array, jumlah_elemen)`; the loop
`for (indeks = 1; indeks < jumlah_elemen; indeks++)` makes `jumlah_elemen - 1` iterations
(none when `jumlah_elemen ≤ 1`). -/
def insertion_sort (array : Nat → Int) (jumlah_elemen : Int) : Nat → Int :=
  insertion_steps array (jumlah_elemen.toNat - 1)

/-! ## `math/stats_deskriptif.c` -/

/-- The constant `INT_MAX` of `<limits.h>` (32-bit `int`). -/
def INT_MAX : Int := 2147483647

/-- The function `jangkauan(arr, n)`.  The state of the loop is `(mx, mn)`; `int` values are
integers (the difference of two values that the loop can store from non-negative data does
not overflow). -/
def jangkauan (arr : Nat → Int) (n : Int) : Int :=
  let st := NN.for_loop n.toNat (fun i (st : Int × Int) =>
    if arr i > st.1 then (arr i, st.2) else (st.1, arr i)) (-1, INT_MAX)
  |st.1 - st.2|

/-- The test case `arr = [1, 2, 2, 3, 3, 4, 5]` given in `main` of `stats_deskriptif.c`. -/
def stats_example : Nat → Int := fun i => [1, 2, 2, 3, 3, 4, 5].getD i 0

/-- The function `modus(arr, n, mx)`.  `freq` comes from `malloc`: its initial content
`freq0` is whatever the memory holds.  An element of `arr` is used as an index into `freq`.
The second loop `for (i = 0; i <= mx; i++)` makes `mx + 1` iterations; its state is `Modus`. -/
def modus (freq0 : Nat → Int) (arr : Nat → Int) (n mx : Int) : Int :=
  let freq := NN.for_loop n.toNat (fun i (freq : Nat → Int) =>
    Function.update freq (arr i).toNat (freq (arr i).toNat + 1)) freq0
  NN.for_loop (mx + 1).toNat (fun i (Modus : Int) =>
    if freq i > 0 ∧ freq i > Modus then (i : Int) else Modus) (-1)

/-- The data `[4, 9, 9]`. -/
def modus_example : Nat → Int := fun i => [4, 9, 9].getD i 0

/-! ## `math/linear_regression.c` -/

/-- The conversion of a `double` to `int`: the fractional part is discarded (truncation
toward zero); `double` values are exact rationals. -/
def double_to_int (x : ℚ) : Int := if 0 ≤ x then ⌊x⌋ else ⌈x⌉

/-- The function `square_x(data_x, n)`: the local `square` is an `int`. -/
def square_x (data_x : Nat → ℚ) (n : Int) : ℚ :=
  NN.for_loop n.toNat (fun i (sum : ℚ) =>
    let square : Int := double_to_int (data_x i * data_x i)
    sum + (square : ℚ)) 0

/-- The function `square_y(data_y, n)`: the local `square` is a `double`. -/
def square_y (data_y : Nat → ℚ) (n : Int) : ℚ :=
  NN.for_loop n.toNat (fun i (sum : ℚ) =>
    let square : ℚ := data_y i * data_y i
    sum + square) 0

/-! ## `math/deret_aritmatika.c` -/

/-- The function `beda(deret)`; the array is the list of its stored terms, a read outside of
them has no value. -/
def beda (deret : List Int) : Option Int :=
  deret[1]?.bind fun d1 => deret[0]?.bind fun d0 => some (d1 - d0)

/-- The function `suku_pertama(deret)`. -/
def suku_pertama (deret : List Int) : Option Int :=
  deret[0]?

/-- The function `suku_n(deret, x, n)`; `int` values are integers. -/
def suku_n (deret : List Int) (x n : Int) : Option Int :=
  if x ≤ n ∧ x ≥ 0 then deret[x.toNat]?
  else
    (suku_pertama deret).bind fun a =>
    (beda deret).bind fun b =>
      let deno := (x - 1) * b
      some (a + deno)

end Bellshade

/-! # Theorems -/

namespace NN

open ActivationType

section Theorems

set_option linter.unusedSectionVars false

variable {α : Type}

/-! ## Loop principles -/

theorem for_loop_succ {σ : Type} (k : Nat) (body : Nat → σ → σ) (s : σ) :
    for_loop (k + 1) body s = body k (for_loop k body s) := rfl

theorem for_loop_zero {σ : Type} (body : Nat → σ → σ) (s : σ) :
    for_loop 0 body s = s := rfl

/-- Invariant rule for `for_loop`. -/
theorem for_loop_invariant {σ : Type} (P : Nat → σ → Prop) (n : Nat) (body : Nat → σ → σ)
    (s : σ) (h0 : P 0 s) (hstep : ∀ i t, i < n → P i t → P (i + 1) (body i t)) :
    P n (for_loop n body s) := by
  induction n with
  | zero => exact h0
  | succ k ih =>
    rw [for_loop_succ]
    exact hstep k _ (Nat.lt_succ_self k)
      (ih (fun i t hi hP => hstep i t (Nat.lt_succ_of_lt hi) hP))

/-- Invariant rule for `for_loop_opt`: a body that succeeds under the invariant makes the
loop succeed. -/
theorem for_loop_opt_invariant {σ : Type} (P : Nat → σ → Prop) (n : Nat)
    (body : Nat → σ → Option σ) (s : σ) (h0 : P 0 s)
    (hstep : ∀ i t, i < n → P i t → ∃ t', body i t = some t' ∧ P (i + 1) t') :
    ∃ t, for_loop_opt n body s = some t ∧ P n t := by
  induction n with
  | zero => exact ⟨s, rfl, h0⟩
  | succ k ih =>
    obtain ⟨t, ht, hP⟩ := ih (fun i t hi hP => hstep i t (Nat.lt_succ_of_lt hi) hP)
    obtain ⟨t', ht', hP'⟩ := hstep k t (Nat.lt_succ_self k) hP
    exact ⟨t', by simp [for_loop_opt, ht, ht'], hP'⟩

/-- Invariant rule for `for_loop_down`: `P k` holds when the layers above `k` are done. -/
theorem for_loop_down_invariant {σ : Type} (P : Nat → σ → Prop) (n : Nat)
    (body : Nat → σ → σ) (s : σ) (h0 : P n s)
    (hstep : ∀ i t, i < n → P (i + 1) t → P i (body (i + 1) t)) :
    P 0 (for_loop_down n body s) := by
  induction n generalizing s with
  | zero => exact h0
  | succ k ih =>
    show P 0 (for_loop_down k body (body (k + 1) s))
    exact ih _ (hstep k s (Nat.lt_succ_self k) h0)
      (fun i t hi hP => hstep i t (Nat.lt_succ_of_lt hi) hP)

/-! ## Element-wise loops -/

/-- A loop over the columns of row `i` that rewrites each cell from its own old value. -/
theorem for_loop_row_cells (i c : Nat) (g : Nat → α → α) (m : Matrix α) :
    for_loop c (fun j m => matrix_set m i j (g j (matrix_at m i j))) m
      = { m with element := fun x =>
            if i * m.num_columns ≤ x ∧ x < i * m.num_columns + c
            then g (x - i * m.num_columns) (m.element x) else m.element x } := by
  induction c with
  | zero =>
    cases m with
    | mk r C e =>
      simp only [for_loop, Nat.add_zero]
      congr 1
      funext x
      have h : ¬ (i * C ≤ x ∧ x < i * C) := fun h => absurd h.2 (Nat.not_lt.mpr h.1)
      simp [h]
  | succ k ih =>
    rw [for_loop_succ, ih]
    cases m with
    | mk r C e =>
      simp only [matrix_set, matrix_at]
      congr 1
      funext x
      by_cases hx : x = i * C + k
      · subst hx
        simp
      · rw [Function.update_noteq hx]
        by_cases h1 : i * C ≤ x ∧ x < i * C + k
        · have h2 : i * C ≤ x ∧ x < i * C + (k + 1) := ⟨h1.1, by omega⟩
          simp [h1, h2]
        · have h2 : ¬ (i * C ≤ x ∧ x < i * C + (k + 1)) := by
            intro h
            apply h1
            refine ⟨h.1, ?_⟩
            have := h.2
            omega
          simp [h1, h2]

/-- The two nested loops over the cells of a matrix, each cell rewritten from its own old
value: closed form of the resulting storage. -/
theorem for_loop_cells (R C : Nat) (g : Nat → Nat → α → α) (m0 : Matrix α)
    (hC : m0.num_columns = C) :
    for_loop R (fun i m => for_loop C (fun j m => matrix_set m i j (g i j (matrix_at m i j))) m) m0
      = { m0 with element := fun x =>
            if x < R * C then g (x / C) (x % C) (m0.element x) else m0.element x } := by
  induction R with
  | zero =>
    cases m0
    simp [for_loop]
  | succ k ih =>
    rw [for_loop_succ, ih, for_loop_row_cells]
    cases m0 with
    | mk r C' e =>
      simp only at hC
      subst hC
      simp only
      congr 1
      funext x
      by_cases h1 : k * C' ≤ x ∧ x < k * C' + C'
      · have hpos : 0 < C' := by omega
        have h2 : x < (k + 1) * C' := by rw [Nat.succ_mul]; exact h1.2
        have h3 : ¬ x < k * C' := by omega
        have h4 : x / C' = k := by
          apply Nat.div_eq_of_lt_le
          · rw [Nat.mul_comm] at h1; rw [Nat.mul_comm]; exact h1.1
          · rw [Nat.succ_mul] ; exact h1.2
        have h5 : x % C' = x - k * C' := by
          have := Nat.div_add_mod x C'
          rw [h4] at this
          rw [Nat.mul_comm] at this
          omega
        simp [h1, h2, h3, h4, h5]
      · by_cases h6 : x < k * C'
        · have h2 : x < (k + 1) * C' := by rw [Nat.succ_mul]; omega
          simp [h1, h2, h6]
        · have h2 : ¬ x < (k + 1) * C' := by
            rw [Nat.succ_mul]
            intro h
            apply h1
            exact ⟨by omega, h⟩
          simp [h1, h2, h6]

/-- A loop over the entries of a row, each entry rewritten from its own old value. -/
theorem for_loop_row_entries (n : Nat) (g : Nat → α → α) (r : Row α) :
    for_loop n (fun i r => row_set r i (g i (r.element i))) r
      = { r with element := fun x => if x < n then g x (r.element x) else r.element x } := by
  induction n with
  | zero =>
    cases r
    simp [for_loop]
  | succ k ih =>
    rw [for_loop_succ, ih]
    cases r with
    | mk C e =>
      simp only [row_set]
      congr 1
      funext x
      by_cases hx : x = k
      · subst hx
        simp
      · rw [Function.update_noteq hx]
        by_cases h1 : x < k
        · have h2 : x < k + 1 := by omega
          simp [h1, h2]
        · have h2 : ¬ x < k + 1 := by omega
          simp [h1, h2]

/-- Reading cell `(i, j)` of a flat storage with `C` columns. -/
theorem flat_index_div (i j C : Nat) (hj : j < C) : (i * C + j) / C = i := by
  rw [Nat.mul_comm, Nat.mul_add_div (by omega), Nat.div_eq_of_lt hj, Nat.add_zero]

theorem flat_index_mod (i j C : Nat) (hj : j < C) : (i * C + j) % C = j := by
  rw [Nat.mul_comm, Nat.mul_add_mod, Nat.mod_eq_of_lt hj]

theorem flat_index_lt (i j R C : Nat) (hi : i < R) (hj : j < C) : i * C + j < R * C := by
  calc i * C + j < i * C + C := by omega
    _ = (i + 1) * C := by rw [Nat.succ_mul]
    _ ≤ R * C := Nat.mul_le_mul_right C hi

theorem matrix_set_set (m : Matrix α) (i j : Nat) (x y : α) :
    matrix_set (matrix_set m i j x) i j y = matrix_set m i j y := by
  simp [matrix_set]

theorem matrix_at_set (m : Matrix α) (i j : Nat) (x : α) :
    matrix_at (matrix_set m i j x) i j = x := by
  simp [matrix_set, matrix_at]

variable [LinearOrderedField α]

/-- The innermost loop of `matrix_multiply_dot_product` leaves the dot product in the cell. -/
theorem dot_product_cell (k i j : Nat) (f : Nat → α) (m0 : Matrix α) :
    for_loop k (fun t m => matrix_set m i j (matrix_at m i j + f t)) (matrix_set m0 i j 0)
      = matrix_set m0 i j (∑ t ∈ Finset.range k, f t) := by
  induction k with
  | zero => simp [for_loop]
  | succ n ih =>
    rw [for_loop_succ, ih, matrix_at_set, matrix_set_set, Finset.sum_range_succ]

/-- Closed form of the storage written by `matrix_multiply_dot_product`. -/
theorem matrix_multiply_dot_product_eq (result a b : Matrix α)
    (h1 : a.num_columns = b.num_rows) (h2 : result.num_rows = a.num_rows)
    (h3 : result.num_columns = b.num_columns) :
    matrix_multiply_dot_product result a b
      = some { result with element := fun x =>
          if x < result.num_rows * result.num_columns then
            (∑ t ∈ Finset.range a.num_columns,
              matrix_at a (x / result.num_columns) t * matrix_at b t (x % result.num_columns))
          else result.element x } := by
  unfold matrix_multiply_dot_product
  rw [if_pos h1, if_pos h2, if_pos h3]
  simp only [dot_product_cell]
  rw [for_loop_cells result.num_rows result.num_columns
    (fun i j _ => ∑ t ∈ Finset.range a.num_columns, matrix_at a i t * matrix_at b t j) result rfl]

/-- C2. `matrix_multiply_dot_product` on matrices `a` (m x k), `b` (k x n) and a result
matrix (m x n) with its own storage returns, whatever the result matrix held, the matrix
whose entry `(i, j)` is the sum over `t < k` of `a[i][t] * b[t][j]`; a 1 x 1 product is the
product of the entries, and `[[1,2],[3,4]] x [[5,6],[7,8]] = [[19,22],[43,50]]`. -/
theorem matrix_multiply_dot_product_spec :
    (∀ result a b : Matrix α, a.num_columns = b.num_rows → result.num_rows = a.num_rows →
      result.num_columns = b.num_columns →
      ∃ r, matrix_multiply_dot_product result a b = some r ∧
        r.num_rows = result.num_rows ∧ r.num_columns = result.num_columns ∧
        ∀ i j, i < a.num_rows → j < b.num_columns →
          matrix_at r i j = ∑ t ∈ Finset.range a.num_columns, matrix_at a i t * matrix_at b t j) ∧
    (∀ (x y : α) (old : Nat → α),
      ∃ r, matrix_multiply_dot_product ⟨1, 1, old⟩ (matrix_of_list 1 1 [x]) (matrix_of_list 1 1 [y])
          = some r ∧ r.num_rows = 1 ∧ r.num_columns = 1 ∧ matrix_at r 0 0 = x * y) ∧
    (∀ old : Nat → α,
      ∃ r, matrix_multiply_dot_product ⟨2, 2, old⟩ (matrix_of_list 2 2 [1, 2, 3, 4])
            (matrix_of_list 2 2 [5, 6, 7, 8]) = some r ∧
        r.num_rows = 2 ∧ r.num_columns = 2 ∧
        matrix_at r 0 0 = 19 ∧ matrix_at r 0 1 = 22 ∧ matrix_at r 1 0 = 43 ∧ matrix_at r 1 1 = 50) := by
  have general : ∀ result a b : Matrix α, a.num_columns = b.num_rows →
      result.num_rows = a.num_rows → result.num_columns = b.num_columns →
      ∃ r, matrix_multiply_dot_product result a b = some r ∧
        r.num_rows = result.num_rows ∧ r.num_columns = result.num_columns ∧
        ∀ i j, i < a.num_rows → j < b.num_columns →
          matrix_at r i j = ∑ t ∈ Finset.range a.num_columns, matrix_at a i t * matrix_at b t j := by
    intro result a b h1 h2 h3
    refine ⟨_, matrix_multiply_dot_product_eq result a b h1 h2 h3, rfl, rfl, ?_⟩
    intro i j hi hj
    have hj' : j < result.num_columns := by omega
    have hi' : i < result.num_rows := by omega
    simp only [matrix_at]
    rw [if_pos (flat_index_lt i j _ _ hi' hj'), flat_index_div i j _ hj', flat_index_mod i j _ hj']
  refine ⟨general, ?_, ?_⟩
  · intro x y old
    obtain ⟨r, hr, hrows, hcols, hcell⟩ :=
      general ⟨1, 1, old⟩ (matrix_of_list 1 1 [x]) (matrix_of_list 1 1 [y]) rfl rfl rfl
    refine ⟨r, hr, hrows, hcols, ?_⟩
    rw [hcell 0 0 (by simp [matrix_of_list]) (by simp [matrix_of_list])]
    simp [matrix_of_list, matrix_at]
  · intro old
    obtain ⟨r, hr, hrows, hcols, hcell⟩ :=
      general ⟨2, 2, old⟩ (matrix_of_list 2 2 [1, 2, 3, 4]) (matrix_of_list 2 2 [5, 6, 7, 8])
        rfl rfl rfl
    refine ⟨r, hr, hrows, hcols, ?_, ?_, ?_, ?_⟩
    · rw [hcell 0 0 (by simp [matrix_of_list]) (by simp [matrix_of_list])]
      simp [matrix_of_list, matrix_at, Finset.sum_range_succ]
      norm_num
    · rw [hcell 0 1 (by simp [matrix_of_list]) (by simp [matrix_of_list])]
      simp [matrix_of_list, matrix_at, Finset.sum_range_succ]
      norm_num
    · rw [hcell 1 0 (by simp [matrix_of_list]) (by simp [matrix_of_list])]
      simp [matrix_of_list, matrix_at, Finset.sum_range_succ]
      norm_num
    · rw [hcell 1 1 (by simp [matrix_of_list]) (by simp [matrix_of_list])]
      simp [matrix_of_list, matrix_at, Finset.sum_range_succ]
      norm_num

/-- Witness for C2: the general statement applied to a 2 x 3 by 3 x 2 product over `ℚ`. -/
theorem matrix_multiply_dot_product_spec_witness :
    ((matrix_of_list 2 3 [1, 2, 3, 4, 5, 6] : Matrix ℚ).num_columns
        = (matrix_of_list 3 2 [1, 0, 0, 1, 1, 1] : Matrix ℚ).num_rows ∧
      (matrix_of_list 2 2 [7, 7, 7, 7] : Matrix ℚ).num_rows
        = (matrix_of_list 2 3 [1, 2, 3, 4, 5, 6] : Matrix ℚ).num_rows ∧
      (matrix_of_list 2 2 [7, 7, 7, 7] : Matrix ℚ).num_columns
        = (matrix_of_list 3 2 [1, 0, 0, 1, 1, 1] : Matrix ℚ).num_columns) ∧
    ∃ r, matrix_multiply_dot_product (matrix_of_list 2 2 [7, 7, 7, 7] : Matrix ℚ)
        (matrix_of_list 2 3 [1, 2, 3, 4, 5, 6]) (matrix_of_list 3 2 [1, 0, 0, 1, 1, 1]) = some r ∧
      r.num_rows = 2 ∧ r.num_columns = 2 ∧
      ∀ i j, i < 2 → j < 2 →
        matrix_at r i j = ∑ t ∈ Finset.range 3,
          matrix_at (matrix_of_list 2 3 [1, 2, 3, 4, 5, 6] : Matrix ℚ) i t
            * matrix_at (matrix_of_list 3 2 [1, 0, 0, 1, 1, 1] : Matrix ℚ) t j :=
  ⟨⟨rfl, rfl, rfl⟩,
    matrix_multiply_dot_product_spec.1 (matrix_of_list 2 2 [7, 7, 7, 7])
      (matrix_of_list 2 3 [1, 2, 3, 4, 5, 6]) (matrix_of_list 3 2 [1, 0, 0, 1, 1, 1]) rfl rfl rfl⟩


/-- Closed form of `matrix_add_elementwise`. -/
theorem matrix_add_elementwise_eq (dst src : Matrix α) (h1 : dst.num_rows = src.num_rows)
    (h2 : dst.num_columns = src.num_columns) :
    matrix_add_elementwise dst src
      = some { dst with element := fun x =>
          if x < dst.num_rows * dst.num_columns then
            (dst.element x + matrix_at src (x / dst.num_columns) (x % dst.num_columns))
          else dst.element x } := by
  unfold matrix_add_elementwise
  rw [if_pos h1, if_pos h2]
  rw [for_loop_cells dst.num_rows dst.num_columns (fun i j old => old + matrix_at src i j) dst rfl]

/-- Closed form of `matrix_apply_activation`. -/
theorem matrix_apply_activation_eq (expf : α → α) (m : Matrix α) (t : ActivationType) :
    matrix_apply_activation expf m t
      = { m with element := fun x =>
          if x < m.num_rows * m.num_columns then activation_apply expf (m.element x) t
          else m.element x } := by
  unfold matrix_apply_activation
  rw [for_loop_cells m.num_rows m.num_columns (fun _ _ old => activation_apply expf old t) m rfl]

/-- Closed form of one iteration of the layer loop of the forward pass. -/
theorem neural_network_forward_layer_eq (expf : α → α) (network : NeuralNetwork α) (i : Nat)
    (h1 : (network.activation_vectors i).num_columns = (network.weight_matrices i).num_rows)
    (h2 : (network.activation_vectors (i + 1)).num_columns
      = (network.weight_matrices i).num_columns)
    (h3 : (network.activation_vectors (i + 1)).num_columns
      = (network.bias_vectors i).num_columns) :
    neural_network_forward_layer expf i network
      = some { network with
          activation_vectors := Function.update network.activation_vectors (i + 1)
            { num_columns := (network.activation_vectors (i + 1)).num_columns
              element := fun x =>
                if x < (network.activation_vectors (i + 1)).num_columns then
                  forward_layer_value expf network i x
                else (network.activation_vectors (i + 1)).element x } } := by
  unfold neural_network_forward_layer
  rw [matrix_multiply_dot_product_eq (row_convert_to_matrix (network.activation_vectors (i + 1)))
    (row_convert_to_matrix (network.activation_vectors i)) (network.weight_matrices i) h1 rfl h2]
  simp only [Option.some_bind]
  rw [matrix_add_elementwise_eq]
  · rw [Option.some_bind, matrix_apply_activation_eq]
    simp only [row_convert_to_matrix, row_of_view, Nat.one_mul]
    congr 2
    refine congrArg (Function.update network.activation_vectors (i + 1)) ?_
    congr 1
    funext x
    by_cases hx : x < (network.activation_vectors (i + 1)).num_columns
    · simp [hx, forward_layer_value, matrix_at, Nat.div_eq_of_lt hx, Nat.mod_eq_of_lt hx]
    · simp [hx]
  · rfl
  · exact h3

theorem same_parameters_refl (a : NeuralNetwork α) : same_parameters a a :=
  ⟨rfl, rfl, rfl, rfl, rfl, fun _ => rfl⟩

theorem same_parameters_trans {a b c : NeuralNetwork α} (h1 : same_parameters a b)
    (h2 : same_parameters b c) : same_parameters a c := by
  obtain ⟨hsizes, hlayers, hweights, hbiases, htags, hlen⟩ := h1
  obtain ⟨ksizes, klayers, kweights, kbiases, ktags, klen⟩ := h2
  exact ⟨ksizes.trans hsizes, klayers.trans hlayers, kweights.trans hweights,
    kbiases.trans hbiases, ktags.trans htags, fun l => (klen l).trans (hlen l)⟩

theorem same_parameters_shape {a b : NeuralNetwork α} (h : same_parameters a b)
    (ha : shape_invariant a) : shape_invariant b := by
  obtain ⟨a1, a2, a3, a4, a5, a6⟩ := h
  obtain ⟨s1, s2, s3⟩ := ha
  refine ⟨by rw [a2]; exact s1, ?_, ?_⟩
  · intro i hi
    rw [a2] at hi
    rw [a3, a4, a1]
    exact s2 i hi
  · intro i hi
    rw [a2] at hi
    rw [a6, a1]
    exact s3 i hi

/-- Writing the contents of one activation vector keeps the parameters. -/
theorem same_parameters_update (a : NeuralNetwork α) (l : Nat) (r : Row α)
    (hr : r.num_columns = (a.activation_vectors l).num_columns) :
    same_parameters a { a with activation_vectors := Function.update a.activation_vectors l r } := by
  refine ⟨rfl, rfl, rfl, rfl, rfl, ?_⟩
  intro l'
  by_cases h : l' = l
  · subst h
    simp [hr]
  · simp [Function.update_noteq h]

/-- The value written by a layer step depends on the previous activation vector and on the
parameters only. -/
theorem forward_layer_value_congr (expf : α → α) (n' n : NeuralNetwork α) (i j : Nat)
    (h1 : n'.activation_vectors i = n.activation_vectors i)
    (h2 : n'.weight_matrices = n.weight_matrices) (h3 : n'.bias_vectors = n.bias_vectors)
    (h4 : n'.activation_types = n.activation_types) :
    forward_layer_value expf n' i j = forward_layer_value expf n i j := by
  simp only [forward_layer_value, h1, h2, h3, h4]

/-- The forward pass of a network that satisfies the shape invariant succeeds; it writes the
activation vectors `1 .. L-1` only, and each written entry is the value computed by the layer
step from the already written previous layer. -/
theorem neural_network_forward_pass_correct (expf : α → α) (network : NeuralNetwork α)
    (hinv : shape_invariant network) :
    ∃ network', neural_network_forward_pass expf network = some network' ∧
      same_parameters network network' ∧
      network'.activation_vectors 0 = network.activation_vectors 0 ∧
      (∀ l, network.total_layers ≤ l →
        network'.activation_vectors l = network.activation_vectors l) ∧
      ∀ i j, i + 1 < network.total_layers → j < (network.activation_vectors (i + 1)).num_columns →
        (network'.activation_vectors (i + 1)).element j = forward_layer_value expf network' i j := by
  obtain ⟨hL, hW, hA⟩ := hinv
  unfold neural_network_forward_pass
  rw [if_pos (by omega)]
  have key := for_loop_opt_invariant
    (fun k (n : NeuralNetwork α) =>
      same_parameters network n ∧
      (∀ l, l = 0 ∨ k < l → n.activation_vectors l = network.activation_vectors l) ∧
      ∀ i j, i < k → j < (network.activation_vectors (i + 1)).num_columns →
        (n.activation_vectors (i + 1)).element j = forward_layer_value expf n i j)
    (network.total_layers - 1) (neural_network_forward_layer expf) network
    ⟨same_parameters_refl network, fun _ _ => rfl, fun i j hi _ => absurd hi (Nat.not_lt_zero i)⟩
    (by
      intro k n hk ⟨hsp, hfr, hval⟩
      obtain ⟨p1, p2, p3, p4, p5, p6⟩ := hsp
      have hk1 : k + 1 < network.total_layers := by omega
      have hk0 : k < network.total_layers := by omega
      have e1 : (n.activation_vectors k).num_columns = (n.weight_matrices k).num_rows := by
        rw [p6, p3, hA k hk0, (hW k hk1).1]
      have e2 : (n.activation_vectors (k + 1)).num_columns
          = (n.weight_matrices k).num_columns := by
        rw [p6, p3, hA (k + 1) hk1, (hW k hk1).2.1]
      have e3 : (n.activation_vectors (k + 1)).num_columns
          = (n.bias_vectors k).num_columns := by
        rw [p6, p4, hA (k + 1) hk1, (hW k hk1).2.2]
      refine ⟨_, neural_network_forward_layer_eq expf n k e1 e2 e3, ?_, ?_, ?_⟩
      · exact same_parameters_trans ⟨p1, p2, p3, p4, p5, p6⟩
          (same_parameters_update n (k + 1) _ rfl)
      · intro l hl
        have hne : l ≠ k + 1 := by omega
        simp only [Function.update_noteq hne]
        exact hfr l (by omega)
      · intro i j hi hj
        have hcongr : ∀ l, l ≠ k + 1 → ∀ x,
            forward_layer_value expf
              { n with
                activation_vectors := Function.update n.activation_vectors (k + 1)
                  ({ num_columns := (n.activation_vectors (k + 1)).num_columns
                     element := fun x =>
                      if x < (n.activation_vectors (k + 1)).num_columns then
                        forward_layer_value expf n k x
                      else (n.activation_vectors (k + 1)).element x } : Row α) } l x
              = forward_layer_value expf n l x := by
          intro l hl x
          exact forward_layer_value_congr expf _ n l x (Function.update_noteq hl _ _) rfl rfl rfl
        by_cases hik : i = k
        · subst hik
          have hj' : j < (n.activation_vectors (i + 1)).num_columns := by rw [p6]; exact hj
          rw [hcongr i (by omega)]
          simp only [Function.update_same, if_pos hj']
        · have hlt : i < k := by omega
          rw [hcongr i (by omega)]
          simp only [Function.update_noteq (show i + 1 ≠ k + 1 by omega)]
          exact hval i j hlt hj)
  obtain ⟨n, hn, hsp, hfr, hval⟩ := key
  refine ⟨n, hn, hsp, hfr 0 (Or.inl rfl), fun l hl => hfr l (Or.inr (by omega)), ?_⟩
  intro i j hi hj
  exact hval i j (by omega) hj

/-- C21. `activation_compute_derivative` is expressed in the activated value `y`: it returns
`y * (1 - y)` for SIGMOID, `1 - y * y` for TANH, `1` if `y ≥ 0` and `0` otherwise for RELU
(so `y = 0` gives `1`), and `1` for NONE; for every `x`,
`derivative(sigmoid(x), SIGMOID) = sigmoid(x) * (1 - sigmoid(x))`. -/
theorem activation_compute_derivative_spec (expf : α → α) :
    (∀ y : α, activation_compute_derivative y ACTIVATION_SIGMOID = y * (1 - y)) ∧
    (∀ y : α, activation_compute_derivative y ACTIVATION_TANH = 1 - y * y) ∧
    (∀ y : α, activation_compute_derivative y ACTIVATION_RELU = if y ≥ 0 then 1 else 0) ∧
    activation_compute_derivative (0 : α) ACTIVATION_RELU = 1 ∧
    (∀ y : α, activation_compute_derivative y ACTIVATION_NONE = 1) ∧
    (∀ x : α,
      activation_compute_derivative (activation_apply expf x ACTIVATION_SIGMOID) ACTIVATION_SIGMOID
        = activation_sigmoid expf x * (1 - activation_sigmoid expf x)) := by
  refine ⟨fun _ => rfl, fun _ => rfl, fun _ => rfl, ?_, fun _ => rfl, fun _ => rfl⟩
  simp [activation_compute_derivative]

/-- Closed form of `matrix_fill_with_value`. -/
theorem matrix_fill_with_value_eq (m : Matrix α) (v : α) :
    matrix_fill_with_value m v
      = { m with element := fun x =>
            if x < m.num_rows * m.num_columns then v else m.element x } := by
  unfold matrix_fill_with_value
  rw [for_loop_cells m.num_rows m.num_columns (fun _ _ _ => v) m rfl]

/-- C25. For every matrix `M` (any shape, also with zero rows or columns) and every value
`v`, after `matrix_fill_with_value(M, v)` every element `M[i][j]` with `i < num_rows` and
`j < num_columns` equals `v`, and the shape is unchanged. -/
theorem matrix_fill_with_value_spec (m : Matrix α) (v : α) :
    (matrix_fill_with_value m v).num_rows = m.num_rows ∧
    (matrix_fill_with_value m v).num_columns = m.num_columns ∧
    ∀ i j, i < m.num_rows → j < m.num_columns → matrix_at (matrix_fill_with_value m v) i j = v := by
  rw [matrix_fill_with_value_eq]
  refine ⟨rfl, rfl, ?_⟩
  intro i j hi hj
  simp only [matrix_at]
  rw [if_pos (flat_index_lt i j _ _ hi hj)]

/-- Witness for C25: a 2 x 3 matrix over `ℚ` filled with `7`. -/
theorem matrix_fill_with_value_spec_witness :
    ((1 : Nat) < (matrix_of_list 2 3 [1, 2, 3, 4, 5, 6] : Matrix ℚ).num_rows ∧
      (2 : Nat) < (matrix_of_list 2 3 [1, 2, 3, 4, 5, 6] : Matrix ℚ).num_columns) ∧
    matrix_at (matrix_fill_with_value (matrix_of_list 2 3 [1, 2, 3, 4, 5, 6] : Matrix ℚ) 7) 1 2
      = 7 :=
  ⟨⟨by decide, by decide⟩,
    (matrix_fill_with_value_spec (matrix_of_list 2 3 [1, 2, 3, 4, 5, 6] : Matrix ℚ) 7).2.2 1 2
      (by decide) (by decide)⟩

/-- Counterexample to C24 as stated: the empty slice at the very end of a row of three
columns lies within the row (`3 + 0 ≤ 3`), yet `row_create_slice` fails its first
assertion `start_index < num_columns`. -/
theorem row_create_slice_end_fails :
    ¬ ((row_create_slice ({ num_columns := 3, element := fun _ => 0 } : Row ℚ) 3 0).isSome
        ↔ 3 + 0 ≤ ({ num_columns := 3, element := fun _ => 0 } : Row ℚ).num_columns) := by
  simp [row_create_slice]

/-- C24 (amended). For requests whose end `start + length` is representable in `size_t`:
`row_create_slice(row, start, length)` succeeds if and only if `start < row.num_columns` and
`start + length ≤ row.num_columns`; `matrix_create_row_slice(matrix, start_row, num_rows)`
succeeds if and only if `start_row + num_rows ≤ matrix.num_rows`; on success the view has the
requested extent and its element `i` (row `i`) is the source's element `start + i`
(row `start_row + i`). -/
theorem slices_spec :
    (∀ (row : Row α) (start length : Nat), start + length < SIZE_MODULUS →
      ((row_create_slice row start length).isSome
          ↔ start < row.num_columns ∧ start + length ≤ row.num_columns) ∧
      ∀ s, row_create_slice row start length = some s →
        s.num_columns = length ∧ ∀ i, s.element i = row.element (start + i)) ∧
    (∀ (matrix : Matrix α) (start_row num_rows : Nat), start_row + num_rows < SIZE_MODULUS →
      ((matrix_create_row_slice matrix start_row num_rows).isSome
          ↔ start_row + num_rows ≤ matrix.num_rows) ∧
      ∀ s, matrix_create_row_slice matrix start_row num_rows = some s →
        s.num_rows = num_rows ∧ s.num_columns = matrix.num_columns ∧
        ∀ i j, matrix_at s i j = matrix_at matrix (start_row + i) j) := by
  constructor
  · intro row start length hlt
    have hadd : size_add start length = start + length := Nat.mod_eq_of_lt hlt
    unfold row_create_slice
    rw [hadd]
    constructor
    · by_cases h1 : start < row.num_columns
      · by_cases h2 : start + length ≤ row.num_columns
        · simp [h1, h2]
        · simp [h1, h2]
      · simp [h1]
    · intro s hs
      by_cases h1 : start < row.num_columns
      · by_cases h2 : start + length ≤ row.num_columns
        · rw [if_pos h1, if_pos h2] at hs
          cases hs
          exact ⟨rfl, fun _ => rfl⟩
        · rw [if_pos h1, if_neg h2] at hs
          cases hs
      · rw [if_neg h1] at hs
        cases hs
  · intro matrix start_row num_rows hlt
    have hadd : size_add start_row num_rows = start_row + num_rows := Nat.mod_eq_of_lt hlt
    unfold matrix_create_row_slice
    rw [hadd]
    constructor
    · by_cases h1 : start_row + num_rows ≤ matrix.num_rows
      · simp [h1]
      · simp [h1]
    · intro s hs
      by_cases h1 : start_row + num_rows ≤ matrix.num_rows
      · rw [if_pos h1] at hs
        cases hs
        refine ⟨rfl, rfl, ?_⟩
        intro i j
        simp only [matrix_at]
        congr 1
        ring
      · rw [if_neg h1] at hs
        cases hs

/-- Witness for C24 (amended): a slice of two columns out of a row of four over `ℚ`. -/
theorem slices_spec_witness :
    (1 + 2 < SIZE_MODULUS) ∧
    (((row_create_slice ({ num_columns := 4, element := fun i => (i : ℚ) } : Row ℚ) 1 2).isSome
        ↔ 1 < ({ num_columns := 4, element := fun i => (i : ℚ) } : Row ℚ).num_columns ∧
          1 + 2 ≤ ({ num_columns := 4, element := fun i => (i : ℚ) } : Row ℚ).num_columns) ∧
      ∀ s, row_create_slice ({ num_columns := 4, element := fun i => (i : ℚ) } : Row ℚ) 1 2
          = some s →
        s.num_columns = 2 ∧
        ∀ i, s.element i
          = ({ num_columns := 4, element := fun i => (i : ℚ) } : Row ℚ).element (1 + i)) :=
  ⟨by decide, slices_spec.1 _ 1 2 (by decide)⟩

/-- A loop that adds a term per iteration. -/
theorem for_loop_sum (n : Nat) (f : Nat → α) (t0 : α) :
    for_loop n (fun k t => t + f k) t0 = t0 + ∑ k ∈ Finset.range n, f k := by
  induction n with
  | zero => simp [for_loop]
  | succ k ih => rw [for_loop_succ, ih, Finset.sum_range_succ, add_assoc]

/-- Closed form of `matrix_copy_data`. -/
theorem matrix_copy_data_eq (dst src : Matrix α) (h1 : dst.num_rows = src.num_rows)
    (h2 : dst.num_columns = src.num_columns) :
    matrix_copy_data dst src
      = some { dst with element := fun x =>
          if x < dst.num_rows * dst.num_columns then
            (matrix_at src (x / dst.num_columns) (x % dst.num_columns))
          else dst.element x } := by
  unfold matrix_copy_data
  rw [if_pos h1, if_pos h2]
  rw [for_loop_cells dst.num_rows dst.num_columns (fun i j _ => matrix_at src i j) dst rfl]

/-- Closed form of `row_copy_data`. -/
theorem row_copy_data_eq (dst src : Row α) (h : dst.num_columns = src.num_columns) :
    row_copy_data dst src
      = some { num_columns := dst.num_columns
               element := fun x => if x < dst.num_columns then src.element x else dst.element x } := by
  unfold row_copy_data
  rw [matrix_copy_data_eq]
  · simp only [Option.map_some', row_of_view, row_convert_to_matrix, Nat.one_mul]
    congr 2
    funext x
    by_cases hx : x < dst.num_columns
    · simp [hx, matrix_at, Nat.div_eq_of_lt hx, Nat.mod_eq_of_lt hx]
    · simp [hx]
  · rfl
  · exact h

/-- The per-sample preamble (row, feature slice, copy into `activations[0]`) succeeds on a
fitting dataset, for every network state with the parameters of `network`. -/
theorem sample_input_ok (network n : NeuralNetwork α) (dataset : Matrix α) (s : Nat)
    (hinv : shape_invariant network) (hsp : same_parameters network n)
    (hfit : dataset_fits network dataset) (hs : s < dataset.num_rows) :
    ∃ (sample_row input_data input_row : Row α),
      matrix_get_row dataset s = some sample_row ∧
      row_create_slice sample_row 0 (n.activation_vectors 0).num_columns = some input_data ∧
      row_copy_data (n.activation_vectors 0) input_data = some input_row ∧
      sample_row.num_columns = dataset.num_columns ∧
      (∀ x, sample_row.element x = dataset.element (s * dataset.num_columns + x)) ∧
      input_row.num_columns = (network.activation_vectors 0).num_columns ∧
      ∀ x, x < (network.activation_vectors 0).num_columns →
        input_row.element x = matrix_at dataset s x := by
  obtain ⟨hL, hW, hA⟩ := hinv
  obtain ⟨p1, p2, p3, p4, p5, p6⟩ := hsp
  obtain ⟨f1, f2, f3⟩ := hfit
  have hin : (n.activation_vectors 0).num_columns = network.layer_sizes 0 := by
    rw [p6, hA 0 (by omega)]
  have hin' : (network.activation_vectors 0).num_columns = network.layer_sizes 0 :=
    hA 0 (by omega)
  have hadd : size_add 0 (n.activation_vectors 0).num_columns
      = (n.activation_vectors 0).num_columns := by
    unfold size_add
    rw [Nat.zero_add]
    exact Nat.mod_eq_of_lt (by omega)
  refine ⟨(⟨dataset.num_columns,
      fun i => dataset.element (s * dataset.num_columns + 0 + i)⟩ : Row α),
    (⟨(n.activation_vectors 0).num_columns,
      fun i => dataset.element (s * dataset.num_columns + 0 + (0 + i))⟩ : Row α),
    (⟨(n.activation_vectors 0).num_columns,
      fun x =>
        if x < (n.activation_vectors 0).num_columns then
          dataset.element (s * dataset.num_columns + 0 + (0 + x))
        else (n.activation_vectors 0).element x⟩ : Row α),
    by unfold matrix_get_row; rw [if_pos hs], ?_, ?_, rfl, ?_, ?_, ?_⟩
  · unfold row_create_slice
    simp only
    rw [if_pos (by omega), hadd, if_pos (by omega)]
  · rw [row_copy_data_eq]
    rfl
  · intro x
    simp
  · simp only
    rw [hin, hin']
  · intro x hx
    simp only
    rw [if_pos (by omega)]
    simp [matrix_at]

/-- Two forward passes on networks with the same parameters and the same input below the
input width agree on every activation below the layer widths. -/
theorem forward_pass_agree (expf : α → α) (n1 n2 F1 F2 : NeuralNetwork α)
    (h1 : shape_invariant n1) (hsp : same_parameters n1 n2)
    (h0 : ∀ j, j < (n1.activation_vectors 0).num_columns →
      (n1.activation_vectors 0).element j = (n2.activation_vectors 0).element j)
    (hF1 : neural_network_forward_pass expf n1 = some F1)
    (hF2 : neural_network_forward_pass expf n2 = some F2) :
    ∀ l j, l < n1.total_layers → j < (n1.activation_vectors l).num_columns →
      (F1.activation_vectors l).element j = (F2.activation_vectors l).element j := by
  have h2 : shape_invariant n2 := same_parameters_shape hsp h1
  obtain ⟨G1, hG1, s1, z1, _, v1⟩ := neural_network_forward_pass_correct expf n1 h1
  obtain ⟨G2, hG2, s2, z2, _, v2⟩ := neural_network_forward_pass_correct expf n2 h2
  rw [hF1] at hG1
  rw [hF2] at hG2
  cases hG1
  cases hG2
  obtain ⟨q1, q2, q3, q4, q5, q6⟩ := hsp
  obtain ⟨a1, a2, a3, a4, a5, a6⟩ := s1
  obtain ⟨b1, b2, b3, b4, b5, b6⟩ := s2
  intro l
  induction l with
  | zero =>
    intro j _ hj
    rw [z1, z2]
    exact h0 j hj
  | succ l ih =>
    intro j hl hj
    rw [v1 l j hl hj, v2 l j (by rw [q2]; exact hl) (by rw [q6]; exact hj)]
    unfold forward_layer_value
    rw [a3, a4, a5, b3, b4, b5, q3, q4, q5, a6, b6, q6]
    congr 2
    apply Finset.sum_congr rfl
    intro p hp
    rw [ih p (by omega) (Finset.mem_range.mp hp)]

theorem same_parameters_symm {a b : NeuralNetwork α} (h : same_parameters a b) :
    same_parameters b a := by
  obtain ⟨hsizes, hlayers, hweights, hbiases, htags, hlen⟩ := h
  exact ⟨hsizes.symm, hlayers.symm, hweights.symm, hbiases.symm, htags.symm,
    fun l => (hlen l).symm⟩

/-- The forward pass of a sample succeeds from every network state with the parameters of
`network`, and its activations (below the layer widths) do not depend on that state. -/
theorem sample_forward_ok (expf : α → α) (network n : NeuralNetwork α) (dataset : Matrix α)
    (s : Nat) (hinv : shape_invariant network) (hsp : same_parameters network n)
    (hfit : dataset_fits network dataset) (hs : s < dataset.num_rows) :
    ∃ F, sample_forward expf n dataset s = some F ∧ same_parameters network F ∧
      ∀ l j, l < network.total_layers → j < (network.activation_vectors l).num_columns →
        (F.activation_vectors l).element j = sample_activation expf network dataset s l j := by
  obtain ⟨row, inp, rn, g1, g2, g3, _, _, c1, e1⟩ :=
    sample_input_ok network n dataset s hinv hsp hfit hs
  obtain ⟨row', inp', rm, k1, k2, k3, _, _, d1, e2⟩ :=
    sample_input_ok network network dataset s hinv (same_parameters_refl network) hfit hs
  have spm : same_parameters network
      { network with activation_vectors := Function.update network.activation_vectors 0 rm } :=
    same_parameters_update network 0 rm d1
  have spn : same_parameters n
      { n with activation_vectors := Function.update n.activation_vectors 0 rn } :=
    same_parameters_update n 0 rn (c1.trans (hsp.2.2.2.2.2 0).symm)
  have shm := same_parameters_shape spm hinv
  have spmn := same_parameters_trans (same_parameters_symm spm) (same_parameters_trans hsp spn)
  have shn := same_parameters_shape spmn shm
  obtain ⟨Fm, hFm, sFm, _, _, _⟩ := neural_network_forward_pass_correct expf _ shm
  obtain ⟨Fn, hFn, sFn, _, _, _⟩ := neural_network_forward_pass_correct expf _ shn
  have hsn : sample_forward expf n dataset s = some Fn := by
    unfold sample_forward
    rw [g1, Option.some_bind, g2, Option.some_bind, g3, Option.some_bind]
    exact hFn
  have hsm : sample_forward expf network dataset s = some Fm := by
    unfold sample_forward
    rw [k1, Option.some_bind, k2, Option.some_bind, k3, Option.some_bind]
    exact hFm
  refine ⟨Fn, hsn, same_parameters_trans hsp (same_parameters_trans spn sFn), ?_⟩
  intro l j hl hj
  have hagree := forward_pass_agree expf _ _ Fm Fn shm spmn
    (by
      intro x hx
      simp only [Function.update_same] at hx ⊢
      rw [d1] at hx
      rw [e1 x hx, e2 x hx])
    hFm hFn l j hl (by rw [spm.2.2.2.2.2 l]; exact hj)
  unfold sample_activation
  rw [hsm]
  exact hagree.symm

/-- One iteration of the sample loop of `neural_network_calculate_cost`, in terms of
`sample_forward`. -/
theorem calculate_cost_sample_eq (expf : α → α) (network n : NeuralNetwork α)
    (dataset : Matrix α) (s : Nat) (t : α) (hinv : shape_invariant network)
    (hsp : same_parameters network n) (hfit : dataset_fits network dataset)
    (hs : s < dataset.num_rows) :
    calculate_cost_sample expf dataset (network.activation_vectors 0).num_columns
        (network.activation_vectors (network.total_layers - 1)).num_columns s (t, n)
      = (sample_forward expf n dataset s).map fun F =>
          (t + ∑ k ∈ Finset.range (network.activation_vectors (network.total_layers - 1)).num_columns,
              ((F.activation_vectors (F.total_layers - 1)).element k - target network dataset s k)
                * ((F.activation_vectors (F.total_layers - 1)).element k
                    - target network dataset s k),
            F) := by
  obtain ⟨hL, hW, hA⟩ := hinv
  obtain ⟨f1, f2, f3⟩ := hfit
  have hin : (network.activation_vectors 0).num_columns = network.layer_sizes 0 :=
    hA 0 (by omega)
  have hout : (network.activation_vectors (network.total_layers - 1)).num_columns
      = network.layer_sizes (network.total_layers - 1) := hA _ (by omega)
  have hn0 : (n.activation_vectors 0).num_columns = (network.activation_vectors 0).num_columns :=
    hsp.2.2.2.2.2 0
  unfold calculate_cost_sample sample_forward
  unfold matrix_get_row
  rw [if_pos hs, Option.some_bind, Option.some_bind, hn0]
  have hadd0 : size_add 0 (network.activation_vectors 0).num_columns
      = (network.activation_vectors 0).num_columns := by
    unfold size_add
    rw [Nat.zero_add]
    exact Nat.mod_eq_of_lt (by omega)
  have hadd1 : size_add (network.activation_vectors 0).num_columns
      (network.activation_vectors (network.total_layers - 1)).num_columns
      = (network.activation_vectors 0).num_columns
        + (network.activation_vectors (network.total_layers - 1)).num_columns := by
    unfold size_add
    exact Nat.mod_eq_of_lt (by omega)
  unfold row_create_slice
  simp only
  rw [if_pos (by omega), hadd0, if_pos (by omega), hadd1, if_pos (by omega), if_pos (by omega)]
  simp only [Option.some_bind]
  cases hc : row_copy_data (n.activation_vectors 0)
      ({ num_columns := (network.activation_vectors 0).num_columns
         element := fun i => dataset.element (s * dataset.num_columns + 0 + (0 + i)) } : Row α) with
  | none => rfl
  | some input_row =>
    simp only [Option.some_bind]
    cases hf : neural_network_forward_pass expf
        { n with activation_vectors := Function.update n.activation_vectors 0 input_row } with
    | none => rfl
    | some F =>
      simp only [Option.some_bind, Option.map_some', for_loop_sum, target, matrix_at,
        Nat.add_zero]

/-- The squared error of sample `s`, summed over the output units. -/
theorem calculate_cost_loop (expf : α → α) (network : NeuralNetwork α) (dataset : Matrix α)
    (hinv : shape_invariant network) (hfit : dataset_fits network dataset) (N : Nat)
    (hN : N ≤ dataset.num_rows) :
    ∃ n, for_loop_opt N
        (calculate_cost_sample expf dataset (network.activation_vectors 0).num_columns
          (network.activation_vectors (network.total_layers - 1)).num_columns) (0, network)
        = some (∑ s ∈ Finset.range N,
            ∑ k ∈ Finset.range (network.layer_sizes (network.total_layers - 1)),
              (prediction expf network dataset s k - target network dataset s k)
                * (prediction expf network dataset s k - target network dataset s k), n) ∧
      same_parameters network n := by
  have hout : (network.activation_vectors (network.total_layers - 1)).num_columns
      = network.layer_sizes (network.total_layers - 1) := hinv.2.2 _ (by have := hinv.1; omega)
  have key := for_loop_opt_invariant
    (fun k (st : α × NeuralNetwork α) =>
      st.1 = (∑ s ∈ Finset.range k,
            ∑ k ∈ Finset.range (network.layer_sizes (network.total_layers - 1)),
              (prediction expf network dataset s k - target network dataset s k)
                * (prediction expf network dataset s k - target network dataset s k)) ∧
      same_parameters network st.2)
    N
    (calculate_cost_sample expf dataset (network.activation_vectors 0).num_columns
          (network.activation_vectors (network.total_layers - 1)).num_columns)
    (0, network) ⟨by simp, same_parameters_refl network⟩
    (by
      rintro i ⟨t, n⟩ hi ⟨ht, hsp⟩
      simp only at ht hsp
      have hs : i < dataset.num_rows := by omega
      obtain ⟨F, hF, hFsp, hval⟩ := sample_forward_ok expf network n dataset i hinv hsp hfit hs
      rw [calculate_cost_sample_eq expf network n dataset i t hinv hsp hfit hs, hF,
        Option.map_some']
      refine ⟨_, rfl, ?_, hFsp⟩
      simp only
      rw [Finset.sum_range_succ, ht, hout, hFsp.2.1]
      congr 1
      apply Finset.sum_congr rfl
      intro k hk
      have hk' := Finset.mem_range.mp hk
      rw [hval (network.total_layers - 1) k (by have := hinv.1; omega) (by rw [hout]; exact hk')]
      rfl)
  obtain ⟨⟨t, n⟩, hrun, ht, hsp⟩ := key
  simp only at ht hsp
  exact ⟨n, by rw [hrun, ht], hsp⟩

theorem example_network_shape : shape_invariant example_network := by
  refine ⟨by decide, ?_, ?_⟩
  · intro i hi
    have h : i = 0 ∨ i = 1 := by
      have : i + 1 < 3 := hi
      omega
    rcases h with rfl | rfl <;> simp [example_network, matrix_of_list]
  · intro i hi
    simp [example_network]

theorem example_dataset_fits : dataset_fits example_network example_dataset := by
  refine ⟨by decide, by decide, by decide⟩

/-- C1. `neural_network_forward_pass`: for every network with `L ≥ 2` layers satisfying the
shape invariant and every content of `activations[0]`, the pass succeeds and afterwards each
`activations[i+1][j]` (`0 ≤ i ≤ L-2`) equals
`activation_apply(sum over p of activations[i][p] * weights[i][p][j] + biases[i][j],
activation_types[i+1])` computed from the already-updated `activations[i]`; `activations[0]`,
all weights and all biases are unchanged. -/
theorem neural_network_forward_pass_spec (expf : α → α) (network : NeuralNetwork α)
    (hinv : shape_invariant network) :
    ∃ network', neural_network_forward_pass expf network = some network' ∧
      (∀ i j, i + 1 < network.total_layers → j < network.layer_sizes (i + 1) →
        (network'.activation_vectors (i + 1)).element j
          = activation_apply expf
              ((∑ p ∈ Finset.range (network.layer_sizes i),
                  (network'.activation_vectors i).element p
                    * matrix_at (network.weight_matrices i) p j)
                + (network.bias_vectors i).element j)
              (network.activation_types (i + 1))) ∧
      network'.activation_vectors 0 = network.activation_vectors 0 ∧
      network'.weight_matrices = network.weight_matrices ∧
      network'.bias_vectors = network.bias_vectors := by
  obtain ⟨F, hF, hsp, h0, _, hval⟩ := neural_network_forward_pass_correct expf network hinv
  obtain ⟨hL, hW, hA⟩ := hinv
  refine ⟨F, hF, ?_, h0, hsp.2.2.1, hsp.2.2.2.1⟩
  intro i j hi hj
  rw [hval i j hi (by rw [hA (i + 1) hi]; exact hj)]
  unfold forward_layer_value
  rw [hsp.2.2.1, hsp.2.2.2.1, hsp.2.2.2.2.1, hsp.2.2.2.2.2 i, hA i (by omega)]

/-- Witness for C1: the statement at `example_network`. -/
theorem neural_network_forward_pass_spec_witness :
    shape_invariant example_network ∧
    ∃ network', neural_network_forward_pass example_expf example_network = some network' ∧
      (∀ i j, i + 1 < example_network.total_layers → j < example_network.layer_sizes (i + 1) →
        (network'.activation_vectors (i + 1)).element j
          = activation_apply example_expf
              ((∑ p ∈ Finset.range (example_network.layer_sizes i),
                  (network'.activation_vectors i).element p
                    * matrix_at (example_network.weight_matrices i) p j)
                + (example_network.bias_vectors i).element j)
              (example_network.activation_types (i + 1))) ∧
      network'.activation_vectors 0 = example_network.activation_vectors 0 ∧
      network'.weight_matrices = example_network.weight_matrices ∧
      network'.bias_vectors = example_network.bias_vectors :=
  ⟨example_network_shape,
    neural_network_forward_pass_spec example_expf example_network example_network_shape⟩

/-- C11. Lazy epoch restart: for every cursor with `is_epoch_finished = true` on entry
(whatever its `current_start_idx` and `accumulated_cost`), `batch_process_training_data`
produces exactly the result (arena, cursor, network, or failure) of the same call made with
the cursor `{0, 0, false}`. -/
theorem batch_process_restart (expf : α → α) (arena : MemoryArena)
    (batch_processor : BatchProcessor α) (batch_size : Nat) (network : NeuralNetwork α)
    (training_dataset : Matrix α) (learning_rate : α)
    (h : batch_processor.is_epoch_finished = true) :
    batch_process_training_data expf arena batch_processor batch_size network training_dataset
        learning_rate
      = batch_process_training_data expf arena
          { current_start_idx := 0, accumulated_cost := 0, is_epoch_finished := false }
          batch_size network training_dataset learning_rate := by
  unfold batch_process_training_data
  have h1 : batch_restart batch_processor
      = ({ current_start_idx := 0, accumulated_cost := 0, is_epoch_finished := false } :
          BatchProcessor α) := by
    unfold batch_restart
    rw [if_pos h]
  have h2 : batch_restart
      ({ current_start_idx := 0, accumulated_cost := 0, is_epoch_finished := false } :
          BatchProcessor α)
      = { current_start_idx := 0, accumulated_cost := 0, is_epoch_finished := false } := by
    unfold batch_restart
    simp
  rw [h1, h2]

/-- Witness for C11: a finished cursor at offset 5 with accumulated cost 3. -/
theorem batch_process_restart_witness :
    (({ current_start_idx := 5, accumulated_cost := 3, is_epoch_finished := true } :
        BatchProcessor ℚ).is_epoch_finished = true) ∧
    batch_process_training_data example_expf { total_capacity := 1000, used_buffers := 0 }
        { current_start_idx := 5, accumulated_cost := 3, is_epoch_finished := true }
        2 example_network example_dataset (1 / 10)
      = batch_process_training_data example_expf { total_capacity := 1000, used_buffers := 0 }
          { current_start_idx := 0, accumulated_cost := 0, is_epoch_finished := false }
          2 example_network example_dataset (1 / 10) :=
  ⟨rfl, batch_process_restart example_expf _ _ 2 example_network example_dataset (1 / 10) rfl⟩

/-- C16, the code at the failing input: in an arena of 10 buffers a request of
`2^64 - 1` bytes needs `ceil((2^64 - 1) / 8) = 2^61` buffers, but the `size_t` computation of
`required_buffers` wraps around to 0, the assertion passes and the call hands out a region
without advancing `used_buffers`. -/
theorem arena_allocate_memory_wraps :
    required_buffers (2 ^ 64 - 1) = 0 ∧
    arena_allocate_memory { total_capacity := 10, used_buffers := 0 } (2 ^ 64 - 1)
      = some { total_capacity := 10, used_buffers := 0 } ∧
    ¬ (0 + (2 ^ 64 - 1 + buffer_element_size - 1) / buffer_element_size ≤ 10) := by
  decide

theorem size_add_eq (a b : Nat) (h : a + b < SIZE_MODULUS) : size_add a b = a + b :=
  Nat.mod_eq_of_lt h

/-- An allocation that fits succeeds and advances `used_buffers`. -/
theorem arena_allocate_memory_fits (arena : MemoryArena) (size_in_bytes : Nat)
    (hcap : arena.total_capacity < SIZE_MODULUS)
    (hfit : arena.used_buffers + required_buffers size_in_bytes ≤ arena.total_capacity) :
    arena_allocate_memory arena size_in_bytes
      = some { arena with used_buffers := arena.used_buffers + required_buffers size_in_bytes } := by
  unfold arena_allocate_memory
  rw [size_add_eq _ _ (by omega), if_pos hfit]

theorem matrix_allocate_fits (arena : MemoryArena) (r c : Nat)
    (hcap : arena.total_capacity < SIZE_MODULUS)
    (hfit : arena.used_buffers + matrix_required_buffers r c ≤ arena.total_capacity) :
    (matrix_allocate arena r c : Option (MemoryArena × Matrix α))
      = some ({ arena with used_buffers := arena.used_buffers + matrix_required_buffers r c },
          { num_rows := r, num_columns := c, element := fun _ => 0 }) := by
  unfold matrix_allocate
  rw [arena_allocate_memory_fits arena _ hcap hfit]
  rfl

theorem row_allocate_fits (arena : MemoryArena) (c : Nat)
    (hcap : arena.total_capacity < SIZE_MODULUS)
    (hfit : arena.used_buffers + matrix_required_buffers 1 c ≤ arena.total_capacity) :
    (row_allocate arena c : Option (MemoryArena × Row α))
      = some ({ arena with used_buffers := arena.used_buffers + matrix_required_buffers 1 c },
          { num_columns := c, element := fun _ => 0 }) := by
  unfold row_allocate
  rw [matrix_allocate_fits arena 1 c hcap hfit]
  simp [matrix_get_row]

/-- One iteration of the layer loop of `neural_network_allocate` turns the network after
`k` iterations into the network after `k + 1`. -/
theorem allocated_network_succ (arch : Nat → Nat) (L k : Nat) :
    ({ (allocated_network arch L k : NeuralNetwork α) with
       weight_matrices :=
         Function.update (allocated_network arch L k : NeuralNetwork α).weight_matrices k
           { num_rows := arch k, num_columns := arch (k + 1), element := fun _ => 0 }
       bias_vectors :=
         Function.update (allocated_network arch L k : NeuralNetwork α).bias_vectors k
           { num_columns := arch (k + 1), element := fun _ => 0 }
       activation_vectors :=
         Function.update (allocated_network arch L k : NeuralNetwork α).activation_vectors (k + 1)
           { num_columns := arch (k + 1), element := fun _ => 0 }
       activation_types :=
         Function.update (allocated_network arch L k : NeuralNetwork α).activation_types (k + 1)
           ACTIVATION_RELU } : NeuralNetwork α)
      = allocated_network arch L (k + 1) := by
  unfold allocated_network
  refine congr (congr (congr (congrArg (NeuralNetwork.mk arch L) ?_) ?_) ?_) ?_
  · funext i
    by_cases h : i = k
    · subst h
      simp
    · rw [Function.update_noteq h]
      dsimp only
      by_cases h1 : i < k
      · rw [if_pos h1, if_pos (Nat.lt_succ_of_lt h1)]
      · rw [if_neg h1, if_neg (by omega)]
  · funext i
    by_cases h : i = k
    · subst h
      simp
    · rw [Function.update_noteq h]
      dsimp only
      by_cases h1 : i < k
      · rw [if_pos h1, if_pos (Nat.lt_succ_of_lt h1)]
      · rw [if_neg h1, if_neg (by omega)]
  · funext i
    by_cases h : i = k + 1
    · subst h
      simp
    · rw [Function.update_noteq h]
      dsimp only
      by_cases h1 : i < k + 1
      · rw [if_pos h1, if_pos (Nat.lt_succ_of_lt h1)]
      · rw [if_neg h1, if_neg (by omega)]
  · funext i
    by_cases h : i = k + 1
    · subst h
      simp
    · rw [Function.update_noteq h]
      dsimp only
      by_cases h0 : i = 0
      · rw [if_pos h0, if_pos h0]
      · rw [if_neg h0, if_neg h0]
        by_cases h1 : i < k + 1
        · rw [if_pos h1, if_pos (Nat.lt_succ_of_lt h1)]
        · rw [if_neg h1, if_neg (by omega)]

/-- One iteration of the layer loop of `neural_network_allocate`. -/
theorem neural_network_allocate_layer_fits (arch : Nat → Nat) (L k : Nat) (arena : MemoryArena)
    (hcap : arena.total_capacity < SIZE_MODULUS)
    (hfit : arena.used_buffers + layer_required_buffers arch (k + 1) ≤ arena.total_capacity) :
    (neural_network_allocate_layer arch (k + 1) (arena, allocated_network arch L k) :
        Option (MemoryArena × NeuralNetwork α))
      = some ({ arena with
                used_buffers := arena.used_buffers + layer_required_buffers arch (k + 1) },
              allocated_network arch L (k + 1)) := by
  unfold layer_required_buffers at hfit
  simp only [Nat.add_sub_cancel] at hfit
  have hfit1 : arena.used_buffers + matrix_required_buffers (arch k) (arch (k + 1))
      ≤ arena.total_capacity := by omega
  have hfit2 : arena.used_buffers + matrix_required_buffers (arch k) (arch (k + 1))
      + matrix_required_buffers 1 (arch (k + 1)) ≤ arena.total_capacity := by omega
  have hfit3 : arena.used_buffers + matrix_required_buffers (arch k) (arch (k + 1))
      + matrix_required_buffers 1 (arch (k + 1)) + matrix_required_buffers 1 (arch (k + 1))
      ≤ arena.total_capacity := by omega
  have e1 : (matrix_allocate arena (arch k) (arch (k + 1)) : Option (MemoryArena × Matrix α)) = _ :=
    matrix_allocate_fits arena _ _ hcap hfit1
  have e2 : (row_allocate
      { arena with
        used_buffers := arena.used_buffers + matrix_required_buffers (arch k) (arch (k + 1)) }
      (arch (k + 1)) : Option (MemoryArena × Row α)) = _ := row_allocate_fits _ _ hcap hfit2
  have e3 : (row_allocate
      { arena with
        used_buffers := arena.used_buffers + matrix_required_buffers (arch k) (arch (k + 1))
          + matrix_required_buffers 1 (arch (k + 1)) }
      (arch (k + 1)) : Option (MemoryArena × Row α)) = _ := row_allocate_fits _ _ hcap hfit3
  unfold neural_network_allocate_layer
  rw [Nat.add_sub_cancel, e1, Option.some_bind, e2, Option.some_bind, e3, Option.some_bind]
  refine congrArg some (Prod.ext ?_ ?_)
  · simp only [layer_required_buffers, Nat.add_sub_cancel, Nat.add_assoc]
  · exact allocated_network_succ arch L k

/-- Elimination rule for `for_loop_opt`: an invariant kept by every successful iteration
holds of the result of a successful loop. -/
theorem for_loop_opt_some {σ : Type} (P : Nat → σ → Prop) (n : Nat)
    (body : Nat → σ → Option σ) (s : σ) (h0 : P 0 s)
    (hstep : ∀ i t t', i < n → P i t → body i t = some t' → P (i + 1) t') :
    ∀ r, for_loop_opt n body s = some r → P n r := by
  induction n with
  | zero =>
    intro r hr
    cases hr
    exact h0
  | succ k ih =>
    intro r hr
    unfold for_loop_opt at hr
    cases hk : for_loop_opt k body s with
    | none => rw [hk] at hr; cases hr
    | some t =>
      rw [hk, Option.some_bind] at hr
      exact hstep k t r (Nat.lt_succ_self k)
        (ih (fun i t t' hi => hstep i t t' (Nat.lt_succ_of_lt hi)) t hk) hr

/-- The state with which the layer loop of `neural_network_allocate` starts. -/
theorem allocated_network_zero (arch : Nat → Nat) (L : Nat) :
    ({ layer_sizes := arch
       total_layers := L
       weight_matrices := fun _ => { num_rows := 0, num_columns := 0, element := fun _ => 0 }
       bias_vectors := fun _ => { num_columns := 0, element := fun _ => 0 }
       activation_vectors :=
         Function.update (fun _ => { num_columns := 0, element := fun _ => 0 }) 0
           { num_columns := arch 0, element := fun _ => 0 }
       activation_types :=
         Function.update (fun _ => ACTIVATION_SIGMOID) 0 ACTIVATION_NONE } : NeuralNetwork α)
      = allocated_network arch L 0 := by
  unfold allocated_network
  refine congr (congr (congr (congrArg (NeuralNetwork.mk arch L) ?_) ?_) ?_) ?_
  · funext i
    rw [if_neg (Nat.not_lt_zero i)]
  · funext i
    rw [if_neg (Nat.not_lt_zero i)]
  · funext i
    by_cases h : i = 0
    · subst h
      simp
    · rw [Function.update_noteq h, if_neg (by omega)]
  · funext i
    by_cases h : i = 0
    · subst h
      simp
    · rw [Function.update_noteq h, if_neg h, if_neg (by omega)]

/-- The layer loop of `neural_network_allocate` in an arena with room. -/
theorem neural_network_allocate_loop_fits (arch : Nat → Nat) (L : Nat) (arena : MemoryArena)
    (hcap : arena.total_capacity < SIZE_MODULUS) (n : Nat)
    (hfit : arena.used_buffers + ∑ k ∈ Finset.range n, layer_required_buffers arch (k + 1)
      ≤ arena.total_capacity) :
    for_loop_opt n
        (fun k (st : MemoryArena × NeuralNetwork α) => neural_network_allocate_layer arch (k + 1) st)
        (arena, allocated_network arch L 0)
      = some ({ arena with
                used_buffers := arena.used_buffers
                  + ∑ k ∈ Finset.range n, layer_required_buffers arch (k + 1) },
              allocated_network arch L n) := by
  induction n with
  | zero => simp [for_loop_opt]
  | succ n ih =>
    rw [Finset.sum_range_succ] at hfit
    unfold for_loop_opt
    rw [ih (by omega), Option.some_bind]
    have h : (neural_network_allocate_layer arch (n + 1)
        ({ arena with
           used_buffers := arena.used_buffers
             + ∑ k ∈ Finset.range n, layer_required_buffers arch (k + 1) },
         allocated_network arch L n) : Option (MemoryArena × NeuralNetwork α)) = _ :=
      neural_network_allocate_layer_fits arch L n
        (⟨arena.total_capacity, arena.used_buffers
          + ∑ k ∈ Finset.range n, layer_required_buffers arch (k + 1)⟩ : MemoryArena) hcap
        (by show arena.used_buffers + _ + _ ≤ arena.total_capacity; omega)
    rw [h, Finset.sum_range_succ]
    simp only [Nat.add_assoc]

/-- `neural_network_allocate` in an arena with room: it succeeds, takes
`neural_network_required_buffers` buffers and returns the fresh network. -/
theorem neural_network_allocate_fits (arena : MemoryArena) (arch : Nat → Nat) (L : Nat)
    (hL : 1 < L) (hroom : arena_has_room arena arch L) :
    (neural_network_allocate arena arch L : Option (MemoryArena × NeuralNetwork α))
      = some ({ arena with
                used_buffers := arena.used_buffers + neural_network_required_buffers arch L },
              neural_network_fresh arch L) := by
  obtain ⟨hcap, hfit⟩ := hroom
  unfold neural_network_required_buffers at hfit
  generalize hb1 : required_buffers (size_mul sizeof_Matrix (L - 1)) = b1 at hfit
  generalize hb2 : required_buffers (size_mul sizeof_Row (L - 1)) = b2 at hfit
  generalize hb3 : required_buffers (size_mul sizeof_Row L) = b3 at hfit
  generalize hb4 : required_buffers (size_mul sizeof_ActivationType L) = b4 at hfit
  generalize hb5 : matrix_required_buffers 1 (arch 0) = b5 at hfit
  generalize hb6 : ∑ k ∈ Finset.range (L - 1), layer_required_buffers arch (k + 1) = b6 at hfit
  have hreq : neural_network_required_buffers arch L = b1 + b2 + b3 + b4 + b5 + b6 := by
    unfold neural_network_required_buffers
    rw [hb1, hb2, hb3, hb4, hb5, hb6]
  have e1 : arena_allocate_memory arena (size_mul sizeof_Matrix (L - 1))
      = some { arena with used_buffers := arena.used_buffers + b1 } := by
    rw [arena_allocate_memory_fits arena _ hcap (by rw [hb1]; omega), hb1]
  have e2 : arena_allocate_memory { arena with used_buffers := arena.used_buffers + b1 }
        (size_mul sizeof_Row (L - 1))
      = some { arena with used_buffers := arena.used_buffers + b1 + b2 } := by
    rw [arena_allocate_memory_fits (⟨arena.total_capacity, arena.used_buffers + b1⟩ : MemoryArena) _
      hcap (by rw [hb2]; show _ + _ + _ ≤ arena.total_capacity; omega), hb2]
  have e3 : arena_allocate_memory { arena with used_buffers := arena.used_buffers + b1 + b2 }
        (size_mul sizeof_Row L)
      = some { arena with used_buffers := arena.used_buffers + b1 + b2 + b3 } := by
    rw [arena_allocate_memory_fits (⟨arena.total_capacity, arena.used_buffers + b1 + b2⟩ : MemoryArena)
      _ hcap (by rw [hb3]; show _ + _ + _ + _ ≤ arena.total_capacity; omega), hb3]
  have e4 : arena_allocate_memory { arena with used_buffers := arena.used_buffers + b1 + b2 + b3 }
        (size_mul sizeof_ActivationType L)
      = some { arena with used_buffers := arena.used_buffers + b1 + b2 + b3 + b4 } := by
    rw [arena_allocate_memory_fits
      (⟨arena.total_capacity, arena.used_buffers + b1 + b2 + b3⟩ : MemoryArena) _ hcap
      (by rw [hb4]; show _ + _ + _ + _ + _ ≤ arena.total_capacity; omega), hb4]
  have e5 : (row_allocate
        { arena with used_buffers := arena.used_buffers + b1 + b2 + b3 + b4 } (arch 0) :
          Option (MemoryArena × Row α))
      = some ({ arena with used_buffers := arena.used_buffers + b1 + b2 + b3 + b4 + b5 },
          { num_columns := arch 0, element := fun _ => 0 }) := by
    rw [row_allocate_fits (⟨arena.total_capacity, arena.used_buffers + b1 + b2 + b3 + b4⟩ : MemoryArena)
      _ hcap (by rw [hb5]; show _ + _ + _ + _ + _ + _ ≤ arena.total_capacity; omega), hb5]
  have e6 : for_loop_opt (L - 1)
        (fun k (st : MemoryArena × NeuralNetwork α) => neural_network_allocate_layer arch (k + 1) st)
        ({ arena with used_buffers := arena.used_buffers + b1 + b2 + b3 + b4 + b5 },
          allocated_network arch L 0)
      = some ({ arena with used_buffers := arena.used_buffers + b1 + b2 + b3 + b4 + b5 + b6 },
          allocated_network arch L (L - 1)) := by
    rw [neural_network_allocate_loop_fits arch L
      (⟨arena.total_capacity, arena.used_buffers + b1 + b2 + b3 + b4 + b5⟩ : MemoryArena) hcap (L - 1)
      (by rw [hb6]; show _ + _ + _ + _ + _ + _ + _ ≤ arena.total_capacity; omega), hb6]
  unfold neural_network_allocate
  rw [if_pos hL, e1, Option.some_bind, e2, Option.some_bind, e3, Option.some_bind, e4,
    Option.some_bind, e5, Option.some_bind]
  dsimp only
  rw [allocated_network_zero, e6, Option.map_some']
  unfold neural_network_fresh
  rw [hreq]
  simp only [Nat.add_assoc]

/-- A successful `matrix_allocate` returns the zero matrix of the requested shape. -/
theorem matrix_allocate_some (arena : MemoryArena) (r c : Nat) (p : MemoryArena × Matrix α)
    (h : matrix_allocate arena r c = some p) :
    p.2 = { num_rows := r, num_columns := c, element := fun _ => 0 } := by
  unfold matrix_allocate at h
  cases ha : arena_allocate_memory arena (size_mul (size_mul sizeof_float r) c) with
  | none => rw [ha] at h; cases h
  | some a1 =>
    rw [ha, Option.map_some'] at h
    cases h
    rfl

/-- A successful `row_allocate` returns the zero row of the requested length. -/
theorem row_allocate_some (arena : MemoryArena) (c : Nat) (p : MemoryArena × Row α)
    (h : row_allocate arena c = some p) :
    p.2 = { num_columns := c, element := fun _ => 0 } := by
  unfold row_allocate at h
  cases hm : (matrix_allocate arena 1 c : Option (MemoryArena × Matrix α)) with
  | none => rw [hm] at h; cases h
  | some am =>
    rw [hm, Option.some_bind] at h
    have e := matrix_allocate_some arena 1 c am hm
    rw [e] at h
    simp only [matrix_get_row, Nat.lt_one_iff, if_true, Option.map_some'] at h
    cases h
    simp

/-- A successful iteration of the layer loop of `neural_network_allocate`. -/
theorem neural_network_allocate_layer_some (arch : Nat → Nat) (L k : Nat) (arena : MemoryArena)
    (p : MemoryArena × NeuralNetwork α)
    (h : neural_network_allocate_layer arch (k + 1) (arena, allocated_network arch L k) = some p) :
    p.2 = allocated_network arch L (k + 1) := by
  unfold neural_network_allocate_layer at h
  rw [Nat.add_sub_cancel] at h
  cases hw : (matrix_allocate arena (arch k) (arch (k + 1)) : Option (MemoryArena × Matrix α)) with
  | none => rw [hw] at h; cases h
  | some aw =>
    rw [hw, Option.some_bind] at h
    cases hb : (row_allocate aw.1 (arch (k + 1)) : Option (MemoryArena × Row α)) with
    | none => rw [hb] at h; cases h
    | some ab =>
      rw [hb, Option.some_bind] at h
      cases ha : (row_allocate ab.1 (arch (k + 1)) : Option (MemoryArena × Row α)) with
      | none => rw [ha] at h; cases h
      | some aa =>
        rw [ha, Option.some_bind] at h
        rw [matrix_allocate_some _ _ _ aw hw, row_allocate_some _ _ ab hb,
          row_allocate_some _ _ aa ha] at h
        cases h
        exact allocated_network_succ arch L k

/-- Every successful `neural_network_allocate` returns `neural_network_fresh`. -/
theorem neural_network_allocate_some (arena : MemoryArena) (arch : Nat → Nat) (L : Nat)
    (p : MemoryArena × NeuralNetwork α) (h : neural_network_allocate arena arch L = some p) :
    1 < L ∧ p.2 = neural_network_fresh arch L := by
  unfold neural_network_allocate at h
  by_cases hL : L > 1
  · refine ⟨hL, ?_⟩
    rw [if_pos hL] at h
    cases h1 : arena_allocate_memory arena (size_mul sizeof_Matrix (L - 1)) with
    | none => rw [h1] at h; cases h
    | some a1 =>
      rw [h1, Option.some_bind] at h
      cases h2 : arena_allocate_memory a1 (size_mul sizeof_Row (L - 1)) with
      | none => rw [h2] at h; cases h
      | some a2 =>
        rw [h2, Option.some_bind] at h
        cases h3 : arena_allocate_memory a2 (size_mul sizeof_Row L) with
        | none => rw [h3] at h; cases h
        | some a3 =>
          rw [h3, Option.some_bind] at h
          cases h4 : arena_allocate_memory a3 (size_mul sizeof_ActivationType L) with
          | none => rw [h4] at h; cases h
          | some a4 =>
            rw [h4, Option.some_bind] at h
            cases h5 : (row_allocate a4 (arch 0) : Option (MemoryArena × Row α)) with
            | none => rw [h5] at h; cases h
            | some a0 =>
              rw [h5, Option.some_bind, row_allocate_some _ _ a0 h5, allocated_network_zero] at h
              cases h6 : for_loop_opt (L - 1)
                  (fun k (st : MemoryArena × NeuralNetwork α) =>
                    neural_network_allocate_layer arch (k + 1) st)
                  (a0.1, allocated_network arch L 0) with
              | none => rw [h6] at h; cases h
              | some st =>
                rw [h6, Option.map_some'] at h
                have hst : st.2 = allocated_network arch L (L - 1) :=
                  for_loop_opt_some
                    (fun i (t : MemoryArena × NeuralNetwork α) => t.2 = allocated_network arch L i)
                    (L - 1) _ _ rfl
                    (fun i t t' _ ht hbody => by
                      have ht0 : t = (t.1, allocated_network arch L i) := Prod.ext rfl ht
                      rw [ht0] at hbody
                      exact neural_network_allocate_layer_some arch L i t.1 t' hbody)
                    st h6
                cases h
                show (_ : NeuralNetwork α) = neural_network_fresh arch L
                unfold neural_network_fresh
                rw [hst]
  · rw [if_neg hL] at h
    cases h

/-- The shapes of `neural_network_fresh`. -/
theorem neural_network_fresh_shape (arch : Nat → Nat) (L : Nat) (net : NeuralNetwork α)
    (hnet : net = neural_network_fresh arch L) :
    net.total_layers = L ∧ net.layer_sizes = arch ∧
    (∀ i, i + 1 < L →
      (net.weight_matrices i).num_rows = arch i ∧
      (net.weight_matrices i).num_columns = arch (i + 1) ∧
      (net.bias_vectors i).num_columns = arch (i + 1)) ∧
    (∀ i, i < L → (net.activation_vectors i).num_columns = arch i) := by
  subst hnet
  refine ⟨rfl, rfl, ?_, ?_⟩
  · intro i hi
    have h : i < L - 1 := by omega
    simp [neural_network_fresh, allocated_network, h]
  · intro i hi
    have h : i < L - 1 + 1 := by omega
    simp [neural_network_fresh, allocated_network, h]

/-- Claim C7. `neural_network_allocate` establishes the shape invariant: a call with
fewer than two layers fails its assertion; with at least two layers and an arena that has
room the call returns a network; and every returned network has `total_layers` layers of the
widths of the architecture, weight matrix `i` of shape `(width[i], width[i+1])`, bias vector
`i` of length `width[i+1]` for `i + 1 < L`, and activation vector `i` of length `width[i]`
for `i < L`, so that `shape_invariant` holds. -/
theorem neural_network_allocate_shape (arena : MemoryArena) (arch : Nat → Nat) (L : Nat) :
    (L < 2 →
      (neural_network_allocate arena arch L : Option (MemoryArena × NeuralNetwork α)) = none) ∧
    (2 ≤ L → arena_has_room arena arch L →
      ∃ r : MemoryArena × NeuralNetwork α, neural_network_allocate arena arch L = some r) ∧
    (∀ r : MemoryArena × NeuralNetwork α, neural_network_allocate arena arch L = some r →
      r.2.total_layers = L ∧ r.2.layer_sizes = arch ∧
      (∀ i, i + 1 < L →
        (r.2.weight_matrices i).num_rows = arch i ∧
        (r.2.weight_matrices i).num_columns = arch (i + 1) ∧
        (r.2.bias_vectors i).num_columns = arch (i + 1)) ∧
      (∀ i, i < L → (r.2.activation_vectors i).num_columns = arch i) ∧
      shape_invariant r.2) := by
  refine ⟨?_, ?_, ?_⟩
  · intro hL
    unfold neural_network_allocate
    rw [if_neg (by omega)]
  · intro hL hroom
    exact ⟨_, neural_network_allocate_fits arena arch L hL hroom⟩
  · intro r hr
    obtain ⟨hL, hnet⟩ := neural_network_allocate_some arena arch L r hr
    obtain ⟨s1, s2, s3, s4⟩ := neural_network_fresh_shape arch L r.2 hnet
    refine ⟨s1, s2, s3, s4, ?_, ?_, ?_⟩
    · rw [s1]; exact hL
    · intro i hi
      rw [s1] at hi
      rw [s2]
      exact s3 i hi
    · intro i hi
      rw [s1] at hi
      rw [s2]
      exact s4 i hi

/-- A three-layer network of widths 2, 3, 1 allocated in an arena of 1000 buffers. -/
theorem neural_network_allocate_shape_witness :
    (2 ≤ 3 ∧ arena_has_room example_arena example_architecture 3) ∧
    ∃ r : MemoryArena × NeuralNetwork ℚ,
      neural_network_allocate example_arena example_architecture 3 = some r ∧
      shape_invariant r.2 := by
  have hroom : arena_has_room example_arena example_architecture 3 := by
    unfold arena_has_room
    decide
  obtain ⟨r, hr⟩ :=
    (@neural_network_allocate_shape ℚ _ example_arena example_architecture 3).2.1 (by decide) hroom
  exact ⟨⟨by decide, hroom⟩, r, hr,
    ((@neural_network_allocate_shape ℚ _ example_arena example_architecture 3).2.2 r hr).2.2.2.2⟩

/-- Claim C8. `neural_network_allocate` fixes the activation tags: every network it returns
for an architecture of `L` layers has tag NONE on layer 0, tag RELU on every layer
`1 .. L-2` and tag SIGMOID on layer `L-1`, whatever the widths; with `L >= 2` and an arena
that has room it returns one. -/
theorem neural_network_allocate_tags (arena : MemoryArena) (arch : Nat → Nat) (L : Nat) :
    (2 ≤ L → arena_has_room arena arch L →
      ∃ r : MemoryArena × NeuralNetwork α, neural_network_allocate arena arch L = some r) ∧
    (∀ r : MemoryArena × NeuralNetwork α, neural_network_allocate arena arch L = some r →
      r.2.activation_types 0 = ACTIVATION_NONE ∧
      (∀ i, 1 ≤ i → i + 1 < L → r.2.activation_types i = ACTIVATION_RELU) ∧
      r.2.activation_types (L - 1) = ACTIVATION_SIGMOID) := by
  refine ⟨?_, ?_⟩
  · intro hL hroom
    exact ⟨_, neural_network_allocate_fits arena arch L hL hroom⟩
  · intro r hr
    obtain ⟨hL, hnet⟩ := neural_network_allocate_some arena arch L r hr
    rw [hnet]
    refine ⟨?_, ?_, ?_⟩
    · have h : (0 : Nat) ≠ L - 1 := by omega
      simp [neural_network_fresh, allocated_network, Function.update_noteq h]
    · intro i h1 h2
      have h : i ≠ L - 1 := by omega
      have h3 : i ≠ 0 := by omega
      have h4 : i < L - 1 + 1 := by omega
      simp [neural_network_fresh, allocated_network, Function.update_noteq h, h3, h4]
    · simp [neural_network_fresh]

/-- With two layers the only non-input layer is SIGMOID (arena of 1000 buffers, widths 2, 3). -/
theorem neural_network_allocate_tags_witness :
    (2 ≤ 2 ∧ arena_has_room example_arena example_architecture 2) ∧
    ∃ r : MemoryArena × NeuralNetwork ℚ,
      neural_network_allocate example_arena example_architecture 2 = some r ∧
      r.2.activation_types 0 = ACTIVATION_NONE ∧
      r.2.activation_types 1 = ACTIVATION_SIGMOID := by
  have hroom : arena_has_room example_arena example_architecture 2 := by
    unfold arena_has_room
    decide
  obtain ⟨r, hr⟩ :=
    (@neural_network_allocate_tags ℚ _ example_arena example_architecture 2).1 (by decide) hroom
  exact ⟨⟨by decide, hroom⟩, r, hr,
    ((@neural_network_allocate_tags ℚ _ example_arena example_architecture 2).2 r hr).1,
    ((@neural_network_allocate_tags ℚ _ example_arena example_architecture 2).2 r hr).2.2⟩

/-- The first `n` iterations of the layer loop of `neural_network_apply_gradients`. -/
theorem neural_network_apply_gradients_loop (network gradient_network : NeuralNetwork α)
    (learning_rate : α) (n : Nat) :
    for_loop n (fun layer_idx (n : NeuralNetwork α) =>
      { n with
        weight_matrices := Function.update n.weight_matrices layer_idx
          (for_loop (n.weight_matrices layer_idx).num_rows (fun row_idx m =>
            for_loop (n.weight_matrices layer_idx).num_columns (fun col_idx m =>
              matrix_set m row_idx col_idx
                (matrix_at m row_idx col_idx
                  - learning_rate * matrix_at (gradient_network.weight_matrices layer_idx)
                      row_idx col_idx)) m)
            (n.weight_matrices layer_idx))
        bias_vectors := Function.update n.bias_vectors layer_idx
          (for_loop (n.bias_vectors layer_idx).num_columns (fun bias_idx r =>
            row_set r bias_idx
              (r.element bias_idx
                - learning_rate * (gradient_network.bias_vectors layer_idx).element bias_idx))
            (n.bias_vectors layer_idx)) }) network
      = { network with
          weight_matrices := fun l =>
            if l < n then
              updated_weights (network.weight_matrices l) (gradient_network.weight_matrices l)
                learning_rate
            else network.weight_matrices l
          bias_vectors := fun l =>
            if l < n then
              updated_biases (network.bias_vectors l) (gradient_network.bias_vectors l)
                learning_rate
            else network.bias_vectors l } := by
  induction n with
  | zero =>
    cases network
    simp [for_loop]
  | succ k ih =>
    rw [for_loop_succ, ih]
    cases network with
    | mk sizes L W B A T =>
      simp only [lt_self_iff_false, if_false]
      rw [for_loop_cells (W k).num_rows (W k).num_columns
        (fun i j old => old - learning_rate * matrix_at (gradient_network.weight_matrices k) i j)
        (W k) rfl]
      rw [for_loop_row_entries (B k).num_columns
        (fun i old => old - learning_rate * (gradient_network.bias_vectors k).element i) (B k)]
      refine congr (congr (congr (congrArg (NeuralNetwork.mk sizes L) ?_) ?_) rfl) rfl
      · funext l
        by_cases hl : l = k
        · subst hl
          rw [Function.update_same, if_pos (Nat.lt_succ_self l)]
          rfl
        · rw [Function.update_noteq hl]
          by_cases h1 : l < k
          · rw [if_pos h1, if_pos (Nat.lt_succ_of_lt h1)]
          · rw [if_neg h1, if_neg (by omega)]
      · funext l
        by_cases hl : l = k
        · subst hl
          rw [Function.update_same, if_pos (Nat.lt_succ_self l)]
          rfl
        · rw [Function.update_noteq hl]
          by_cases h1 : l < k
          · rw [if_pos h1, if_pos (Nat.lt_succ_of_lt h1)]
          · rw [if_neg h1, if_neg (by omega)]

/-- Claim C6. `neural_network_apply_gradients`: after the call every weight entry of the
layers `l + 1 < total_layers` equals `old_weight - r * gradient_weight` and every bias entry
equals `old_bias - r * gradient_bias`; the shapes, the layer widths, the activation vectors
and the activation tags are unchanged (the gradient network is only read). -/
theorem neural_network_apply_gradients_spec (network gradient_network : NeuralNetwork α)
    (learning_rate : α) :
    (neural_network_apply_gradients network gradient_network learning_rate).total_layers
      = network.total_layers ∧
    (neural_network_apply_gradients network gradient_network learning_rate).layer_sizes
      = network.layer_sizes ∧
    (neural_network_apply_gradients network gradient_network learning_rate).activation_vectors
      = network.activation_vectors ∧
    (neural_network_apply_gradients network gradient_network learning_rate).activation_types
      = network.activation_types ∧
    ∀ l, l + 1 < network.total_layers →
      ((neural_network_apply_gradients network gradient_network learning_rate).weight_matrices
        l).num_rows = (network.weight_matrices l).num_rows ∧
      ((neural_network_apply_gradients network gradient_network learning_rate).weight_matrices
        l).num_columns = (network.weight_matrices l).num_columns ∧
      ((neural_network_apply_gradients network gradient_network learning_rate).bias_vectors
        l).num_columns = (network.bias_vectors l).num_columns ∧
      (∀ i j, i < (network.weight_matrices l).num_rows →
        j < (network.weight_matrices l).num_columns →
        matrix_at
          ((neural_network_apply_gradients network gradient_network learning_rate).weight_matrices
            l) i j
          = matrix_at (network.weight_matrices l) i j
            - learning_rate * matrix_at (gradient_network.weight_matrices l) i j) ∧
      (∀ b, b < (network.bias_vectors l).num_columns →
        ((neural_network_apply_gradients network gradient_network learning_rate).bias_vectors
          l).element b
          = (network.bias_vectors l).element b
            - learning_rate * (gradient_network.bias_vectors l).element b) := by
  unfold neural_network_apply_gradients
  rw [neural_network_apply_gradients_loop]
  refine ⟨rfl, rfl, rfl, rfl, ?_⟩
  intro l hl
  have h : l < network.total_layers - 1 := by omega
  simp only [if_pos h]
  refine ⟨rfl, rfl, rfl, ?_, ?_⟩
  · intro i j hi hj
    simp only [matrix_at, updated_weights]
    rw [if_pos (flat_index_lt i j _ _ hi hj), flat_index_div i j _ hj, flat_index_mod i j _ hj]
  · intro b hb
    simp only [updated_biases]
    rw [if_pos hb]

/-- The update of `example_network` with itself as gradient and learning rate 1/2:
weight (0, 1, 2) = -6 becomes -3. -/
theorem neural_network_apply_gradients_spec_witness :
    (0 + 1 < example_network.total_layers ∧
      1 < (example_network.weight_matrices 0).num_rows ∧
      2 < (example_network.weight_matrices 0).num_columns) ∧
    matrix_at
      ((neural_network_apply_gradients example_network example_network (1 / 2)).weight_matrices 0)
      1 2 = -3 := by
  have h0 : 0 + 1 < example_network.total_layers := by decide
  have h1 : 1 < (example_network.weight_matrices 0).num_rows := by
    simp [example_network, matrix_of_list]
  have h2 : 2 < (example_network.weight_matrices 0).num_columns := by
    simp [example_network, matrix_of_list]
  refine ⟨⟨h0, h1, h2⟩, ?_⟩
  rw [((neural_network_apply_gradients_spec example_network example_network (1 / 2)).2.2.2.2
    0 h0).2.2.2.1 1 2 h1 h2]
  simp [example_network, matrix_of_list, matrix_at]
  norm_num

/-- A store into another cell of the same matrix does not change the cell read. -/
theorem matrix_at_set_ne (m : Matrix α) (i j i' j' : Nat) (x : α) (hj : j < m.num_columns)
    (hj' : j' < m.num_columns) (h : ¬ (i' = i ∧ j' = j)) :
    matrix_at (matrix_set m i j x) i' j' = matrix_at m i' j' := by
  simp only [matrix_set, matrix_at]
  apply Function.update_noteq
  intro heq
  apply h
  have h1 := congrArg (fun x => x / m.num_columns) heq
  have h2 := congrArg (fun x => x % m.num_columns) heq
  simp only [flat_index_div _ _ _ hj, flat_index_div _ _ _ hj', flat_index_mod _ _ _ hj,
    flat_index_mod _ _ _ hj'] at h1 h2
  exact ⟨h1, h2⟩

/-- The loop over `prev_neuron_idx` acts on the weight-gradient matrix and on the error row
of layer `layer_idx - 1` separately. -/
theorem backprop_weight_loop (n : NeuralNetwork α) (l j : Nat) (ev dv : α) (P : Nat)
    (g : NeuralNetwork α) :
    for_loop P (backprop_weight_step n l j ev dv) g
      = { g with
          weight_matrices := Function.update g.weight_matrices (l - 1)
            (for_loop P (fun p m =>
              matrix_set m p j
                (matrix_at m p j + ev * dv * (n.activation_vectors (l - 1)).element p))
              (g.weight_matrices (l - 1)))
          activation_vectors := Function.update g.activation_vectors (l - 1)
            (for_loop P (fun p r =>
              row_set r p (r.element p + ev * dv * matrix_at (n.weight_matrices (l - 1)) p j))
              (g.activation_vectors (l - 1))) } := by
  induction P with
  | zero =>
    cases g
    simp [for_loop]
  | succ k ih =>
    rw [for_loop_succ, ih, for_loop_succ, for_loop_succ]
    simp only [backprop_weight_step, Function.update_same, Function.update_idem]

/-- The loop over `neuron_idx` of layer `layer_idx >= 1` acts on the weight-gradient matrix,
the bias-gradient row and the error row of layer `layer_idx - 1` separately; the error values
it reads are those of layer `layer_idx` on entry. -/
theorem backprop_neuron_loop (n : NeuralNetwork α) (l : Nat) (hl : 1 ≤ l) (R : Nat)
    (g : NeuralNetwork α) :
    for_loop R (backprop_neuron_step n l) g
      = { g with
          weight_matrices := Function.update g.weight_matrices (l - 1)
            (for_loop R (fun j m =>
              for_loop (n.activation_vectors (l - 1)).num_columns (fun p m =>
                matrix_set m p j
                  (matrix_at m p j
                    + (g.activation_vectors l).element j
                      * activation_compute_derivative ((n.activation_vectors l).element j)
                          (n.activation_types l)
                      * (n.activation_vectors (l - 1)).element p)) m)
              (g.weight_matrices (l - 1)))
          bias_vectors := Function.update g.bias_vectors (l - 1)
            (for_loop R (fun j r =>
              row_set r j
                (r.element j
                  + (g.activation_vectors l).element j
                    * activation_compute_derivative ((n.activation_vectors l).element j)
                        (n.activation_types l)))
              (g.bias_vectors (l - 1)))
          activation_vectors := Function.update g.activation_vectors (l - 1)
            (for_loop R (fun j r =>
              for_loop (n.activation_vectors (l - 1)).num_columns (fun p r =>
                row_set r p
                  (r.element p
                    + (g.activation_vectors l).element j
                      * activation_compute_derivative ((n.activation_vectors l).element j)
                          (n.activation_types l)
                      * matrix_at (n.weight_matrices (l - 1)) p j)) r)
              (g.activation_vectors (l - 1))) } := by
  have hne : l ≠ l - 1 := by omega
  induction R with
  | zero =>
    cases g
    simp [for_loop]
  | succ k ih =>
    rw [for_loop_succ, ih, for_loop_succ, for_loop_succ, for_loop_succ]
    unfold backprop_neuron_step
    simp only [backprop_weight_loop, Function.update_same, Function.update_idem,
      Function.update_noteq hne]

/-- Closed form of `row_fill_with_value`. -/
theorem row_fill_with_value_eq (r : Row α) (v : α) :
    row_fill_with_value r v
      = { r with element := fun x => if x < r.num_columns then v else r.element x } := by
  unfold row_fill_with_value
  rw [matrix_fill_with_value_eq]
  simp [row_of_view, row_convert_to_matrix]

/-- A loop down one column that adds a term to each cell. -/
theorem for_loop_column (P j : Nat) (f : Nat → α) (m : Matrix α) (hj : j < m.num_columns) :
    (for_loop P (fun p m => matrix_set m p j (matrix_at m p j + f p)) m).num_rows = m.num_rows ∧
    (for_loop P (fun p m => matrix_set m p j (matrix_at m p j + f p)) m).num_columns
      = m.num_columns ∧
    ∀ p' j', j' < m.num_columns →
      matrix_at (for_loop P (fun p m => matrix_set m p j (matrix_at m p j + f p)) m) p' j'
        = matrix_at m p' j' + (if j' = j ∧ p' < P then f p' else 0) := by
  induction P with
  | zero => simp [for_loop]
  | succ k ih =>
    obtain ⟨h1, h2, h3⟩ := ih
    rw [for_loop_succ]
    refine ⟨h1, h2, ?_⟩
    intro p' j' hj'
    by_cases hc : p' = k ∧ j' = j
    · obtain ⟨rfl, rfl⟩ := hc
      rw [matrix_at_set, h3 p' j' hj']
      simp
    · rw [matrix_at_set_ne _ _ _ _ _ _ (by rw [h2]; exact hj) (by rw [h2]; exact hj') hc,
        h3 p' j' hj']
      congr 1
      by_cases hjj : j' = j
      · have hpk : p' ≠ k := fun e => hc ⟨e, hjj⟩
        by_cases hlt : p' < k
        · rw [if_pos ⟨hjj, hlt⟩, if_pos ⟨hjj, Nat.lt_succ_of_lt hlt⟩]
        · rw [if_neg (fun h => hlt h.2), if_neg (fun h => hlt (by omega))]
      · rw [if_neg (fun h => hjj h.1), if_neg (fun h => hjj h.1)]

/-- Column by column, a loop that adds a term to each cell of the first `R` columns and `P`
rows. -/
theorem for_loop_columns (R P : Nat) (f : Nat → Nat → α) (m : Matrix α)
    (hR : R ≤ m.num_columns) :
    (for_loop R (fun j m =>
        for_loop P (fun p m => matrix_set m p j (matrix_at m p j + f p j)) m) m).num_rows
      = m.num_rows ∧
    (for_loop R (fun j m =>
        for_loop P (fun p m => matrix_set m p j (matrix_at m p j + f p j)) m) m).num_columns
      = m.num_columns ∧
    ∀ p j, j < m.num_columns →
      matrix_at (for_loop R (fun j m =>
          for_loop P (fun p m => matrix_set m p j (matrix_at m p j + f p j)) m) m) p j
        = matrix_at m p j + (if j < R ∧ p < P then f p j else 0) := by
  induction R with
  | zero => simp [for_loop]
  | succ k ih =>
    obtain ⟨h1, h2, h3⟩ := ih (by omega)
    rw [for_loop_succ]
    obtain ⟨c1, c2, c3⟩ := for_loop_column P k (fun p => f p k)
      (for_loop k (fun j m =>
        for_loop P (fun p m => matrix_set m p j (matrix_at m p j + f p j)) m) m)
      (by rw [h2]; omega)
    refine ⟨c1.trans h1, c2.trans h2, ?_⟩
    intro p j hj
    rw [c3 p j (by rw [h2]; exact hj), h3 p j hj, add_assoc]
    congr 1
    by_cases hjk : j = k
    · subst hjk
      by_cases hp : p < P
      · simp [hp]
      · simp [hp]
    · by_cases hlt : j < k
      · have h4 : j < k + 1 := by omega
        simp [hjk, hlt, h4]
      · have h4 : ¬ j < k + 1 := by omega
        simp [hjk, hlt, h4]

/-- A loop that adds, for every `j < R`, a term to each of the first `P` entries of a row. -/
theorem for_loop_row_accumulate (R P : Nat) (f : Nat → Nat → α) (r0 : Row α) :
    for_loop R (fun j r => for_loop P (fun p r => row_set r p (r.element p + f p j)) r) r0
      = { r0 with element := fun p =>
            r0.element p + ∑ j ∈ Finset.range R, if p < P then f p j else 0 } := by
  induction R with
  | zero =>
    cases r0
    simp [for_loop]
  | succ k ih =>
    rw [for_loop_succ, ih, for_loop_row_entries P (fun p old => old + f p k)]
    cases r0 with
    | mk C e =>
      simp only
      congr 1
      funext p
      rw [Finset.sum_range_succ]
      by_cases hp : p < P
      · simp only [if_pos hp]
        rw [add_assoc]
      · simp only [if_neg hp]
        simp

/-- The error of a layer below the output layer, by layer index. -/
theorem backprop_error_layer (network : NeuralNetwork α) (a : Nat → Nat → α) (tgt : Nat → α)
    (i p : Nat) (hi : i + 1 < network.total_layers) :
    backprop_error network a tgt (network.total_layers - 1 - i) p
      = ∑ j ∈ Finset.range (network.layer_sizes (i + 1)),
          backprop_delta network a tgt (i + 1) j * matrix_at (network.weight_matrices i) p j := by
  have h1 : network.total_layers - 1 - i = (network.total_layers - 1 - (i + 1)) + 1 := by omega
  have h2 : network.total_layers - 1 - (network.total_layers - 1 - (i + 1)) = i + 1 := by omega
  rw [h1]
  simp only [backprop_error, backprop_delta, h2, Nat.add_sub_cancel]

/-- The loop of `gradient_backward` that clears the error rows. -/
theorem gradient_reset_loop (L : Nat) (g : NeuralNetwork α) :
    for_loop L (fun layer_idx (g : NeuralNetwork α) =>
      { g with
        activation_vectors := Function.update g.activation_vectors layer_idx
          (row_fill_with_value (g.activation_vectors layer_idx) 0) }) g
      = { g with
          activation_vectors := fun l =>
            if l < L then row_fill_with_value (g.activation_vectors l) 0
            else g.activation_vectors l } := by
  induction L with
  | zero =>
    cases g
    simp [for_loop]
  | succ k ih =>
    rw [for_loop_succ, ih]
    cases g with
    | mk sizes T W B A tags =>
      simp only [lt_self_iff_false, if_false]
      refine congr (congr (congr (congrArg (NeuralNetwork.mk sizes T) rfl) rfl) ?_) rfl
      funext l
      by_cases hl : l = k
      · subst hl
        rw [Function.update_same, if_pos (Nat.lt_succ_self l)]
      · rw [Function.update_noteq hl]
        by_cases h1 : l < k
        · rw [if_pos h1, if_pos (Nat.lt_succ_of_lt h1)]
        · rw [if_neg h1, if_neg (by omega)]

/-- The loop of `gradient_backward` that stores the output error. -/
theorem gradient_output_loop (out l : Nat) (v : Nat → α) (g : NeuralNetwork α) :
    for_loop out (fun output_idx (g : NeuralNetwork α) =>
      { g with
        activation_vectors := Function.update g.activation_vectors l
          (row_set (g.activation_vectors l) output_idx (v output_idx)) }) g
      = { g with
          activation_vectors := Function.update g.activation_vectors l
            { g.activation_vectors l with
              element := fun x =>
                if x < out then v x else (g.activation_vectors l).element x } } := by
  induction out with
  | zero =>
    cases g
    simp [for_loop]
  | succ k ih =>
    rw [for_loop_succ, ih]
    simp only [Function.update_same, Function.update_idem, row_set]
    have hfun : Function.update
        (fun x => if x < k then v x else (g.activation_vectors l).element x) k (v k)
        = fun x => if x < k + 1 then v x else (g.activation_vectors l).element x := by
      funext x
      by_cases hx : x = k
      · subst hx
        simp
      · rw [Function.update_noteq hx]
        by_cases h1 : x < k
        · rw [if_pos h1, if_pos (Nat.lt_succ_of_lt h1)]
        · rw [if_neg h1, if_neg (by omega)]
    rw [hfun]

/-- The invariant holds when the backpropagation loop is entered. -/
theorem backprop_invariant_init (n : NeuralNetwork α) (t : Row α) (g : NeuralNetwork α)
    (hn : shape_invariant n)
    (hga : ∀ m, m < n.total_layers → (g.activation_vectors m).num_columns = n.layer_sizes m) :
    backprop_invariant n t.element g
      { g with
        activation_vectors := Function.update
          (fun l =>
            if l < n.total_layers then row_fill_with_value (g.activation_vectors l) 0
            else g.activation_vectors l)
          (n.total_layers - 1)
          { (if n.total_layers - 1 < n.total_layers then
              row_fill_with_value (g.activation_vectors (n.total_layers - 1)) 0
             else g.activation_vectors (n.total_layers - 1)) with
            element := fun x =>
              if x < n.layer_sizes (n.total_layers - 1) then
                (n.activation_vectors (n.total_layers - 1)).element x - t.element x
              else
                (if n.total_layers - 1 < n.total_layers then
                  row_fill_with_value (g.activation_vectors (n.total_layers - 1)) 0
                 else g.activation_vectors (n.total_layers - 1)).element x } }
      (n.total_layers - 1) := by
  obtain ⟨hL, hW, hA⟩ := hn
  have hlast : n.total_layers - 1 < n.total_layers := by omega
  refine ⟨rfl, rfl, rfl, ?_, fun m _ => ⟨rfl, rfl⟩, ?_, ?_, ?_⟩
  · intro m
    refine ⟨rfl, rfl, rfl, ?_⟩
    by_cases hm : m = n.total_layers - 1
    · subst hm
      simp only [Function.update_same, if_pos hlast, row_fill_with_value_eq]
    · simp only [Function.update_noteq hm]
      by_cases h1 : m < n.total_layers
      · simp only [if_pos h1, row_fill_with_value_eq]
      · simp only [if_neg h1]
  · intro m h1 h2
    omega
  · intro m h1 h2 p hp
    have hm : m = n.total_layers - 1 := by omega
    subst hm
    simp only [Function.update_same, if_pos hp, Nat.sub_self, backprop_error]
  · intro m h1 p hp
    have hm : m ≠ n.total_layers - 1 := by omega
    have h2 : m < n.total_layers := by omega
    simp only [Function.update_noteq hm, if_pos h2, row_fill_with_value_eq]
    rw [if_pos (by rw [hga m h2]; exact hp)]

/-- Processing layer `i + 1` keeps the invariant. -/
theorem backprop_invariant_step (n : NeuralNetwork α) (tgt : Nat → α) (g G : NeuralNetwork α)
    (i : Nat) (hn : shape_invariant n)
    (hgw : ∀ m, m + 1 < n.total_layers →
      (g.weight_matrices m).num_columns = n.layer_sizes (m + 1))
    (hi : i < n.total_layers - 1) (hP : backprop_invariant n tgt g G (i + 1)) :
    backprop_invariant n tgt g (backprop_layer_step n (i + 1) G) i := by
  obtain ⟨hL, hW, hA⟩ := hn
  obtain ⟨q1, q2, q3, q4, q5, q6, q7, q8⟩ := hP
  have hi1 : i + 1 < n.total_layers := by omega
  have hwi : (n.activation_vectors i).num_columns = n.layer_sizes i := hA i (by omega)
  have hwi1 : (n.activation_vectors (i + 1)).num_columns = n.layer_sizes (i + 1) := hA (i + 1) hi1
  unfold backprop_layer_step
  rw [backprop_neuron_loop n (i + 1) (by omega)]
  simp only [Nat.add_sub_cancel, hwi, hwi1]
  have hcols : n.layer_sizes (i + 1) ≤ (G.weight_matrices i).num_columns := by
    rw [(q4 i).2.1, hgw i hi1]
  obtain ⟨c1, c2, c3⟩ := for_loop_columns (n.layer_sizes (i + 1)) (n.layer_sizes i)
    (fun p j => (G.activation_vectors (i + 1)).element j
      * activation_compute_derivative ((n.activation_vectors (i + 1)).element j)
          (n.activation_types (i + 1))
      * (n.activation_vectors i).element p) (G.weight_matrices i) hcols
  have hbias := for_loop_row_entries (n.layer_sizes (i + 1))
    (fun j old => old + (G.activation_vectors (i + 1)).element j
      * activation_compute_derivative ((n.activation_vectors (i + 1)).element j)
          (n.activation_types (i + 1))) (G.bias_vectors i)
  have hact := for_loop_row_accumulate (n.layer_sizes (i + 1)) (n.layer_sizes i)
    (fun p j => (G.activation_vectors (i + 1)).element j
      * activation_compute_derivative ((n.activation_vectors (i + 1)).element j)
          (n.activation_types (i + 1))
      * matrix_at (n.weight_matrices i) p j) (G.activation_vectors i)
  have herr : ∀ j, j < n.layer_sizes (i + 1) →
      (G.activation_vectors (i + 1)).element j
        * activation_compute_derivative ((n.activation_vectors (i + 1)).element j)
            (n.activation_types (i + 1))
      = backprop_delta n (fun l x => (n.activation_vectors l).element x) tgt (i + 1) j := by
    intro j hj
    rw [q7 (i + 1) (le_refl _) hi1 j hj]
    rfl
  refine ⟨q1, q2, q3, ?_, ?_, ?_, ?_, ?_⟩
  · intro m
    by_cases hm : m = i
    · subst hm
      simp only [Function.update_same]
      rw [hbias, hact]
      exact ⟨c1.trans (q4 m).1, c2.trans (q4 m).2.1, (q4 m).2.2.1, (q4 m).2.2.2⟩
    · simp only [Function.update_noteq hm]
      exact q4 m
  · intro m hm
    have hne : m ≠ i := by omega
    simp only [Function.update_noteq hne]
    exact q5 m (by omega)
  · intro m hm1 hm2
    by_cases hm : m = i
    · subst hm
      simp only [Function.update_same]
      obtain ⟨e1, e2⟩ := q5 m (Nat.lt_succ_self m)
      constructor
      · intro p j hp hj
        rw [c3 p j (by omega), if_pos ⟨hj, hp⟩, herr j hj, e1]
      · intro j hj
        rw [hbias]
        simp only
        rw [if_pos hj, herr j hj, e2]
    · simp only [Function.update_noteq hm]
      exact q6 m (by omega) hm2
  · intro m hm1 hm2 p hp
    by_cases hm : m = i
    · subst hm
      simp only [Function.update_same]
      rw [hact]
      simp only
      rw [q8 m (Nat.lt_succ_self m) p hp, zero_add, backprop_error_layer n _ tgt m p hi1]
      apply Finset.sum_congr rfl
      intro j hj
      rw [if_pos hp, herr j (Finset.mem_range.mp hj)]
    · simp only [Function.update_noteq hm]
      exact q7 m (by omega) hm2 p hp
  · intro m hm p hp
    have hne : m ≠ i := by omega
    simp only [Function.update_noteq hne]
    exact q8 m (by omega) p hp

/-- The backpropagation of one sample: after `gradient_backward` every accumulator of the
gradient network has received the contribution of the sample. -/
theorem gradient_backward_spec (n : NeuralNetwork α) (t : Row α) (g : NeuralNetwork α)
    (hn : shape_invariant n)
    (hgw : ∀ m, m + 1 < n.total_layers →
      (g.weight_matrices m).num_columns = n.layer_sizes (m + 1))
    (hga : ∀ m, m < n.total_layers → (g.activation_vectors m).num_columns = n.layer_sizes m) :
    backprop_invariant n t.element g
      (gradient_backward n t (n.layer_sizes (n.total_layers - 1)) g) 0 := by
  unfold gradient_backward
  simp only []
  rw [gradient_reset_loop, gradient_output_loop]
  exact for_loop_down_invariant (fun k G => backprop_invariant n t.element g G k)
    (n.total_layers - 1) (backprop_layer_step n) _
    (backprop_invariant_init n t g hn hga)
    (fun i G hi hP => backprop_invariant_step n t.element g G i hn hgw hi hP)

/-- One iteration of the sample loop of `neural_network_compute_gradients`, in terms of
`sample_forward` and `gradient_backward`. -/
theorem gradient_sample_step_eq (expf : α → α) (network n g : NeuralNetwork α)
    (dataset : Matrix α) (s : Nat) (hinv : shape_invariant network)
    (hsp : same_parameters network n) (hfit : dataset_fits network dataset)
    (hs : s < dataset.num_rows) :
    gradient_sample_step expf dataset (network.layer_sizes 0)
        (network.layer_sizes (network.total_layers - 1)) s (n, g)
      = (sample_forward expf n dataset s).map fun F =>
          (F, gradient_backward F (target_row network dataset s)
                (network.layer_sizes (network.total_layers - 1)) g) := by
  obtain ⟨hL, hW, hA⟩ := hinv
  obtain ⟨f1, f2, f3⟩ := hfit
  have hin : (network.activation_vectors 0).num_columns = network.layer_sizes 0 :=
    hA 0 (by omega)
  have hn0 : (n.activation_vectors 0).num_columns = network.layer_sizes 0 := by
    rw [hsp.2.2.2.2.2 0, hin]
  unfold gradient_sample_step sample_forward
  unfold matrix_get_row
  simp only
  rw [if_pos hs, Option.some_bind, Option.some_bind, hn0]
  have hadd0 : size_add 0 (network.layer_sizes 0) = network.layer_sizes 0 := by
    unfold size_add
    rw [Nat.zero_add]
    exact Nat.mod_eq_of_lt (by omega)
  have hadd1 : size_add (network.layer_sizes 0) (network.layer_sizes (network.total_layers - 1))
      = network.layer_sizes 0 + network.layer_sizes (network.total_layers - 1) := by
    unfold size_add
    exact Nat.mod_eq_of_lt (by omega)
  rw [hadd1, if_pos f1]
  unfold row_create_slice
  simp only
  rw [if_pos (by omega), hadd0, if_pos (by omega), hadd1, if_pos (by omega), if_pos (by omega)]
  simp only [Option.some_bind]
  cases hc : row_copy_data (n.activation_vectors 0)
      ({ num_columns := network.layer_sizes 0
         element := fun i => dataset.element (s * dataset.num_columns + 0 + (0 + i)) } : Row α) with
  | none => rfl
  | some input_row =>
    simp only [Option.some_bind]
    cases hf : neural_network_forward_pass expf
        { n with activation_vectors := Function.update n.activation_vectors 0 input_row } with
    | none => rfl
    | some F =>
      simp only [Option.some_bind, Option.map_some', target_row, target, matrix_at, Nat.add_zero,
        hin]

/-- The error terms depend on the parameters of the network and on the activations and
targets within the layer widths only. -/
theorem backprop_error_congr (n1 n2 : NeuralNetwork α) (a1 a2 : Nat → Nat → α)
    (t1 t2 : Nat → α) (hsp : same_parameters n1 n2) (hL : 1 ≤ n1.total_layers)
    (ha : ∀ l j, l < n1.total_layers → j < n1.layer_sizes l → a1 l j = a2 l j)
    (ht : ∀ j, j < n1.layer_sizes (n1.total_layers - 1) → t1 j = t2 j) :
    ∀ d p, p < n1.layer_sizes (n1.total_layers - 1 - d) →
      backprop_error n1 a1 t1 d p = backprop_error n2 a2 t2 d p := by
  obtain ⟨p1, p2, p3, p4, p5, p6⟩ := hsp
  intro d
  induction d with
  | zero =>
    intro p hp
    rw [Nat.sub_zero] at hp
    simp only [backprop_error, p2]
    rw [ha (n1.total_layers - 1) p (by omega) hp, ht p hp]
  | succ d ih =>
    intro p _
    simp only [backprop_error, p1, p2, p3, p5]
    apply Finset.sum_congr rfl
    intro j hj
    have hj' := Finset.mem_range.mp hj
    rw [ih j hj', ha _ j (by omega) hj']

/-- Congruence for `backprop_delta`. -/
theorem backprop_delta_congr (n1 n2 : NeuralNetwork α) (a1 a2 : Nat → Nat → α)
    (t1 t2 : Nat → α) (hsp : same_parameters n1 n2) (hL : 1 ≤ n1.total_layers)
    (ha : ∀ l j, l < n1.total_layers → j < n1.layer_sizes l → a1 l j = a2 l j)
    (ht : ∀ j, j < n1.layer_sizes (n1.total_layers - 1) → t1 j = t2 j)
    (l j : Nat) (hl : l < n1.total_layers) (hj : j < n1.layer_sizes l) :
    backprop_delta n1 a1 t1 l j = backprop_delta n2 a2 t2 l j := by
  unfold backprop_delta
  have h1 : n1.total_layers - 1 - (n1.total_layers - 1 - l) = l := by omega
  rw [backprop_error_congr n1 n2 a1 a2 t1 t2 hsp hL ha ht _ j (by rw [h1]; exact hj),
    ha l j hl hj, hsp.2.1, hsp.2.2.2.2.1]

/-- The sample loop of `neural_network_compute_gradients` adds the contribution of every
sample to the accumulators of the gradient network. -/
theorem gradient_sample_loop (expf : α → α) (network g0 : NeuralNetwork α) (dataset : Matrix α)
    (hinv : shape_invariant network) (hfit : dataset_fits network dataset)
    (hgw : ∀ m, m + 1 < network.total_layers →
      (g0.weight_matrices m).num_columns = network.layer_sizes (m + 1))
    (hga : ∀ m, m < network.total_layers →
      (g0.activation_vectors m).num_columns = network.layer_sizes m)
    (N : Nat) (hN : N ≤ dataset.num_rows) :
    ∃ n G, for_loop_opt N
        (gradient_sample_step expf dataset (network.layer_sizes 0)
          (network.layer_sizes (network.total_layers - 1))) (network, g0) = some (n, G) ∧
      same_parameters network n ∧
      (∀ m, (G.weight_matrices m).num_rows = (g0.weight_matrices m).num_rows ∧
        (G.weight_matrices m).num_columns = (g0.weight_matrices m).num_columns ∧
        (G.bias_vectors m).num_columns = (g0.bias_vectors m).num_columns ∧
        (G.activation_vectors m).num_columns = (g0.activation_vectors m).num_columns) ∧
      ∀ m, m + 1 < network.total_layers →
        (∀ p j, p < network.layer_sizes m → j < network.layer_sizes (m + 1) →
          matrix_at (G.weight_matrices m) p j
            = matrix_at (g0.weight_matrices m) p j
              + ∑ s ∈ Finset.range N, sample_weight_gradient expf network dataset s m p j) ∧
        (∀ j, j < network.layer_sizes (m + 1) →
          (G.bias_vectors m).element j
            = (g0.bias_vectors m).element j
              + ∑ s ∈ Finset.range N, sample_delta expf network dataset s (m + 1) j) := by
  have key := for_loop_opt_invariant
    (fun k (st : NeuralNetwork α × NeuralNetwork α) =>
      same_parameters network st.1 ∧
      (∀ m, (st.2.weight_matrices m).num_rows = (g0.weight_matrices m).num_rows ∧
        (st.2.weight_matrices m).num_columns = (g0.weight_matrices m).num_columns ∧
        (st.2.bias_vectors m).num_columns = (g0.bias_vectors m).num_columns ∧
        (st.2.activation_vectors m).num_columns = (g0.activation_vectors m).num_columns) ∧
      ∀ m, m + 1 < network.total_layers →
        (∀ p j, p < network.layer_sizes m → j < network.layer_sizes (m + 1) →
          matrix_at (st.2.weight_matrices m) p j
            = matrix_at (g0.weight_matrices m) p j
              + ∑ s ∈ Finset.range k, sample_weight_gradient expf network dataset s m p j) ∧
        (∀ j, j < network.layer_sizes (m + 1) →
          (st.2.bias_vectors m).element j
            = (g0.bias_vectors m).element j
              + ∑ s ∈ Finset.range k, sample_delta expf network dataset s (m + 1) j))
    N
    (gradient_sample_step expf dataset (network.layer_sizes 0)
      (network.layer_sizes (network.total_layers - 1)))
    (network, g0)
    ⟨same_parameters_refl network, fun m => ⟨rfl, rfl, rfl, rfl⟩,
      fun m _ => ⟨fun p j _ _ => by simp, fun j _ => by simp⟩⟩
    (by
      intro k st hk hP
      obtain ⟨n, G⟩ := st
      obtain ⟨hsp, hshape, hval⟩ := hP
      have hs : k < dataset.num_rows := by omega
      obtain ⟨F, hF, hspF, hact⟩ := sample_forward_ok expf network n dataset k hinv hsp hfit hs
      have hFinv : shape_invariant F := same_parameters_shape hspF hinv
      obtain ⟨u1, u2, u3, u4, u5, u6⟩ := hspF
      have hback := gradient_backward_spec F (target_row network dataset k) G hFinv
        (by
          intro m hm
          rw [u2] at hm
          rw [(hshape m).2.1, hgw m hm, u1])
        (by
          intro m hm
          rw [u2] at hm
          rw [(hshape m).2.2.2, hga m hm, u1])
      rw [u1, u2] at hback
      obtain ⟨b1, b2, b3, b4, b5, b6, b7, b8⟩ := hback
      have hactF : ∀ l j, l < F.total_layers → j < F.layer_sizes l →
          (F.activation_vectors l).element j = sample_activation expf network dataset k l j := by
        intro l j hl hj
        rw [u2] at hl
        rw [u1] at hj
        exact hact l j hl (by rw [hinv.2.2 l hl]; exact hj)
      have hdelta : ∀ l j, l < network.total_layers → j < network.layer_sizes l →
          backprop_delta F (fun l x => (F.activation_vectors l).element x)
            (target_row network dataset k).element l j
          = sample_delta expf network dataset k l j := by
        intro l j hl hj
        unfold sample_delta
        exact backprop_delta_congr F network _ _ _ _
          (same_parameters_symm ⟨u1, u2, u3, u4, u5, u6⟩) (by rw [u2]; have := hinv.1; omega)
          hactF (fun _ _ => rfl) l j (by rw [u2]; exact hl) (by rw [u1]; exact hj)
      refine ⟨(F, gradient_backward F (target_row network dataset k)
          (network.layer_sizes (network.total_layers - 1)) G), ?_, ⟨u1, u2, u3, u4, u5, u6⟩, ?_, ?_⟩
      · rw [gradient_sample_step_eq expf network n G dataset k hinv hsp hfit hs, hF]
        rfl
      · intro m
        exact ⟨(b4 m).1.trans (hshape m).1, (b4 m).2.1.trans (hshape m).2.1,
          (b4 m).2.2.1.trans (hshape m).2.2.1, (b4 m).2.2.2.trans (hshape m).2.2.2⟩
      · intro m hm
        rw [u2] at b6
        obtain ⟨w1, w2⟩ := b6 m (Nat.zero_le m) hm
        obtain ⟨v1, v2⟩ := hval m hm
        rw [u1] at w1 w2
        constructor
        · intro p j hp hj
          rw [w1 p j hp hj, v1 p j hp hj, Finset.sum_range_succ, add_assoc,
            hdelta (m + 1) j hm hj, hactF m p (by rw [u2]; omega) (by rw [u1]; exact hp)]
          rfl
        · intro j hj
          rw [w2 j hj, v2 j hj, Finset.sum_range_succ, add_assoc, hdelta (m + 1) j hm hj])
  obtain ⟨⟨n, G⟩, h1, h2, h3, h4⟩ := key
  exact ⟨n, G, h1, h2, h3, h4⟩

/-- The first `n` iterations of the averaging loop. -/
theorem gradient_average_loop (sample_count : Nat) (G : NeuralNetwork α) (n : Nat) :
    for_loop n (fun layer_idx (g : NeuralNetwork α) =>
      { g with
        weight_matrices := Function.update g.weight_matrices layer_idx
          (for_loop (g.weight_matrices layer_idx).num_rows (fun row_idx m =>
            for_loop (g.weight_matrices layer_idx).num_columns (fun col_idx m =>
              matrix_set m row_idx col_idx (matrix_at m row_idx col_idx / (sample_count : α))) m)
            (g.weight_matrices layer_idx))
        bias_vectors := Function.update g.bias_vectors layer_idx
          (for_loop (g.bias_vectors layer_idx).num_columns (fun bias_idx r =>
            row_set r bias_idx (r.element bias_idx / (sample_count : α)))
            (g.bias_vectors layer_idx)) }) G
      = { G with
          weight_matrices := fun l =>
            if l < n then averaged_weights (G.weight_matrices l) sample_count
            else G.weight_matrices l
          bias_vectors := fun l =>
            if l < n then averaged_biases (G.bias_vectors l) sample_count
            else G.bias_vectors l } := by
  induction n with
  | zero =>
    cases G
    simp [for_loop]
  | succ k ih =>
    rw [for_loop_succ, ih]
    cases G with
    | mk sizes L W B A T =>
      simp only [lt_self_iff_false, if_false]
      rw [for_loop_cells (W k).num_rows (W k).num_columns
        (fun _ _ old => old / (sample_count : α)) (W k) rfl]
      rw [for_loop_row_entries (B k).num_columns (fun _ old => old / (sample_count : α)) (B k)]
      refine congr (congr (congr (congrArg (NeuralNetwork.mk sizes L) ?_) ?_) rfl) rfl
      · funext l
        by_cases hl : l = k
        · subst hl
          rw [Function.update_same, if_pos (Nat.lt_succ_self l)]
          rfl
        · rw [Function.update_noteq hl]
          by_cases h1 : l < k
          · rw [if_pos h1, if_pos (Nat.lt_succ_of_lt h1)]
          · rw [if_neg h1, if_neg (by omega)]
      · funext l
        by_cases hl : l = k
        · subst hl
          rw [Function.update_same, if_pos (Nat.lt_succ_self l)]
          rfl
        · rw [Function.update_noteq hl]
          by_cases h1 : l < k
          · rw [if_pos h1, if_pos (Nat.lt_succ_of_lt h1)]
          · rw [if_neg h1, if_neg (by omega)]

/-- Closed form of `gradient_average`. -/
theorem gradient_average_eq (L sample_count : Nat) (G : NeuralNetwork α) :
    gradient_average L sample_count G
      = { G with
          weight_matrices := fun l =>
            if l < L - 1 then averaged_weights (G.weight_matrices l) sample_count
            else G.weight_matrices l
          bias_vectors := fun l =>
            if l < L - 1 then averaged_biases (G.bias_vectors l) sample_count
            else G.bias_vectors l } := by
  unfold gradient_average
  rw [gradient_average_loop]

/-- Filling a zero row with zero changes nothing. -/
theorem row_fill_zero (c : Nat) :
    row_fill_with_value ({ num_columns := c, element := fun _ => 0 } : Row α) 0
      = { num_columns := c, element := fun _ => 0 } := by
  rw [row_fill_with_value_eq]
  simp

/-- Filling a zero matrix with zero changes nothing. -/
theorem matrix_fill_zero (r c : Nat) :
    matrix_fill_with_value ({ num_rows := r, num_columns := c, element := fun _ => 0 } : Matrix α) 0
      = { num_rows := r, num_columns := c, element := fun _ => 0 } := by
  rw [matrix_fill_with_value_eq]
  simp

/-- The storage of a network fresh from `neural_network_allocate` is zero already:
`neural_network_zero_weights` leaves it as it is. -/
theorem neural_network_zero_weights_fresh (arch : Nat → Nat) (L : Nat) :
    neural_network_zero_weights (neural_network_fresh arch L : NeuralNetwork α)
      = neural_network_fresh arch L := by
  have hW : ∀ l, matrix_fill_with_value
      ((neural_network_fresh arch L : NeuralNetwork α).weight_matrices l) 0
      = (neural_network_fresh arch L : NeuralNetwork α).weight_matrices l := by
    intro l
    simp only [neural_network_fresh, allocated_network]
    split_ifs <;> exact matrix_fill_zero _ _
  have hB : ∀ l, row_fill_with_value
      ((neural_network_fresh arch L : NeuralNetwork α).bias_vectors l) 0
      = (neural_network_fresh arch L : NeuralNetwork α).bias_vectors l := by
    intro l
    simp only [neural_network_fresh, allocated_network]
    split_ifs <;> exact row_fill_zero _
  have hA : ∀ l, row_fill_with_value
      ((neural_network_fresh arch L : NeuralNetwork α).activation_vectors l) 0
      = (neural_network_fresh arch L : NeuralNetwork α).activation_vectors l := by
    intro l
    simp only [neural_network_fresh, allocated_network]
    split_ifs <;> exact row_fill_zero _
  unfold neural_network_zero_weights
  simp only []
  have hloop := for_loop_invariant
    (fun _ (n : NeuralNetwork α) => n = neural_network_fresh arch L)
    ((neural_network_fresh arch L : NeuralNetwork α).total_layers - 1)
    (fun layer_idx (n : NeuralNetwork α) =>
      { n with
        weight_matrices := Function.update n.weight_matrices layer_idx
          (matrix_fill_with_value (n.weight_matrices layer_idx) 0)
        bias_vectors := Function.update n.bias_vectors layer_idx
          (row_fill_with_value (n.bias_vectors layer_idx) 0)
        activation_vectors := Function.update n.activation_vectors layer_idx
          (row_fill_with_value (n.activation_vectors layer_idx) 0) })
    (neural_network_fresh arch L) rfl
    (by
      intro i t _ ht
      subst ht
      simp only [hW, hB, hA, Function.update_eq_self])
  rw [hloop]
  simp only [hA, Function.update_eq_self]

/-- Closed form of `neural_network_compute_gradients` on a network with the shape invariant,
a fitting dataset and an arena with room: the call returns; the arena has advanced by the
buffers of the gradient network; the live network keeps its parameters; every entry of the
gradient network is the sum of the per-sample contributions divided by the sample count. -/
theorem neural_network_compute_gradients_eq (expf : α → α) (arena : MemoryArena)
    (network : NeuralNetwork α) (dataset : Matrix α) (hinv : shape_invariant network)
    (hfit : dataset_fits network dataset)
    (hroom : arena_has_room arena network.layer_sizes network.total_layers) :
    ∃ n G, neural_network_compute_gradients expf arena network dataset
        = some ({ arena with
                  used_buffers := arena.used_buffers
                    + neural_network_required_buffers network.layer_sizes network.total_layers },
                n, G) ∧
      same_parameters network n ∧
      (∀ m, m + 1 < network.total_layers →
        (G.weight_matrices m).num_rows = network.layer_sizes m ∧
        (G.weight_matrices m).num_columns = network.layer_sizes (m + 1) ∧
        (G.bias_vectors m).num_columns = network.layer_sizes (m + 1)) ∧
      ∀ m, m + 1 < network.total_layers →
        (∀ p j, p < network.layer_sizes m → j < network.layer_sizes (m + 1) →
          matrix_at (G.weight_matrices m) p j
            = (∑ s ∈ Finset.range dataset.num_rows,
                sample_weight_gradient expf network dataset s m p j)
              / (dataset.num_rows : α)) ∧
        (∀ j, j < network.layer_sizes (m + 1) →
          (G.bias_vectors m).element j
            = (∑ s ∈ Finset.range dataset.num_rows,
                sample_delta expf network dataset s (m + 1) j)
              / (dataset.num_rows : α)) := by
  have hL := hinv.1
  obtain ⟨s1, s2, s3, s4⟩ := neural_network_fresh_shape network.layer_sizes network.total_layers
    (neural_network_fresh network.layer_sizes network.total_layers : NeuralNetwork α) rfl
  obtain ⟨n, G, hloop, hsp, hshape, hval⟩ := gradient_sample_loop expf network
    (neural_network_fresh network.layer_sizes network.total_layers) dataset hinv hfit
    (fun m hm => (s3 m hm).2.1) (fun m hm => s4 m hm) dataset.num_rows le_rfl
  have hzeroW : ∀ m p j,
      matrix_at ((neural_network_fresh network.layer_sizes network.total_layers :
        NeuralNetwork α).weight_matrices m) p j = 0 := by
    intro m p j
    simp only [neural_network_fresh, allocated_network, matrix_at]
    split_ifs <;> rfl
  have hzeroB : ∀ m j,
      ((neural_network_fresh network.layer_sizes network.total_layers :
        NeuralNetwork α).bias_vectors m).element j = 0 := by
    intro m j
    simp only [neural_network_fresh, allocated_network]
    split_ifs <;> rfl
  refine ⟨n, gradient_average network.total_layers dataset.num_rows G, ?_, hsp, ?_, ?_⟩
  · unfold neural_network_compute_gradients
    simp only []
    rw [neural_network_allocate_fits arena _ _ (by omega) hroom, Option.some_bind]
    simp only []
    rw [neural_network_zero_weights_fresh, hloop, Option.map_some']
  · intro m hm
    have hm' : m < network.total_layers - 1 := by omega
    rw [gradient_average_eq]
    simp only [if_pos hm', averaged_weights, averaged_biases]
    exact ⟨(hshape m).1.trans (s3 m hm).1, (hshape m).2.1.trans (s3 m hm).2.1,
      (hshape m).2.2.1.trans (s3 m hm).2.2⟩
  · intro m hm
    have hm' : m < network.total_layers - 1 := by omega
    obtain ⟨v1, v2⟩ := hval m hm
    have hr : (G.weight_matrices m).num_rows = network.layer_sizes m :=
      (hshape m).1.trans (s3 m hm).1
    have hc : (G.weight_matrices m).num_columns = network.layer_sizes (m + 1) :=
      (hshape m).2.1.trans (s3 m hm).2.1
    have hb : (G.bias_vectors m).num_columns = network.layer_sizes (m + 1) :=
      (hshape m).2.2.1.trans (s3 m hm).2.2
    rw [gradient_average_eq]
    simp only [if_pos hm', averaged_weights, averaged_biases]
    constructor
    · intro p j hp hj
      have h1 := v1 p j hp hj
      rw [hzeroW, zero_add] at h1
      rw [← h1]
      simp only [matrix_at]
      rw [if_pos (flat_index_lt p j _ _ (by rw [hr]; exact hp) (by rw [hc]; exact hj))]
    · intro j hj
      have h2 := v2 j hj
      rw [hzeroB, zero_add] at h2
      rw [← h2, if_pos (by rw [hb]; exact hj)]

/-- The activations of `sample_forward`: the input layer holds the features of the sample,
every other layer the activation of the weighted sum of the layer before it. -/
theorem sample_activation_layer (expf : α → α) (network : NeuralNetwork α) (dataset : Matrix α)
    (s : Nat) (hinv : shape_invariant network) (hfit : dataset_fits network dataset)
    (hs : s < dataset.num_rows) :
    (∀ j, j < network.layer_sizes 0 →
      sample_activation expf network dataset s 0 j = matrix_at dataset s j) ∧
    ∀ i j, i + 1 < network.total_layers → j < network.layer_sizes (i + 1) →
      sample_activation expf network dataset s (i + 1) j
        = activation_apply expf
            ((∑ p ∈ Finset.range (network.layer_sizes i),
                sample_activation expf network dataset s i p
                  * matrix_at (network.weight_matrices i) p j)
              + (network.bias_vectors i).element j)
            (network.activation_types (i + 1)) := by
  obtain ⟨row, inp, rm, k1, k2, k3, _, _, d1, e2⟩ :=
    sample_input_ok network network dataset s hinv (same_parameters_refl network) hfit hs
  have spm : same_parameters network
      { network with activation_vectors := Function.update network.activation_vectors 0 rm } :=
    same_parameters_update network 0 rm d1
  have shm := same_parameters_shape spm hinv
  obtain ⟨F, hF, sF, z0, _, hval⟩ := neural_network_forward_pass_correct expf _ shm
  have hsf : sample_forward expf network dataset s = some F := by
    unfold sample_forward
    rw [k1, Option.some_bind, k2, Option.some_bind, k3, Option.some_bind]
    exact hF
  have hact : ∀ l j, sample_activation expf network dataset s l j
      = (F.activation_vectors l).element j := by
    intro l j
    unfold sample_activation
    rw [hsf]
  obtain ⟨u1, u2, u3, u4, u5, u6⟩ := sF
  have hwidth : ∀ l, l < network.total_layers →
      (network.activation_vectors l).num_columns = network.layer_sizes l := hinv.2.2
  constructor
  · intro j hj
    rw [hact, z0]
    simp only [Function.update_same]
    exact e2 j (by rw [hwidth 0 (by have := hinv.1; omega)]; exact hj)
  · intro i j hi hj
    have hcols : (F.activation_vectors i).num_columns = network.layer_sizes i := by
      rw [u6 i]
      by_cases h0 : i = 0
      · subst h0
        simp only [Function.update_same]
        rw [d1, hwidth 0 (by omega)]
      · simp only [Function.update_noteq h0]
        exact hwidth i (by omega)
    have hj' : j < ((Function.update network.activation_vectors 0 rm) (i + 1)).num_columns := by
      rw [Function.update_noteq (Nat.succ_ne_zero i), hwidth (i + 1) hi]
      exact hj
    rw [hact, hval i j hi hj']
    unfold forward_layer_value
    rw [hcols, u3, u4, u5]
    congr 2
    apply Finset.sum_congr rfl
    intro p _
    rw [hact]

theorem single_unit_network_shape : shape_invariant single_unit_network := by
  refine ⟨by decide, ?_, ?_⟩
  · intro i hi
    have h : i = 0 := by
      have : i + 1 < 2 := hi
      omega
    subst h
    simp [single_unit_network, matrix_of_list]
  · intro i hi
    simp [single_unit_network]

theorem single_sample_fits : dataset_fits single_unit_network single_sample := by
  refine ⟨by decide, by decide, by decide⟩

theorem single_unit_room :
    arena_has_room example_arena single_unit_network.layer_sizes
      single_unit_network.total_layers := by
  unfold arena_has_room
  decide

/-- The prediction of `single_unit_network` is 1/2 (sigmoid of the weighted sum 0). -/
theorem single_unit_prediction :
    prediction example_expf single_unit_network single_sample 0 0 = 1 / 2 := by
  have h := (sample_activation_layer example_expf single_unit_network single_sample 0
    single_unit_network_shape single_sample_fits (by decide)).2 0 0 (by decide) (by decide)
  have hp : prediction example_expf single_unit_network single_sample 0 0
      = sample_activation example_expf single_unit_network single_sample 0 (0 + 1) 0 := rfl
  rw [hp, h]
  simp [single_unit_network, matrix_of_list, matrix_at, activation_apply, activation_sigmoid,
    example_expf]
  norm_num

/-- Refutes C3 as stated: for `single_unit_network` (one SIGMOID output unit, parameters
zero) and the single sample with target 0, prediction minus target is 1/2 but the
output-layer bias gradient returned by `neural_network_compute_gradients` is 1/8. -/
theorem compute_gradients_bias_counterexample :
    ∃ r, neural_network_compute_gradients example_expf example_arena single_unit_network
        single_sample = some r ∧
      (r.2.2.bias_vectors 0).element 0 = 1 / 8 ∧
      prediction example_expf single_unit_network single_sample 0 0
        - target single_unit_network single_sample 0 0 = 1 / 2 ∧
      (r.2.2.bias_vectors 0).element 0
        ≠ prediction example_expf single_unit_network single_sample 0 0
          - target single_unit_network single_sample 0 0 := by
  obtain ⟨n, G, hr, _, _, hG⟩ := neural_network_compute_gradients_eq example_expf example_arena
    single_unit_network single_sample single_unit_network_shape single_sample_fits
    single_unit_room
  have hval : (G.bias_vectors 0).element 0
      = (prediction example_expf single_unit_network single_sample 0 0
          - target single_unit_network single_sample 0 0)
        * activation_compute_derivative
            (prediction example_expf single_unit_network single_sample 0 0)
            ACTIVATION_SIGMOID := by
    have h := (hG 0 (by decide)).2 0 (by decide)
    have hrows : single_sample.num_rows = 1 := rfl
    rw [h, hrows, Finset.sum_range_one, Nat.cast_one, div_one]
    rfl
  have ht : target single_unit_network single_sample 0 0 = 0 := by
    simp [target, single_unit_network, single_sample, matrix_of_list, matrix_at]
  have hb : (G.bias_vectors 0).element 0 = 1 / 8 := by
    rw [hval, single_unit_prediction, ht]
    simp [activation_compute_derivative]
    norm_num
  refine ⟨_, hr, hb, ?_, ?_⟩
  · rw [single_unit_prediction, ht]
    norm_num
  · rw [hb, single_unit_prediction, ht]
    norm_num

/-- Claim C3, amended. `neural_network_compute_gradients` on a single-sample batch: for every
network with the shape invariant, every fitting one-row training matrix and an arena with
room, the call returns and each output-layer bias-gradient entry `k` of the returned gradient
network equals `(prediction[k] - target[k])` times the derivative of the output activation,
`activation_compute_derivative(prediction[k], tag of the output layer)`, where `prediction`
is the forward-pass output for the features of the row. -/
theorem neural_network_compute_gradients_single (expf : α → α) (arena : MemoryArena)
    (network : NeuralNetwork α) (dataset : Matrix α) (hinv : shape_invariant network)
    (hfit : dataset_fits network dataset)
    (hroom : arena_has_room arena network.layer_sizes network.total_layers)
    (hN : dataset.num_rows = 1) :
    ∃ r, neural_network_compute_gradients expf arena network dataset = some r ∧
      ∀ k, k < network.layer_sizes (network.total_layers - 1) →
        (r.2.2.bias_vectors (network.total_layers - 2)).element k
          = (prediction expf network dataset 0 k - target network dataset 0 k)
            * activation_compute_derivative (prediction expf network dataset 0 k)
                (network.activation_types (network.total_layers - 1)) := by
  have hL := hinv.1
  obtain ⟨n, G, hG, _, _, hval⟩ :=
    neural_network_compute_gradients_eq expf arena network dataset hinv hfit hroom
  refine ⟨_, hG, ?_⟩
  intro k hk
  have hm : network.total_layers - 2 + 1 < network.total_layers := by omega
  have hm1 : network.total_layers - 2 + 1 = network.total_layers - 1 := by omega
  have h := (hval (network.total_layers - 2) hm).2 k (by rw [hm1]; exact hk)
  simp only [] at h ⊢
  rw [h, hN, Finset.sum_range_one, Nat.cast_one, div_one, hm1]
  simp only [sample_delta, backprop_delta, Nat.sub_self, backprop_error, prediction]

/-- The single-sample gradient of `single_unit_network` in an arena of 1000 buffers. -/
theorem neural_network_compute_gradients_single_witness :
    (shape_invariant single_unit_network ∧ dataset_fits single_unit_network single_sample ∧
      arena_has_room example_arena single_unit_network.layer_sizes
        single_unit_network.total_layers ∧ single_sample.num_rows = 1) ∧
    ∃ r, neural_network_compute_gradients example_expf example_arena single_unit_network
        single_sample = some r ∧
      ∀ k, k < single_unit_network.layer_sizes (single_unit_network.total_layers - 1) →
        (r.2.2.bias_vectors (single_unit_network.total_layers - 2)).element k
          = (prediction example_expf single_unit_network single_sample 0 k
              - target single_unit_network single_sample 0 k)
            * activation_compute_derivative
                (prediction example_expf single_unit_network single_sample 0 k)
                (single_unit_network.activation_types (single_unit_network.total_layers - 1)) :=
  ⟨⟨single_unit_network_shape, single_sample_fits, single_unit_room, rfl⟩,
    neural_network_compute_gradients_single example_expf example_arena single_unit_network
      single_sample single_unit_network_shape single_sample_fits single_unit_room rfl⟩

/-- The slice of one row is `single_row_batch`. -/
theorem matrix_create_row_slice_single (dataset : Matrix α) (s : Nat)
    (hs : s < dataset.num_rows) (hsize : dataset.num_rows < SIZE_MODULUS) :
    matrix_create_row_slice dataset s 1 = some (single_row_batch dataset s) := by
  unfold matrix_create_row_slice
  have h : size_add s 1 = s + 1 := Nat.mod_eq_of_lt (by omega)
  rw [h, if_pos (by omega)]
  rfl

/-- The forward pass of the only sample of `single_row_batch dataset s` is the forward pass of
sample `s` of the dataset. -/
theorem sample_forward_single_row (expf : α → α) (n : NeuralNetwork α) (dataset : Matrix α)
    (s : Nat) (hs : s < dataset.num_rows) :
    sample_forward expf n (single_row_batch dataset s) 0 = sample_forward expf n dataset s := by
  unfold sample_forward matrix_get_row single_row_batch
  simp only [Nat.lt_one_iff, if_true, if_pos hs, Nat.zero_mul, Nat.add_zero, Nat.zero_add]

/-- The per-sample gradient contributions of `single_row_batch dataset s` are those of sample
`s` of the dataset. -/
theorem sample_gradient_single_row (expf : α → α) (network : NeuralNetwork α)
    (dataset : Matrix α) (s : Nat) (hs : s < dataset.num_rows) :
    (∀ l j, sample_delta expf network (single_row_batch dataset s) 0 l j
      = sample_delta expf network dataset s l j) ∧
    ∀ m p j, sample_weight_gradient expf network (single_row_batch dataset s) 0 m p j
      = sample_weight_gradient expf network dataset s m p j := by
  have ha : sample_activation expf network (single_row_batch dataset s) 0
      = sample_activation expf network dataset s := by
    funext l j
    unfold sample_activation
    rw [sample_forward_single_row expf network dataset s hs]
  have ht : target network (single_row_batch dataset s) 0 = target network dataset s := by
    funext k
    simp [target, matrix_at, single_row_batch]
  constructor
  · intro l j
    unfold sample_delta
    rw [ha, ht]
  · intro m p j
    unfold sample_weight_gradient sample_delta
    rw [ha, ht]

/-- The gradient network computed from the one-row batch of row `s`. -/
theorem compute_gradients_single_row (expf : α → α) (arena : MemoryArena)
    (network : NeuralNetwork α) (dataset : Matrix α) (hinv : shape_invariant network)
    (hfit : dataset_fits network dataset)
    (hroom : arena_has_room arena network.layer_sizes network.total_layers)
    (s : Nat) (hs : s < dataset.num_rows) :
    ∃ r, neural_network_compute_gradients expf arena network (single_row_batch dataset s)
        = some r ∧
      ∀ m, m + 1 < network.total_layers →
        (∀ p j, p < network.layer_sizes m → j < network.layer_sizes (m + 1) →
          matrix_at (r.2.2.weight_matrices m) p j
            = sample_weight_gradient expf network dataset s m p j) ∧
        (∀ j, j < network.layer_sizes (m + 1) →
          (r.2.2.bias_vectors m).element j = sample_delta expf network dataset s (m + 1) j) := by
  have hfit1 : dataset_fits network (single_row_batch dataset s) := hfit
  obtain ⟨n, G, hG, _, _, hval⟩ := neural_network_compute_gradients_eq expf arena network
    (single_row_batch dataset s) hinv hfit1 hroom
  obtain ⟨d1, d2⟩ := sample_gradient_single_row expf network dataset s hs
  have hrows : (single_row_batch dataset s).num_rows = 1 := rfl
  refine ⟨_, hG, ?_⟩
  intro m hm
  obtain ⟨v1, v2⟩ := hval m hm
  constructor
  · intro p j hp hj
    show matrix_at (G.weight_matrices m) p j = _
    rw [v1 p j hp hj, hrows, Finset.sum_range_one, Nat.cast_one, div_one, d2]
  · intro j hj
    show (G.bias_vectors m).element j = _
    rw [v2 j hj, hrows, Finset.sum_range_one, Nat.cast_one, div_one, d1]

/-- Claim C4. `neural_network_compute_gradients` averages per-sample gradients: for every
network with the shape invariant, every fitting training matrix with `N >= 1` rows and an
arena with room, the call returns, so does the call on each one-row batch
`matrix_create_row_slice(dataset, s, 1)`, and each weight-gradient and bias-gradient entry of
the result equals `1/N` times the sum over the rows `s` of the same entry of the result for
the one-row batch of row `s`. -/
theorem neural_network_compute_gradients_mean (expf : α → α) (arena : MemoryArena)
    (network : NeuralNetwork α) (dataset : Matrix α) (hinv : shape_invariant network)
    (hfit : dataset_fits network dataset)
    (hroom : arena_has_room arena network.layer_sizes network.total_layers)
    (hN : 1 ≤ dataset.num_rows) (hsize : dataset.num_rows < SIZE_MODULUS) :
    ∃ (r : MemoryArena × NeuralNetwork α × NeuralNetwork α)
      (rs : Nat → MemoryArena × NeuralNetwork α × NeuralNetwork α),
      neural_network_compute_gradients expf arena network dataset = some r ∧
      (∀ s, s < dataset.num_rows →
        ∃ batch, matrix_create_row_slice dataset s 1 = some batch ∧
          neural_network_compute_gradients expf arena network batch = some (rs s)) ∧
      ∀ m, m + 1 < network.total_layers →
        (∀ p j, p < network.layer_sizes m → j < network.layer_sizes (m + 1) →
          matrix_at (r.2.2.weight_matrices m) p j
            = (1 / (dataset.num_rows : α))
              * ∑ s ∈ Finset.range dataset.num_rows,
                  matrix_at ((rs s).2.2.weight_matrices m) p j) ∧
        (∀ j, j < network.layer_sizes (m + 1) →
          (r.2.2.bias_vectors m).element j
            = (1 / (dataset.num_rows : α))
              * ∑ s ∈ Finset.range dataset.num_rows,
                  ((rs s).2.2.bias_vectors m).element j) := by
  have _hpos : (0 : α) < (dataset.num_rows : α) := by exact_mod_cast hN
  obtain ⟨n, G, hG, _, _, hval⟩ :=
    neural_network_compute_gradients_eq expf arena network dataset hinv hfit hroom
  have hrs : ∀ s, s < dataset.num_rows →
      neural_network_compute_gradients expf arena network (single_row_batch dataset s)
        = some ((neural_network_compute_gradients expf arena network
            (single_row_batch dataset s)).getD (arena, n, G)) ∧
      ∀ m, m + 1 < network.total_layers →
        (∀ p j, p < network.layer_sizes m → j < network.layer_sizes (m + 1) →
          matrix_at (((neural_network_compute_gradients expf arena network
              (single_row_batch dataset s)).getD (arena, n, G)).2.2.weight_matrices m) p j
            = sample_weight_gradient expf network dataset s m p j) ∧
        (∀ j, j < network.layer_sizes (m + 1) →
          (((neural_network_compute_gradients expf arena network
              (single_row_batch dataset s)).getD (arena, n, G)).2.2.bias_vectors m).element j
            = sample_delta expf network dataset s (m + 1) j) := by
    intro s hs
    obtain ⟨r, hr, hv⟩ :=
      compute_gradients_single_row expf arena network dataset hinv hfit hroom s hs
    rw [hr]
    exact ⟨rfl, hv⟩
  refine ⟨_, fun s => (neural_network_compute_gradients expf arena network
      (single_row_batch dataset s)).getD (arena, n, G), hG, ?_, ?_⟩
  · intro s hs
    exact ⟨single_row_batch dataset s, matrix_create_row_slice_single dataset s hs hsize,
      (hrs s hs).1⟩
  · intro m hm
    obtain ⟨v1, v2⟩ := hval m hm
    constructor
    · intro p j hp hj
      show matrix_at (G.weight_matrices m) p j = _
      rw [v1 p j hp hj, div_eq_mul_one_div, mul_comm]
      congr 1
      apply Finset.sum_congr rfl
      intro s hs
      exact (((hrs s (Finset.mem_range.mp hs)).2 m hm).1 p j hp hj).symm
    · intro j hj
      show (G.bias_vectors m).element j = _
      rw [v2 j hj, div_eq_mul_one_div, mul_comm]
      congr 1
      apply Finset.sum_congr rfl
      intro s hs
      exact (((hrs s (Finset.mem_range.mp hs)).2 m hm).2 j hj).symm

theorem example_network_room :
    arena_has_room example_arena example_network.layer_sizes example_network.total_layers := by
  unfold arena_has_room
  decide

/-- The gradient of `example_network` on the five rows of `example_dataset` is the mean of
the five one-row gradients. -/
theorem neural_network_compute_gradients_mean_witness :
    (shape_invariant example_network ∧ dataset_fits example_network example_dataset ∧
      arena_has_room example_arena example_network.layer_sizes example_network.total_layers ∧
      1 ≤ example_dataset.num_rows ∧ example_dataset.num_rows < SIZE_MODULUS) ∧
    ∃ (r : MemoryArena × NeuralNetwork ℚ × NeuralNetwork ℚ)
      (rs : Nat → MemoryArena × NeuralNetwork ℚ × NeuralNetwork ℚ),
      neural_network_compute_gradients example_expf example_arena example_network
        example_dataset = some r ∧
      matrix_at (r.2.2.weight_matrices 0) 1 2
        = (1 / 5) * ∑ s ∈ Finset.range 5, matrix_at ((rs s).2.2.weight_matrices 0) 1 2 := by
  obtain ⟨r, rs, h1, _, h3⟩ := neural_network_compute_gradients_mean example_expf example_arena
    example_network example_dataset example_network_shape example_dataset_fits
    example_network_room (by decide) (by decide)
  refine ⟨⟨example_network_shape, example_dataset_fits, example_network_room, by decide,
    by decide⟩, r, rs, h1, ?_⟩
  have h := (h3 0 (by decide)).1 1 2 (by decide) (by decide)
  rw [h]
  have h5 : example_dataset.num_rows = 5 := rfl
  rw [h5]
  norm_num

/-- A layer step of the forward pass stores into an activation vector only. -/
theorem neural_network_forward_layer_frame (expf : α → α) (i : Nat) (n n' : NeuralNetwork α)
    (h : neural_network_forward_layer expf i n = some n') :
    n'.layer_sizes = n.layer_sizes ∧ n'.total_layers = n.total_layers ∧
    n'.weight_matrices = n.weight_matrices ∧ n'.bias_vectors = n.bias_vectors ∧
    n'.activation_types = n.activation_types := by
  unfold neural_network_forward_layer at h
  obtain ⟨product, _, h1⟩ := Option.bind_eq_some.mp h
  obtain ⟨summed, _, h2⟩ := Option.bind_eq_some.mp h1
  cases h2
  exact ⟨rfl, rfl, rfl, rfl, rfl⟩

/-- The forward pass stores into activation vectors only. -/
theorem neural_network_forward_pass_frame (expf : α → α) (n n' : NeuralNetwork α)
    (h : neural_network_forward_pass expf n = some n') :
    n'.layer_sizes = n.layer_sizes ∧ n'.total_layers = n.total_layers ∧
    n'.weight_matrices = n.weight_matrices ∧ n'.bias_vectors = n.bias_vectors ∧
    n'.activation_types = n.activation_types := by
  unfold neural_network_forward_pass at h
  by_cases hL : n.total_layers > 1
  · rw [if_pos hL] at h
    exact for_loop_opt_some
      (fun _ (t : NeuralNetwork α) =>
        t.layer_sizes = n.layer_sizes ∧ t.total_layers = n.total_layers ∧
        t.weight_matrices = n.weight_matrices ∧ t.bias_vectors = n.bias_vectors ∧
        t.activation_types = n.activation_types)
      (n.total_layers - 1) (neural_network_forward_layer expf) n ⟨rfl, rfl, rfl, rfl, rfl⟩
      (fun i t t' _ ht hbody => by
        obtain ⟨a1, a2, a3, a4, a5⟩ := neural_network_forward_layer_frame expf i t t' hbody
        obtain ⟨b1, b2, b3, b4, b5⟩ := ht
        exact ⟨a1.trans b1, a2.trans b2, a3.trans b3, a4.trans b4, a5.trans b5⟩)
      n' h
  · rw [if_neg hL] at h
    cases h

/-- One iteration of the sample loop of `neural_network_compute_gradients` leaves the
parameters of the live network as they are. -/
theorem gradient_sample_step_frame (expf : α → α) (dataset : Matrix α) (inp out s : Nat)
    (st st' : NeuralNetwork α × NeuralNetwork α)
    (h : gradient_sample_step expf dataset inp out s st = some st') :
    st'.1.layer_sizes = st.1.layer_sizes ∧ st'.1.total_layers = st.1.total_layers ∧
    st'.1.weight_matrices = st.1.weight_matrices ∧ st'.1.bias_vectors = st.1.bias_vectors ∧
    st'.1.activation_types = st.1.activation_types := by
  unfold gradient_sample_step at h
  obtain ⟨sample_row, _, h1⟩ := Option.bind_eq_some.mp h
  by_cases hc : size_add inp out ≤ sample_row.num_columns
  · rw [if_pos hc] at h1
    obtain ⟨input_data, _, h2⟩ := Option.bind_eq_some.mp h1
    obtain ⟨target_output, _, h3⟩ := Option.bind_eq_some.mp h2
    obtain ⟨input_row, _, h4⟩ := Option.bind_eq_some.mp h3
    obtain ⟨network1, h5, h6⟩ := Option.bind_eq_some.mp h4
    cases h6
    exact neural_network_forward_pass_frame expf
      { st.1 with activation_vectors := Function.update st.1.activation_vectors 0 input_row }
      network1 h5
  · rw [if_neg hc] at h1
    cases h1

/-- Claim C5. `neural_network_compute_gradients` does not modify the parameters of the live
network: whenever the call returns, the weights, the biases, the activation tags and the
architecture of the network after the call are those of the network passed in (only its
activation vectors are written), so every sample is propagated with the same weights; on a
network with the shape invariant, a fitting batch and an arena with room the call returns. -/
theorem neural_network_compute_gradients_frame (expf : α → α) (arena : MemoryArena)
    (network : NeuralNetwork α) (dataset : Matrix α) :
    (∀ r, neural_network_compute_gradients expf arena network dataset = some r →
      r.2.1.weight_matrices = network.weight_matrices ∧
      r.2.1.bias_vectors = network.bias_vectors ∧
      r.2.1.activation_types = network.activation_types ∧
      r.2.1.layer_sizes = network.layer_sizes ∧
      r.2.1.total_layers = network.total_layers) ∧
    (shape_invariant network → dataset_fits network dataset →
      arena_has_room arena network.layer_sizes network.total_layers →
      ∃ r, neural_network_compute_gradients expf arena network dataset = some r) := by
  constructor
  · intro r hr
    unfold neural_network_compute_gradients at hr
    simp only [] at hr
    obtain ⟨ag, _, h1⟩ := Option.bind_eq_some.mp hr
    obtain ⟨st, h2, h3⟩ := Option.map_eq_some'.mp h1
    have hinv := for_loop_opt_some
      (fun _ (t : NeuralNetwork α × NeuralNetwork α) =>
        t.1.layer_sizes = network.layer_sizes ∧ t.1.total_layers = network.total_layers ∧
        t.1.weight_matrices = network.weight_matrices ∧
        t.1.bias_vectors = network.bias_vectors ∧
        t.1.activation_types = network.activation_types)
      dataset.num_rows _ _ ⟨rfl, rfl, rfl, rfl, rfl⟩
      (fun i t t' _ ht hbody => by
        obtain ⟨a1, a2, a3, a4, a5⟩ := gradient_sample_step_frame expf dataset _ _ i t t' hbody
        obtain ⟨b1, b2, b3, b4, b5⟩ := ht
        exact ⟨a1.trans b1, a2.trans b2, a3.trans b3, a4.trans b4, a5.trans b5⟩)
      st h2
    obtain ⟨c1, c2, c3, c4, c5⟩ := hinv
    cases h3
    exact ⟨c3, c4, c5, c1, c2⟩
  · intro hinv hfit hroom
    obtain ⟨n, G, hG, _⟩ :=
      neural_network_compute_gradients_eq expf arena network dataset hinv hfit hroom
    exact ⟨_, hG⟩

/-- The call on `example_network` and `example_dataset` returns and leaves the weights alone. -/
theorem neural_network_compute_gradients_frame_witness :
    (shape_invariant example_network ∧ dataset_fits example_network example_dataset ∧
      arena_has_room example_arena example_network.layer_sizes example_network.total_layers) ∧
    ∃ r, neural_network_compute_gradients example_expf example_arena example_network
        example_dataset = some r ∧
      r.2.1.weight_matrices = example_network.weight_matrices ∧
      r.2.1.bias_vectors = example_network.bias_vectors := by
  obtain ⟨r, hr⟩ := (neural_network_compute_gradients_frame example_expf example_arena
    example_network example_dataset).2 example_network_shape example_dataset_fits
    example_network_room
  have h := (neural_network_compute_gradients_frame example_expf example_arena
    example_network example_dataset).1 r hr
  exact ⟨⟨example_network_shape, example_dataset_fits, example_network_room⟩, r, hr, h.1, h.2.1⟩

/-- `neural_network_apply_gradients` keeps the shape invariant, the architecture and the
activation vectors. -/
theorem neural_network_apply_gradients_shape (n g : NeuralNetwork α) (lr : α)
    (h : shape_invariant n) :
    shape_invariant (neural_network_apply_gradients n g lr) ∧
    (neural_network_apply_gradients n g lr).layer_sizes = n.layer_sizes ∧
    (neural_network_apply_gradients n g lr).total_layers = n.total_layers := by
  obtain ⟨hL, hW, hA⟩ := h
  unfold neural_network_apply_gradients
  rw [neural_network_apply_gradients_loop]
  refine ⟨⟨hL, ?_, hA⟩, rfl, rfl⟩
  intro i hi
  have h1 : i < n.total_layers - 1 := by
    have : i + 1 < n.total_layers := hi
    omega
  simp only [if_pos h1, updated_weights, updated_biases]
  exact hW i hi

/-- The batch taken by a step that starts at row `start <= T` without overflow. -/
theorem batch_slice_ok (dataset : Matrix α) (start B : Nat) (hstart : start ≤ dataset.num_rows)
    (hT : dataset.num_rows < SIZE_MODULUS) (hwrap : start + B < SIZE_MODULUS) :
    batch_actual_size start B dataset.num_rows = min (start + B) dataset.num_rows - start ∧
    matrix_create_row_slice dataset start (batch_actual_size start B dataset.num_rows)
      = some { num_rows := min (start + B) dataset.num_rows - start
               num_columns := dataset.num_columns
               element := fun i => dataset.element (start * dataset.num_columns + 0 + i) } := by
  have hadd : size_add start B = start + B := Nat.mod_eq_of_lt hwrap
  have hact : batch_actual_size start B dataset.num_rows
      = min (start + B) dataset.num_rows - start := by
    unfold batch_actual_size
    rw [hadd]
    by_cases hc : start + B ≥ dataset.num_rows
    · rw [if_pos hc, Nat.min_eq_right hc]
      unfold size_sub
      have h1 : dataset.num_rows + SIZE_MODULUS - start
          = (dataset.num_rows - start) + SIZE_MODULUS := by omega
      rw [h1, Nat.add_mod_right]
      exact Nat.mod_eq_of_lt (by omega)
    · rw [if_neg hc, Nat.min_eq_left (by omega)]
      omega
  refine ⟨hact, ?_⟩
  rw [hact]
  unfold matrix_create_row_slice
  have hadd2 : size_add start (min (start + B) dataset.num_rows - start)
      = min (start + B) dataset.num_rows := by
    unfold size_add
    have h2 : start + (min (start + B) dataset.num_rows - start)
        = min (start + B) dataset.num_rows := by
      have : start ≤ min (start + B) dataset.num_rows := le_min (by omega) hstart
      omega
    rw [h2]
    exact Nat.mod_eq_of_lt (lt_of_le_of_lt (Nat.min_le_right _ _) hT)
  rw [hadd2, if_pos (Nat.min_le_right _ _)]

/-- The cursor after `batch_restart` is not finished. -/
theorem batch_restart_not_finished (bp : BatchProcessor α) :
    (batch_restart bp).is_epoch_finished = false := by
  unfold batch_restart
  by_cases h : bp.is_epoch_finished = true
  · rw [if_pos h]
  · rw [if_neg h]
    simpa using h

/-- The end of a step that does not divide by a zero `batch_size`. -/
theorem batch_advance_ok (bp0 : BatchProcessor α) (B actual T : Nat) (c : α)
    (hB : 1 ≤ B ∨ size_add bp0.current_start_idx actual < T)
    (h0 : bp0.is_epoch_finished = false) :
    ∃ bp1, batch_advance bp0 B actual T c = some bp1 ∧
      bp1.current_start_idx = size_add bp0.current_start_idx actual ∧
      (bp1.is_epoch_finished = true ↔ T ≤ size_add bp0.current_start_idx actual) ∧
      bp1.accumulated_cost
        = if T ≤ size_add bp0.current_start_idx actual then
            (bp0.accumulated_cost + c) / (batch_total_count T B : α)
          else bp0.accumulated_cost + c := by
  unfold batch_advance
  simp only []
  by_cases hc : size_add bp0.current_start_idx actual ≥ T
  · rw [if_pos hc, if_neg (by omega)]
    exact ⟨_, rfl, rfl, ⟨fun _ => hc, fun _ => rfl⟩, by rw [if_pos hc]⟩
  · rw [if_neg hc]
    refine ⟨_, rfl, rfl, ⟨fun h => ?_, fun h => absurd h hc⟩, by rw [if_neg hc]⟩
    simp only [h0] at h
    cases h

/-- A step of `batch_process_training_data` on a network with the shape invariant, a fitting
dataset and an arena with room, from a cursor within the dataset, with `batch_size >= 1` (or
with a batch that does not reach the end of the dataset):
the step returns, the arena is as on entry, the network keeps the shape invariant and its
architecture, the cursor has advanced to `min (start + batch_size) T`, and the epoch is
finished exactly when that is `T`. -/
theorem batch_step_ok (expf : α → α) (arena : MemoryArena) (bp : BatchProcessor α) (B : Nat)
    (network : NeuralNetwork α) (dataset : Matrix α) (lr : α) (hinv : shape_invariant network)
    (hfit : dataset_fits network dataset)
    (hroom : arena_has_room arena network.layer_sizes network.total_layers)
    (hB : 1 ≤ B ∨ (batch_restart bp).current_start_idx + B < dataset.num_rows)
    (hT : dataset.num_rows < SIZE_MODULUS)
    (hstart : (batch_restart bp).current_start_idx ≤ dataset.num_rows)
    (hwrap : (batch_restart bp).current_start_idx + B < SIZE_MODULUS) :
    ∃ bp1 n2,
      batch_process_training_data expf arena bp B network dataset lr = some (arena, bp1, n2) ∧
      shape_invariant n2 ∧ n2.layer_sizes = network.layer_sizes ∧
      n2.total_layers = network.total_layers ∧
      bp1.current_start_idx = min ((batch_restart bp).current_start_idx + B) dataset.num_rows ∧
      (bp1.is_epoch_finished = true
        ↔ dataset.num_rows ≤ (batch_restart bp).current_start_idx + B) ∧
      ∃ batch g c,
        matrix_create_row_slice dataset (batch_restart bp).current_start_idx
          (batch_actual_size (batch_restart bp).current_start_idx B dataset.num_rows)
          = some batch ∧
        neural_network_compute_gradients expf arena network batch = some g ∧
        neural_network_calculate_cost expf (neural_network_apply_gradients g.2.1 g.2.2 lr) batch
          = some (c, n2) ∧
        (bp1.accumulated_cost
          = if dataset.num_rows ≤ (batch_restart bp).current_start_idx + B then
              ((batch_restart bp).accumulated_cost + c) / (batch_total_count dataset.num_rows B : α)
            else (batch_restart bp).accumulated_cost + c) ∧
        same_parameters network g.2.1 ∧
        same_parameters (neural_network_apply_gradients g.2.1 g.2.2 lr) n2 := by
  obtain ⟨hact, hslice⟩ :=
    batch_slice_ok dataset (batch_restart bp).current_start_idx B hstart hT hwrap
  have hfitb : dataset_fits network
      ({ num_rows := min ((batch_restart bp).current_start_idx + B) dataset.num_rows
            - (batch_restart bp).current_start_idx
         num_columns := dataset.num_columns
         element := fun i => dataset.element
           ((batch_restart bp).current_start_idx * dataset.num_columns + 0 + i) } : Matrix α) :=
    hfit
  obtain ⟨n1, G, hG, hsp1, _, _⟩ :=
    neural_network_compute_gradients_eq expf arena network _ hinv hfitb hroom
  have hinv1 : shape_invariant n1 := same_parameters_shape hsp1 hinv
  obtain ⟨hinvA, hsizes, hlayers⟩ := neural_network_apply_gradients_shape n1 G lr hinv1
  have hfitA : dataset_fits (neural_network_apply_gradients n1 G lr)
      ({ num_rows := min ((batch_restart bp).current_start_idx + B) dataset.num_rows
            - (batch_restart bp).current_start_idx
         num_columns := dataset.num_columns
         element := fun i => dataset.element
           ((batch_restart bp).current_start_idx * dataset.num_columns + 0 + i) } : Matrix α) := by
    unfold dataset_fits
    rw [hsizes, hlayers, hsp1.1, hsp1.2.1]
    exact hfit
  obtain ⟨n2, hloop, hsp2⟩ := calculate_cost_loop expf _ _ hinvA hfitA _ le_rfl
  obtain ⟨c, hcost⟩ : ∃ c, neural_network_calculate_cost expf
      (neural_network_apply_gradients n1 G lr)
      ({ num_rows := min ((batch_restart bp).current_start_idx + B) dataset.num_rows
            - (batch_restart bp).current_start_idx
         num_columns := dataset.num_columns
         element := fun i => dataset.element
           ((batch_restart bp).current_start_idx * dataset.num_columns + 0 + i) } : Matrix α)
      = some (c, n2) := by
    unfold neural_network_calculate_cost
    simp only []
    rw [hloop, Option.map_some']
    exact ⟨_, rfl⟩
  have hsum : size_add (batch_restart bp).current_start_idx
      (min ((batch_restart bp).current_start_idx + B) dataset.num_rows
        - (batch_restart bp).current_start_idx)
      = min ((batch_restart bp).current_start_idx + B) dataset.num_rows := by
    unfold size_add
    have h2 : (batch_restart bp).current_start_idx
        + (min ((batch_restart bp).current_start_idx + B) dataset.num_rows
          - (batch_restart bp).current_start_idx)
        = min ((batch_restart bp).current_start_idx + B) dataset.num_rows := by
      have : (batch_restart bp).current_start_idx
          ≤ min ((batch_restart bp).current_start_idx + B) dataset.num_rows :=
        le_min (by omega) hstart
      omega
    rw [h2]
    exact Nat.mod_eq_of_lt (lt_of_le_of_lt (Nat.min_le_right _ _) hT)
  obtain ⟨bp1, hadv, hidx, hfin, hacc⟩ := batch_advance_ok (batch_restart bp) B
    (min ((batch_restart bp).current_start_idx + B) dataset.num_rows
      - (batch_restart bp).current_start_idx) dataset.num_rows c
    (by
      rw [hsum]
      rcases hB with h | h
      · exact Or.inl h
      · exact Or.inr (lt_of_le_of_lt (Nat.min_le_left _ _) h))
    (batch_restart_not_finished bp)
  rw [hsum] at hidx hfin hacc
  have hminle : (dataset.num_rows
        ≤ min ((batch_restart bp).current_start_idx + B) dataset.num_rows)
      ↔ dataset.num_rows ≤ (batch_restart bp).current_start_idx + B :=
    ⟨fun h => le_trans h (Nat.min_le_left _ _), fun h => le_min h le_rfl⟩
  refine ⟨bp1, n2, ?_, same_parameters_shape hsp2 hinvA, ?_, ?_, hidx, ?_,
    ⟨_, _, c, hslice, hG, hcost, ?_, hsp1, hsp2⟩⟩
  · unfold batch_process_training_data
    simp only []
    rw [hslice, Option.some_bind, hact, hG, Option.some_bind]
    simp only []
    rw [hcost, Option.some_bind]
    simp only []
    rw [hadv, Option.map_some']
  · rw [hsp2.1, hsizes, hsp1.1]
  · rw [hsp2.2.1, hlayers, hsp1.2.1]
  · rw [hfin]
    exact hminle
  · rw [hacc]
    by_cases hc : dataset.num_rows ≤ (batch_restart bp).current_start_idx + B
    · rw [if_pos (hminle.mpr hc), if_pos hc]
    · rw [if_neg (fun h => hc (hminle.mp h)), if_neg hc]

/-- A successful `arena_allocate_memory`: the capacity is kept, `used_buffers` is advanced by
`required_buffers` (in `size_t`) and stays within the capacity. -/
theorem arena_allocate_memory_some (arena arena1 : MemoryArena) (size_in_bytes : Nat)
    (h : arena_allocate_memory arena size_in_bytes = some arena1) :
    arena1.total_capacity = arena.total_capacity ∧
    arena1.used_buffers = size_add arena.used_buffers (required_buffers size_in_bytes) ∧
    arena1.used_buffers ≤ arena1.total_capacity := by
  unfold arena_allocate_memory at h
  by_cases hc : size_add arena.used_buffers (required_buffers size_in_bytes) ≤ arena.total_capacity
  · rw [if_pos hc] at h
    cases h
    exact ⟨rfl, rfl, hc⟩
  · rw [if_neg hc] at h
    cases h

theorem matrix_allocate_capacity (arena : MemoryArena) (r c : Nat) (p : MemoryArena × Matrix α)
    (h : matrix_allocate arena r c = some p) : p.1.total_capacity = arena.total_capacity := by
  unfold matrix_allocate at h
  obtain ⟨a1, h1, h2⟩ := Option.map_eq_some'.mp h
  cases h2
  exact (arena_allocate_memory_some arena a1 _ h1).1

theorem row_allocate_capacity (arena : MemoryArena) (c : Nat) (p : MemoryArena × Row α)
    (h : row_allocate arena c = some p) : p.1.total_capacity = arena.total_capacity := by
  unfold row_allocate at h
  obtain ⟨am, h1, h2⟩ := Option.bind_eq_some.mp h
  obtain ⟨r, _, h3⟩ := Option.map_eq_some'.mp h2
  cases h3
  exact matrix_allocate_capacity arena 1 c am h1

theorem neural_network_allocate_layer_capacity (arch : Nat → Nat) (i : Nat)
    (st st' : MemoryArena × NeuralNetwork α)
    (h : neural_network_allocate_layer arch i st = some st') :
    st'.1.total_capacity = st.1.total_capacity := by
  unfold neural_network_allocate_layer at h
  obtain ⟨aw, h1, h2⟩ := Option.bind_eq_some.mp h
  obtain ⟨ab, h3, h4⟩ := Option.bind_eq_some.mp h2
  obtain ⟨aa, h5, h6⟩ := Option.bind_eq_some.mp h4
  cases h6
  show aa.1.total_capacity = st.1.total_capacity
  rw [row_allocate_capacity _ _ aa h5, row_allocate_capacity _ _ ab h3,
    matrix_allocate_capacity _ _ _ aw h1]

/-- `neural_network_allocate` keeps the capacity of the arena. -/
theorem neural_network_allocate_capacity (arena : MemoryArena) (arch : Nat → Nat) (L : Nat)
    (p : MemoryArena × NeuralNetwork α) (h : neural_network_allocate arena arch L = some p) :
    p.1.total_capacity = arena.total_capacity := by
  unfold neural_network_allocate at h
  by_cases hL : L > 1
  · rw [if_pos hL] at h
    obtain ⟨a1, h1, g1⟩ := Option.bind_eq_some.mp h
    obtain ⟨a2, h2, g2⟩ := Option.bind_eq_some.mp g1
    obtain ⟨a3, h3, g3⟩ := Option.bind_eq_some.mp g2
    obtain ⟨a4, h4, g4⟩ := Option.bind_eq_some.mp g3
    obtain ⟨a0, h5, g5⟩ := Option.bind_eq_some.mp g4
    obtain ⟨st, h6, g6⟩ := Option.map_eq_some'.mp g5
    have hcap := for_loop_opt_some
      (fun _ (t : MemoryArena × NeuralNetwork α) => t.1.total_capacity = a0.1.total_capacity)
      (L - 1) _ _ rfl
      (fun i t t' _ ht hbody =>
        (neural_network_allocate_layer_capacity arch (i + 1) t t' hbody).trans ht)
      st h6
    cases g6
    show st.1.total_capacity = arena.total_capacity
    rw [hcap, row_allocate_capacity _ _ a0 h5, (arena_allocate_memory_some _ a4 _ h4).1,
      (arena_allocate_memory_some _ a3 _ h3).1, (arena_allocate_memory_some _ a2 _ h2).1,
      (arena_allocate_memory_some _ a1 _ h1).1]
  · rw [if_neg hL] at h
    cases h

/-- Every returning step of `batch_process_training_data` leaves the arena as on entry. -/
theorem batch_process_arena (expf : α → α) (arena : MemoryArena) (bp : BatchProcessor α)
    (B : Nat) (network : NeuralNetwork α) (dataset : Matrix α) (lr : α)
    (r : MemoryArena × BatchProcessor α × NeuralNetwork α)
    (h : batch_process_training_data expf arena bp B network dataset lr = some r) :
    r.1 = arena := by
  unfold batch_process_training_data at h
  simp only [] at h
  obtain ⟨batch, _, h1⟩ := Option.bind_eq_some.mp h
  obtain ⟨g, h2, h3⟩ := Option.bind_eq_some.mp h1
  obtain ⟨c, _, h4⟩ := Option.bind_eq_some.mp h3
  obtain ⟨bp1, _, h5⟩ := Option.map_eq_some'.mp h4
  cases h5
  unfold neural_network_compute_gradients at h2
  simp only [] at h2
  obtain ⟨ag, h6, h7⟩ := Option.bind_eq_some.mp h2
  obtain ⟨st, _, h8⟩ := Option.map_eq_some'.mp h7
  cases h8
  have hcap := neural_network_allocate_capacity arena _ _ ag h6
  cases arena with
  | mk cap used =>
    show ({ total_capacity := ag.1.total_capacity, used_buffers := used } : MemoryArena) = _
    rw [hcap]

/-- Claim C13. `batch_process_training_data` frees only its temporary allocations: for every
input on which the step completes, `used_buffers` and `total_capacity` of the arena after the
call equal their values on entry; the same holds after any number of consecutive steps
without `arena_reset`, as `neural_network_train` makes them; on a network with the shape
invariant, a fitting dataset, an arena with room and `batch_size >= 1` the step completes. -/
theorem batch_process_frees_temporaries (expf : α → α) (arena : MemoryArena)
    (bp : BatchProcessor α) (B : Nat) (network : NeuralNetwork α) (dataset : Matrix α) (lr : α) :
    (∀ r, batch_process_training_data expf arena bp B network dataset lr = some r →
      r.1.used_buffers = arena.used_buffers ∧ r.1.total_capacity = arena.total_capacity) ∧
    (∀ k r, batch_steps expf B dataset lr k (arena, bp, network) = some r →
      r.1.used_buffers = arena.used_buffers ∧ r.1.total_capacity = arena.total_capacity) ∧
    (shape_invariant network → dataset_fits network dataset →
      arena_has_room arena network.layer_sizes network.total_layers → 1 ≤ B →
      dataset.num_rows < SIZE_MODULUS →
      (batch_restart bp).current_start_idx ≤ dataset.num_rows →
      (batch_restart bp).current_start_idx + B < SIZE_MODULUS →
      ∃ r, batch_process_training_data expf arena bp B network dataset lr = some r) := by
  refine ⟨?_, ?_, ?_⟩
  · intro r hr
    rw [batch_process_arena expf arena bp B network dataset lr r hr]
    exact ⟨rfl, rfl⟩
  · intro k r hr
    have h := for_loop_opt_some
      (fun _ (t : MemoryArena × BatchProcessor α × NeuralNetwork α) => t.1 = arena) k _ _ rfl
      (fun i t t' _ ht hbody => by
        have h1 := batch_process_arena expf t.1 t.2.1 B t.2.2 dataset lr t' hbody
        exact h1.trans ht)
      r hr
    simp only [] at h
    rw [h]
    exact ⟨rfl, rfl⟩
  · intro hinv hfit hroom hB hT hstart hwrap
    obtain ⟨bp1, n2, h, _⟩ := batch_step_ok expf arena bp B network dataset lr hinv hfit hroom
      (Or.inl hB) hT hstart hwrap
    exact ⟨_, h⟩

/-- A step of batch size 2 on `example_network` and `example_dataset` from the cursor
`{0, 0, false}`: it completes with the arena as on entry. -/
theorem batch_process_frees_temporaries_witness :
    (shape_invariant example_network ∧ dataset_fits example_network example_dataset ∧
      arena_has_room example_arena example_network.layer_sizes example_network.total_layers) ∧
    ∃ r, batch_process_training_data example_expf example_arena
        { current_start_idx := 0, accumulated_cost := 0, is_epoch_finished := false } 2
        example_network example_dataset (1 / 10) = some r ∧
      r.1.used_buffers = example_arena.used_buffers ∧
      r.1.total_capacity = example_arena.total_capacity := by
  obtain ⟨r, hr⟩ := (batch_process_frees_temporaries example_expf example_arena
    { current_start_idx := 0, accumulated_cost := 0, is_epoch_finished := false } 2
    example_network example_dataset (1 / 10)).2.2 example_network_shape example_dataset_fits
    example_network_room (by decide) (by decide) (by decide) (by decide)
  exact ⟨⟨example_network_shape, example_dataset_fits, example_network_room⟩, r, hr,
    (batch_process_frees_temporaries example_expf example_arena
      { current_start_idx := 0, accumulated_cost := 0, is_epoch_finished := false } 2
      example_network example_dataset (1 / 10)).1 r hr⟩

/-- Refutes C12 as stated: after a step of batch size 2 on `example_network` and
`example_dataset` the used count of the arena is not larger than on entry. -/
theorem batch_process_rewinds_counterexample :
    ∃ r, batch_process_training_data example_expf example_arena
        { current_start_idx := 0, accumulated_cost := 0, is_epoch_finished := false } 2
        example_network example_dataset (1 / 10) = some r ∧
      ¬ (example_arena.used_buffers < r.1.used_buffers) := by
  obtain ⟨bp1, n2, h, _⟩ := batch_step_ok example_expf example_arena
    { current_start_idx := 0, accumulated_cost := 0, is_epoch_finished := false } 2
    example_network example_dataset (1 / 10) example_network_shape example_dataset_fits
    example_network_room (Or.inl (by decide)) (by decide) (by decide) (by decide)
  exact ⟨_, h, lt_irrefl _⟩

/-- Claim C12, amended. The batch step rewinds the scratch arena itself: on a network with
the shape invariant, a fitting dataset, an arena with room and `batch_size >= 1`, the gradient
network that `neural_network_compute_gradients` allocates for the batch of the step advances
`used_buffers` by `neural_network_required_buffers`, and when `batch_process_training_data`
returns `used_buffers` is back at its value on entry. -/
theorem batch_process_rewinds (expf : α → α) (arena : MemoryArena) (bp : BatchProcessor α)
    (B : Nat) (network : NeuralNetwork α) (dataset : Matrix α) (lr : α)
    (hinv : shape_invariant network) (hfit : dataset_fits network dataset)
    (hroom : arena_has_room arena network.layer_sizes network.total_layers)
    (hB : 1 ≤ B) (hT : dataset.num_rows < SIZE_MODULUS)
    (hstart : (batch_restart bp).current_start_idx ≤ dataset.num_rows)
    (hwrap : (batch_restart bp).current_start_idx + B < SIZE_MODULUS) :
    ∃ batch g r,
      matrix_create_row_slice dataset (batch_restart bp).current_start_idx
        (batch_actual_size (batch_restart bp).current_start_idx B dataset.num_rows)
        = some batch ∧
      neural_network_compute_gradients expf arena network batch = some g ∧
      g.1.used_buffers = arena.used_buffers
        + neural_network_required_buffers network.layer_sizes network.total_layers ∧
      batch_process_training_data expf arena bp B network dataset lr = some r ∧
      r.1.used_buffers = arena.used_buffers := by
  obtain ⟨_, hslice⟩ :=
    batch_slice_ok dataset (batch_restart bp).current_start_idx B hstart hT hwrap
  obtain ⟨bp1, n2, h, _⟩ := batch_step_ok expf arena bp B network dataset lr hinv hfit hroom
    (Or.inl hB) hT hstart hwrap
  have hfitb : dataset_fits network
      ({ num_rows := min ((batch_restart bp).current_start_idx + B) dataset.num_rows
            - (batch_restart bp).current_start_idx
         num_columns := dataset.num_columns
         element := fun i => dataset.element
           ((batch_restart bp).current_start_idx * dataset.num_columns + 0 + i) } : Matrix α) :=
    hfit
  obtain ⟨n1, G, hG, _⟩ :=
    neural_network_compute_gradients_eq expf arena network _ hinv hfitb hroom
  exact ⟨_, _, _, hslice, hG, rfl, h, rfl⟩

/-- The amended C12 on `example_network`, `example_dataset`, batch size 2. -/
theorem batch_process_rewinds_witness :
    (shape_invariant example_network ∧ dataset_fits example_network example_dataset ∧
      arena_has_room example_arena example_network.layer_sizes example_network.total_layers) ∧
    ∃ r, batch_process_training_data example_expf example_arena
        { current_start_idx := 0, accumulated_cost := 0, is_epoch_finished := false } 2
        example_network example_dataset (1 / 10) = some r ∧
      r.1.used_buffers = example_arena.used_buffers := by
  obtain ⟨_, _, r, _, _, _, hr, hu⟩ := batch_process_rewinds example_expf example_arena
    { current_start_idx := 0, accumulated_cost := 0, is_epoch_finished := false } 2
    example_network example_dataset (1 / 10) example_network_shape example_dataset_fits
    example_network_room (by decide) (by decide) (by decide) (by decide)
  exact ⟨⟨example_network_shape, example_dataset_fits, example_network_room⟩, r, hr, hu⟩

/-- Refutes C14 as stated: the call with `batch_size = 0` on `example_network` and
`example_dataset` from the cursor `{0, 0, false}` does not fail; it returns with the cursor
still at row 0 and the epoch not finished. -/
theorem batch_process_zero_counterexample :
    ∃ r, batch_process_training_data example_expf example_arena
        { current_start_idx := 0, accumulated_cost := 0, is_epoch_finished := false } 0
        example_network example_dataset (1 / 10) = some r ∧
      r.2.1.current_start_idx = 0 ∧ r.2.1.is_epoch_finished = false := by
  obtain ⟨bp1, n2, h, _, _, _, hidx, hfin, _⟩ := batch_step_ok example_expf example_arena
    { current_start_idx := 0, accumulated_cost := 0, is_epoch_finished := false } 0
    example_network example_dataset (1 / 10) example_network_shape example_dataset_fits
    example_network_room (Or.inr (by decide)) (by decide) (by decide) (by decide)
  refine ⟨_, h, hidx, ?_⟩
  show bp1.is_epoch_finished = false
  cases hb : bp1.is_epoch_finished with
  | false => rfl
  | true =>
    have h5 := hfin.mp hb
    exact absurd h5 (by decide)

/-- Claim C14, amended. A batch size of zero is not checked: on a network with the shape
invariant, a fitting dataset and an arena with room, from a cursor that (after the restart of
a finished epoch) stands before the end of the dataset, `batch_process_training_data` called
with `batch_size = 0` returns; the cursor stays at the same row, the epoch is not finished
and the arena is as on entry. -/
theorem batch_process_zero (expf : α → α) (arena : MemoryArena) (bp : BatchProcessor α)
    (network : NeuralNetwork α) (dataset : Matrix α) (lr : α)
    (hinv : shape_invariant network) (hfit : dataset_fits network dataset)
    (hroom : arena_has_room arena network.layer_sizes network.total_layers)
    (hT : dataset.num_rows < SIZE_MODULUS)
    (hstart : (batch_restart bp).current_start_idx < dataset.num_rows) :
    ∃ r, batch_process_training_data expf arena bp 0 network dataset lr = some r ∧
      r.1 = arena ∧
      r.2.1.current_start_idx = (batch_restart bp).current_start_idx ∧
      r.2.1.is_epoch_finished = false := by
  obtain ⟨bp1, n2, h, _, _, _, hidx, hfin, _⟩ := batch_step_ok expf arena bp 0 network dataset lr
    hinv hfit hroom (Or.inr (by omega)) hT (by omega) (by omega)
  refine ⟨_, h, rfl, ?_, ?_⟩
  · show bp1.current_start_idx = _
    rw [hidx, Nat.add_zero]
    exact Nat.min_eq_left (by omega)
  · show bp1.is_epoch_finished = false
    cases hb : bp1.is_epoch_finished with
    | false => rfl
    | true =>
      have h5 := hfin.mp hb
      omega

/-- The amended C14 on `example_network` and `example_dataset`. -/
theorem batch_process_zero_witness :
    (shape_invariant example_network ∧ dataset_fits example_network example_dataset ∧
      arena_has_room example_arena example_network.layer_sizes example_network.total_layers ∧
      example_dataset.num_rows < SIZE_MODULUS) ∧
    ∃ r, batch_process_training_data example_expf example_arena
        { current_start_idx := 3, accumulated_cost := 0, is_epoch_finished := false } 0
        example_network example_dataset (1 / 10) = some r ∧
      r.2.1.current_start_idx = 3 := by
  obtain ⟨r, hr, _, hidx, _⟩ := batch_process_zero example_expf example_arena
    { current_start_idx := 3, accumulated_cost := 0, is_epoch_finished := false }
    example_network example_dataset (1 / 10) example_network_shape example_dataset_fits
    example_network_room (by decide) (by decide)
  exact ⟨⟨example_network_shape, example_dataset_fits, example_network_room, by decide⟩,
    r, hr, hidx⟩

/-- The number of buffers for a request, times the buffer size, is a `size_t` value. -/
theorem required_buffers_bound (size_in_bytes : Nat) :
    required_buffers size_in_bytes * buffer_element_size < SIZE_MODULUS := by
  unfold required_buffers
  have h1 : size_sub (size_add size_in_bytes buffer_element_size) 1 < SIZE_MODULUS :=
    Nat.mod_lt _ (by decide)
  exact lt_of_le_of_lt (Nat.div_mul_le_self _ _) h1

/-- Claim C15. Arena invariant: `used_buffers <= total_capacity` holds for the arena returned
by `arena_create` and after every successful `arena_allocate_memory` (a failing call stores
nothing), after `arena_reset` and after `batch_process_training_data`; the capacity never
changes; `used_buffers` does not decrease in `arena_allocate_memory` (for an arena whose
buffer `arena_create` could allocate, `total_capacity * 8 < 2^64`), `arena_reset` sets it to
0 and the batch step restores its value on entry. -/
theorem arena_invariant :
    (∀ size_in_bytes,
      (arena_create size_in_bytes).used_buffers ≤ (arena_create size_in_bytes).total_capacity ∧
      (arena_create size_in_bytes).total_capacity * buffer_element_size < SIZE_MODULUS) ∧
    (∀ arena size_in_bytes arena1, arena_allocate_memory arena size_in_bytes = some arena1 →
      arena1.used_buffers ≤ arena1.total_capacity ∧
      arena1.total_capacity = arena.total_capacity) ∧
    (∀ arena size_in_bytes arena1, arena.used_buffers ≤ arena.total_capacity →
      arena.total_capacity * buffer_element_size < SIZE_MODULUS →
      arena_allocate_memory arena size_in_bytes = some arena1 →
      arena.used_buffers ≤ arena1.used_buffers) ∧
    (∀ arena, (arena_reset arena).used_buffers = 0 ∧
      (arena_reset arena).used_buffers ≤ (arena_reset arena).total_capacity ∧
      (arena_reset arena).total_capacity = arena.total_capacity) ∧
    (∀ (expf : α → α) arena bp B network dataset lr r,
      arena.used_buffers ≤ arena.total_capacity →
      batch_process_training_data expf arena bp B network dataset lr = some r →
      r.1.used_buffers ≤ r.1.total_capacity ∧ r.1.used_buffers = arena.used_buffers ∧
      r.1.total_capacity = arena.total_capacity) := by
  refine ⟨?_, ?_, ?_, ?_, ?_⟩
  · intro size_in_bytes
    exact ⟨Nat.zero_le _, required_buffers_bound size_in_bytes⟩
  · intro arena size_in_bytes arena1 h
    obtain ⟨h1, _, h3⟩ := arena_allocate_memory_some arena arena1 size_in_bytes h
    exact ⟨h3, h1⟩
  · intro arena size_in_bytes arena1 hinv hcap h
    obtain ⟨_, h2, _⟩ := arena_allocate_memory_some arena arena1 size_in_bytes h
    have hreq := required_buffers_bound size_in_bytes
    have h8 : buffer_element_size = 8 := rfl
    rw [h8] at hcap hreq
    have hnowrap : arena.used_buffers + required_buffers size_in_bytes < SIZE_MODULUS := by
      omega
    rw [h2, size_add_eq _ _ hnowrap]
    exact Nat.le_add_right _ _
  · intro arena
    exact ⟨rfl, Nat.zero_le _, rfl⟩
  · intro expf arena bp B network dataset lr r hinv h
    rw [batch_process_arena expf arena bp B network dataset lr r h]
    exact ⟨hinv, rfl, rfl⟩

/-- An arena of 1000 bytes (125 buffers), an allocation of 20 bytes (3 buffers) in it. -/
theorem arena_invariant_witness :
    (arena_create 1000).used_buffers ≤ (arena_create 1000).total_capacity ∧
    (arena_create 1000).total_capacity = 125 ∧
    arena_allocate_memory (arena_create 1000) 20
      = some { total_capacity := 125, used_buffers := 3 } ∧
    (arena_create 1000).used_buffers ≤ 3 := by
  have h : arena_allocate_memory (arena_create 1000) 20
      = some { total_capacity := 125, used_buffers := 3 } := by decide
  have hcap : (arena_create 1000).total_capacity = 125 := by decide
  exact ⟨((@arena_invariant ℚ _).1 1000).1, hcap, h,
    (@arena_invariant ℚ _).2.2.1 (arena_create 1000) 20 _ (by decide) (by decide) h⟩

/-- The number of batches `(T + B - 1) / B` is the least `k` with `T <= k * B`. -/
theorem batch_count_lt (T B k : Nat) (hB : 1 ≤ B) (hT : 1 ≤ T) :
    k < (T + B - 1) / B ↔ k * B < T := by
  rw [Nat.lt_iff_add_one_le, Nat.le_div_iff_mul_le (by omega), Nat.succ_mul]
  omega

/-- A dataset in memory has fewer than `2^62` rows. -/
theorem dataset_rows_bound (network : NeuralNetwork α) (dataset : Matrix α)
    (hfit : dataset_fits network dataset) (hmem : dataset_in_memory dataset) :
    dataset.num_rows * 4 < SIZE_MODULUS := by
  unfold dataset_in_memory at hmem
  obtain ⟨f1, f2, _⟩ := hfit
  have hc : 1 ≤ dataset.num_columns := by omega
  have h4 : sizeof_float = 4 := rfl
  rw [h4] at hmem
  calc dataset.num_rows * 4 = 4 * dataset.num_rows * 1 := by omega
    _ ≤ 4 * dataset.num_rows * dataset.num_columns := Nat.mul_le_mul_left _ hc
    _ < SIZE_MODULUS := hmem

/-- The state after the first `k` steps of an epoch that starts from the cursor
`{0, 0, false}`, for `k` up to the number of batches. -/
theorem batch_steps_invariant (expf : α → α) (arena : MemoryArena) (B : Nat)
    (network : NeuralNetwork α) (dataset : Matrix α) (lr : α) (hinv : shape_invariant network)
    (hfit : dataset_fits network dataset)
    (hroom : arena_has_room arena network.layer_sizes network.total_layers)
    (hT : 1 ≤ dataset.num_rows) (hB : 1 ≤ B) (hBs : B < SIZE_MODULUS)
    (hmem : dataset_in_memory dataset) :
    ∀ k, k ≤ (dataset.num_rows + B - 1) / B →
      ∃ st, batch_steps expf B dataset lr k
          (arena, { current_start_idx := 0, accumulated_cost := 0, is_epoch_finished := false },
            network) = some st ∧
        st.1 = arena ∧ shape_invariant st.2.2 ∧ st.2.2.layer_sizes = network.layer_sizes ∧
        st.2.2.total_layers = network.total_layers ∧
        st.2.1.current_start_idx = min (k * B) dataset.num_rows ∧
        (st.2.1.is_epoch_finished = true ↔ dataset.num_rows ≤ k * B) := by
  have hrows := dataset_rows_bound network dataset hfit hmem
  intro k
  induction k with
  | zero =>
    intro _
    refine ⟨_, rfl, rfl, hinv, rfl, rfl, ?_, ?_⟩
    · simp
    · simp only [Nat.zero_mul]
      constructor
      · intro h
        cases h
      · intro h
        omega
  | succ k ih =>
    intro hk
    obtain ⟨st, hst, ha, hs, hsz, hly, hidx, hfin⟩ := ih (by omega)
    have hlt : k * B < dataset.num_rows := (batch_count_lt _ B k hB hT).mp (by omega)
    have hnf : st.2.1.is_epoch_finished = false := by
      cases hb : st.2.1.is_epoch_finished with
      | false => rfl
      | true =>
        have := hfin.mp hb
        omega
    have hrestart : batch_restart st.2.1 = st.2.1 := by
      unfold batch_restart
      rw [hnf]
      simp
    have hidx2 : st.2.1.current_start_idx = k * B := by
      rw [hidx]
      exact Nat.min_eq_left (by omega)
    have hwrap : k * B + B < SIZE_MODULUS := by
      rcases Nat.eq_zero_or_pos k with h0 | hpos
      · subst h0
        omega
      · have hle : B ≤ k * B := Nat.le_mul_of_pos_left B hpos
        omega
    have hfit2 : dataset_fits st.2.2 dataset := by
      unfold dataset_fits
      rw [hsz, hly]
      exact hfit
    obtain ⟨bp1, n2, hstep, q1, q2, q3, q4, q5, _⟩ := batch_step_ok expf st.1 st.2.1 B st.2.2
      dataset lr hs hfit2 (by rw [ha, hsz, hly]; exact hroom) (Or.inl hB) (by omega)
      (by rw [hrestart, hidx2]; omega) (by rw [hrestart, hidx2]; exact hwrap)
    rw [hrestart, hidx2] at q4 q5
    refine ⟨(st.1, bp1, n2), ?_, ha, q1, q2.trans hsz, q3.trans hly, ?_, ?_⟩
    · unfold batch_steps for_loop_opt
      unfold batch_steps at hst
      rw [hst, Option.some_bind]
      exact hstep
    · rw [Nat.succ_mul]
      exact q4
    · rw [Nat.succ_mul]
      exact q5

/-- Claim C9. `batch_process_training_data` partitions an epoch into consecutive batches:
for a dataset of `T >= 1` rows (in memory, fitting the network) and `batch_size = B >= 1`,
starting from the cursor `{0, 0, false}`, for every `k` below the number of batches
`ceil(T / B) = (T + B - 1) / B` the first `k` steps return, step number `k` starts at row
`k * B` with the epoch not finished, takes the batch of the rows `[k * B, min((k+1) * B, T))`,
returns, and leaves the cursor at `min((k+1) * B, T)` with `is_epoch_finished` true exactly
when it was the last of the `ceil(T / B)` steps.  The step processes these rows and no
others: row `i` of its batch is row `k * B + i` of the dataset, the gradients are those of
`neural_network_compute_gradients` on the batch and the network before the step, the
network after the step has the parameters of `neural_network_apply_gradients` with these
gradients, and the cost added to `accumulated_cost` is `neural_network_calculate_cost` of
the updated network on the batch (divided by `total_batch_count` in the last step). -/
theorem batch_process_partitions (expf : α → α) (arena : MemoryArena) (B : Nat)
    (network : NeuralNetwork α) (dataset : Matrix α) (lr : α) (hinv : shape_invariant network)
    (hfit : dataset_fits network dataset)
    (hroom : arena_has_room arena network.layer_sizes network.total_layers)
    (hT : 1 ≤ dataset.num_rows) (hB : 1 ≤ B) (hBs : B < SIZE_MODULUS)
    (hmem : dataset_in_memory dataset) :
    ∀ k, k < (dataset.num_rows + B - 1) / B →
      ∃ st st',
        batch_steps expf B dataset lr k
          (arena, { current_start_idx := 0, accumulated_cost := 0, is_epoch_finished := false },
            network) = some st ∧
        st.2.1.current_start_idx = k * B ∧ st.2.1.is_epoch_finished = false ∧
        batch_actual_size (k * B) B dataset.num_rows
          = min ((k + 1) * B) dataset.num_rows - k * B ∧
        matrix_create_row_slice dataset (k * B) (batch_actual_size (k * B) B dataset.num_rows)
          = some { num_rows := min ((k + 1) * B) dataset.num_rows - k * B
                   num_columns := dataset.num_columns
                   element := fun i => dataset.element (k * B * dataset.num_columns + 0 + i) } ∧
        batch_process_training_data expf st.1 st.2.1 B st.2.2 dataset lr = some st' ∧
        batch_steps expf B dataset lr (k + 1)
          (arena, { current_start_idx := 0, accumulated_cost := 0, is_epoch_finished := false },
            network) = some st' ∧
        st'.2.1.current_start_idx = min ((k + 1) * B) dataset.num_rows ∧
        (st'.2.1.is_epoch_finished = true ↔ k + 1 = (dataset.num_rows + B - 1) / B) ∧
        ∃ (current_batch : Matrix α) (g : MemoryArena × NeuralNetwork α × NeuralNetwork α)
            (c : α),
          matrix_create_row_slice dataset st.2.1.current_start_idx
            (batch_actual_size st.2.1.current_start_idx B dataset.num_rows)
            = some current_batch ∧
          current_batch.num_rows = min ((k + 1) * B) dataset.num_rows - k * B ∧
          current_batch.num_columns = dataset.num_columns ∧
          (∀ i j, matrix_at current_batch i j = matrix_at dataset (k * B + i) j) ∧
          neural_network_compute_gradients expf st.1 st.2.2 current_batch = some g ∧
          same_parameters st.2.2 g.2.1 ∧
          neural_network_calculate_cost expf
            (neural_network_apply_gradients g.2.1 g.2.2 lr) current_batch
            = some (c, st'.2.2) ∧
          same_parameters (neural_network_apply_gradients g.2.1 g.2.2 lr) st'.2.2 ∧
          st'.2.1.accumulated_cost
            = if k + 1 = (dataset.num_rows + B - 1) / B then
                (st.2.1.accumulated_cost + c) / (batch_total_count dataset.num_rows B : α)
              else st.2.1.accumulated_cost + c := by
  intro k hk
  have hrows := dataset_rows_bound network dataset hfit hmem
  have hlt : k * B < dataset.num_rows := (batch_count_lt _ B k hB hT).mp hk
  obtain ⟨st, hst, ha, hs, hsz, hly, hidx, hfin⟩ := batch_steps_invariant expf arena B network
    dataset lr hinv hfit hroom hT hB hBs hmem k (by omega)
  obtain ⟨st', hst', _, _, _, _, hidx', hfin'⟩ := batch_steps_invariant expf arena B network
    dataset lr hinv hfit hroom hT hB hBs hmem (k + 1) (by omega)
  have hwrap : k * B + B < SIZE_MODULUS := by
    rcases Nat.eq_zero_or_pos k with h0 | hpos
    · subst h0
      omega
    · have hle : B ≤ k * B := Nat.le_mul_of_pos_left B hpos
      omega
  obtain ⟨hact, hslice⟩ := batch_slice_ok dataset (k * B) B (by omega) (by omega) hwrap
  rw [← Nat.succ_mul] at hact hslice
  have hstep : batch_process_training_data expf st.1 st.2.1 B st.2.2 dataset lr = some st' := by
    have h := hst'
    unfold batch_steps for_loop_opt at h
    unfold batch_steps at hst
    rw [hst, Option.some_bind] at h
    exact h
  have hnf : st.2.1.is_epoch_finished = false := by
    cases hb : st.2.1.is_epoch_finished with
    | false => rfl
    | true =>
      have := hfin.mp hb
      omega
  have hidx2 : st.2.1.current_start_idx = k * B := by
    rw [hidx]
    exact Nat.min_eq_left (by omega)
  have hrestart : batch_restart st.2.1 = st.2.1 := by
    unfold batch_restart
    rw [hnf]
    simp
  have hfit2 : dataset_fits st.2.2 dataset := by
    unfold dataset_fits
    rw [hsz, hly]
    exact hfit
  have hlast : (k + 1 = (dataset.num_rows + B - 1) / B) ↔ dataset.num_rows ≤ (k + 1) * B := by
    constructor
    · intro h
      have h1 : ¬ ((k + 1) * B < dataset.num_rows) := by
        intro h2
        have := (batch_count_lt _ B (k + 1) hB hT).mpr h2
        omega
      omega
    · intro h
      have h1 : ¬ (k + 1 < (dataset.num_rows + B - 1) / B) := by
        intro h2
        have := (batch_count_lt _ B (k + 1) hB hT).mp h2
        omega
      omega
  obtain ⟨bp1, n2, hstep2, _, _, _, _, _, batch, g, c, q1, q2, q3, q4, q5, q6⟩ :=
    batch_step_ok expf st.1 st.2.1 B st.2.2 dataset lr hs hfit2
      (by rw [ha, hsz, hly]; exact hroom) (Or.inl hB) (by omega)
      (by rw [hrestart, hidx2]; omega) (by rw [hrestart, hidx2]; exact hwrap)
  have hst2 : st' = (st.1, bp1, n2) := by
    rw [hstep] at hstep2
    exact Option.some.inj hstep2
  rw [hrestart] at q1 q4
  have hbatch : batch = { num_rows := min ((k + 1) * B) dataset.num_rows - k * B
                          num_columns := dataset.num_columns
                          element := fun i =>
                            dataset.element (k * B * dataset.num_columns + 0 + i) } := by
    have h := q1
    rw [hidx2, hslice] at h
    exact (Option.some.inj h).symm
  refine ⟨st, st', hst, hidx2, hnf, hact, hslice, hstep, hst', hidx', ?_,
    batch, g, c, q1, ?_, ?_, ?_, q2, q5, ?_, ?_, ?_⟩
  · rw [hfin']
    exact hlast.symm
  · rw [hbatch]
  · rw [hbatch]
  · intro i j
    rw [hbatch]
    unfold matrix_at
    show dataset.element (k * B * dataset.num_columns + 0 + (i * dataset.num_columns + j))
      = dataset.element ((k * B + i) * dataset.num_columns + j)
    congr 1
    rw [Nat.add_mul]
    omega
  · rw [hst2]
    exact q3
  · rw [hst2]
    exact q6
  · rw [hst2]
    show bp1.accumulated_cost = _
    rw [q4, hidx2, ← Nat.succ_mul]
    by_cases hc : dataset.num_rows ≤ (k + 1) * B
    · rw [if_pos hc, if_pos (hlast.mpr hc)]
    · rw [if_neg hc, if_neg (fun h => hc (hlast.mp h))]

theorem example_dataset_100_fits : dataset_fits example_network example_dataset_100 := by
  refine ⟨by decide, by decide, by decide⟩

/-- For `T = 100` and `B = 30` the epoch has 4 batches of lengths 30, 30, 30, 10: the third
step does not finish the epoch, the fourth takes the 10 rows from row 90 and finishes it. -/
theorem batch_process_partitions_witness :
    (shape_invariant example_network ∧ dataset_fits example_network example_dataset_100 ∧
      arena_has_room example_arena example_network.layer_sizes example_network.total_layers ∧
      1 ≤ example_dataset_100.num_rows ∧ 1 ≤ 30 ∧ 30 < SIZE_MODULUS ∧
      dataset_in_memory example_dataset_100) ∧
    (example_dataset_100.num_rows + 30 - 1) / 30 = 4 ∧
    (batch_actual_size 0 30 100 = 30 ∧ batch_actual_size 30 30 100 = 30 ∧
      batch_actual_size 60 30 100 = 30 ∧ batch_actual_size 90 30 100 = 10) ∧
    (∃ st, batch_steps example_expf 30 example_dataset_100 (1 / 10) 3
        (example_arena,
          { current_start_idx := 0, accumulated_cost := 0, is_epoch_finished := false },
          example_network) = some st ∧
      st.2.1.current_start_idx = 90 ∧ st.2.1.is_epoch_finished = false) ∧
    ∃ st', batch_steps example_expf 30 example_dataset_100 (1 / 10) 4
        (example_arena,
          { current_start_idx := 0, accumulated_cost := 0, is_epoch_finished := false },
          example_network) = some st' ∧
      st'.2.1.current_start_idx = 100 ∧ st'.2.1.is_epoch_finished = true := by
  have hmem : dataset_in_memory example_dataset_100 := by
    unfold dataset_in_memory
    decide
  have hK : (example_dataset_100.num_rows + 30 - 1) / 30 = 4 := by decide
  obtain ⟨st, st', h1, h2, h3, _, _, _, h7, h8, h9, _⟩ :=
    batch_process_partitions example_expf example_arena 30 example_network example_dataset_100
      (1 / 10) example_network_shape example_dataset_100_fits example_network_room (by decide)
      (by decide) (by decide) hmem 3 (by decide)
  refine ⟨⟨example_network_shape, example_dataset_100_fits, example_network_room, by decide,
    by decide, by decide, hmem⟩, hK, by decide, ⟨st, h1, h2, h3⟩, st', h7, ?_, ?_⟩
  · rw [h8]
    decide
  · rw [h9, hK]

/-- Evaluation for C10: with `T = 5` rows and `batch_size = 2^64 - 1` the only step of the epoch
takes all five rows and finishes the epoch, but the divisor `total_batch_count` that the code
computes as `(T + batch_size - 1) / batch_size` in `size_t` is 0, not `ceil(T / B) = 1`:
the accumulated cost is divided by 0. -/
theorem batch_total_count_wraps :
    batch_total_count 5 (2 ^ 64 - 1) = 0 ∧ (5 + (2 ^ 64 - 1) - 1) / (2 ^ 64 - 1) = 1 ∧
    batch_actual_size 0 (2 ^ 64 - 1) 5 = 5 ∧
    ∃ r c, batch_process_training_data example_expf example_arena
        { current_start_idx := 0, accumulated_cost := 0, is_epoch_finished := false }
        (2 ^ 64 - 1) example_network example_dataset (1 / 10) = some r ∧
      r.2.1.is_epoch_finished = true ∧
      r.2.1.accumulated_cost = (0 + c) / ((0 : Nat) : ℚ) := by
  have hcount : batch_total_count 5 (2 ^ 64 - 1) = 0 := by decide
  obtain ⟨bp1, n2, h, _, _, _, _, hfin, batch, g, c, _, _, _, hacc, _⟩ :=
    batch_step_ok example_expf example_arena
      { current_start_idx := 0, accumulated_cost := 0, is_epoch_finished := false }
      (2 ^ 64 - 1) example_network example_dataset (1 / 10) example_network_shape
      example_dataset_fits example_network_room (Or.inl (by decide)) (by decide) (by decide)
      (by decide)
  refine ⟨hcount, by decide, by decide, _, c, h, hfin.mpr (by decide), ?_⟩
  show bp1.accumulated_cost = _
  rw [hacc, if_pos (by decide)]
  have h5 : example_dataset.num_rows = 5 := rfl
  rw [h5, hcount]
  rfl

/-- The scan leaves the least and the greatest value of the rows seen so far, and both are
values of the column. -/
theorem column_scan (m : Matrix α) (c n : Nat) :
    (∀ r, r ≤ n →
      (for_loop n (fun k (st : α × α) =>
        (if matrix_at m (k + 1) c < st.1 then matrix_at m (k + 1) c else st.1,
         if matrix_at m (k + 1) c > st.2 then matrix_at m (k + 1) c else st.2))
        (matrix_at m 0 c, matrix_at m 0 c)).1 ≤ matrix_at m r c ∧
      matrix_at m r c ≤
        (for_loop n (fun k (st : α × α) =>
          (if matrix_at m (k + 1) c < st.1 then matrix_at m (k + 1) c else st.1,
           if matrix_at m (k + 1) c > st.2 then matrix_at m (k + 1) c else st.2))
          (matrix_at m 0 c, matrix_at m 0 c)).2) ∧
    (∃ r, r ≤ n ∧
      (for_loop n (fun k (st : α × α) =>
        (if matrix_at m (k + 1) c < st.1 then matrix_at m (k + 1) c else st.1,
         if matrix_at m (k + 1) c > st.2 then matrix_at m (k + 1) c else st.2))
        (matrix_at m 0 c, matrix_at m 0 c)).1 = matrix_at m r c) ∧
    (∃ r, r ≤ n ∧
      (for_loop n (fun k (st : α × α) =>
        (if matrix_at m (k + 1) c < st.1 then matrix_at m (k + 1) c else st.1,
         if matrix_at m (k + 1) c > st.2 then matrix_at m (k + 1) c else st.2))
        (matrix_at m 0 c, matrix_at m 0 c)).2 = matrix_at m r c) := by
  induction n with
  | zero =>
    refine ⟨?_, ⟨0, le_refl 0, rfl⟩, ⟨0, le_refl 0, rfl⟩⟩
    intro r hr
    have h0 : r = 0 := by omega
    subst h0
    exact ⟨le_refl _, le_refl _⟩
  | succ k ih =>
    obtain ⟨hb, ⟨r1, hr1, e1⟩, ⟨r2, hr2, e2⟩⟩ := ih
    rw [for_loop_succ]
    simp only []
    refine ⟨?_, ?_, ?_⟩
    · intro r hr
      by_cases hrk : r = k + 1
      · subst hrk
        constructor
        · split_ifs with h
          · exact le_refl _
          · exact not_lt.mp h
        · split_ifs with h
          · exact le_refl _
          · exact not_lt.mp h
      · obtain ⟨b1, b2⟩ := hb r (by omega)
        constructor
        · split_ifs with h
          · exact le_trans (le_of_lt h) b1
          · exact b1
        · split_ifs with h
          · exact le_trans b2 (le_of_lt h)
          · exact b2
    · split_ifs with h
      · exact ⟨k + 1, le_refl _, rfl⟩
      · exact ⟨r1, by omega, e1⟩
    · split_ifs with h
      · exact ⟨k + 1, le_refl _, rfl⟩
      · exact ⟨r2, by omega, e2⟩

/-- The values of `column_extremes` are the minimum and the maximum of the column. -/
theorem column_extremes_spec (m : Matrix α) (c : Nat) (hR : 1 ≤ m.num_rows) :
    (∀ r, r < m.num_rows →
      (column_extremes m c).1 ≤ matrix_at m r c ∧ matrix_at m r c ≤ (column_extremes m c).2) ∧
    (∃ r, r < m.num_rows ∧ (column_extremes m c).1 = matrix_at m r c) ∧
    (∃ r, r < m.num_rows ∧ (column_extremes m c).2 = matrix_at m r c) := by
  obtain ⟨h1, ⟨r1, hr1, e1⟩, ⟨r2, hr2, e2⟩⟩ := column_scan m c (m.num_rows - 1)
  unfold column_extremes
  exact ⟨fun r hr => h1 r (by omega), ⟨r1, by omega, e1⟩, ⟨r2, by omega, e2⟩⟩

/-- A loop down one column that rewrites each cell from its own old value. -/
theorem for_loop_column_cells (P j : Nat) (g : Nat → α → α) (m : Matrix α)
    (hj : j < m.num_columns) :
    (for_loop P (fun p m => matrix_set m p j (g p (matrix_at m p j))) m).num_rows = m.num_rows ∧
    (for_loop P (fun p m => matrix_set m p j (g p (matrix_at m p j))) m).num_columns
      = m.num_columns ∧
    ∀ p' j', j' < m.num_columns →
      matrix_at (for_loop P (fun p m => matrix_set m p j (g p (matrix_at m p j))) m) p' j'
        = if j' = j ∧ p' < P then g p' (matrix_at m p' j') else matrix_at m p' j' := by
  induction P with
  | zero => simp [for_loop]
  | succ k ih =>
    obtain ⟨h1, h2, h3⟩ := ih
    rw [for_loop_succ]
    refine ⟨h1, h2, ?_⟩
    intro p' j' hj'
    by_cases hc : p' = k ∧ j' = j
    · obtain ⟨rfl, rfl⟩ := hc
      rw [matrix_at_set, h3 p' j' hj', if_neg (by omega), if_pos ⟨rfl, Nat.lt_succ_self _⟩]
    · rw [matrix_at_set_ne _ _ _ _ _ _ (by rw [h2]; exact hj) (by rw [h2]; exact hj') hc,
        h3 p' j' hj']
      by_cases hjj : j' = j
      · have hpk : p' ≠ k := fun e => hc ⟨e, hjj⟩
        by_cases hlt : p' < k
        · rw [if_pos ⟨hjj, hlt⟩, if_pos ⟨hjj, Nat.lt_succ_of_lt hlt⟩]
        · rw [if_neg (fun h => hlt h.2), if_neg (fun h => hlt (by omega))]
      · rw [if_neg (fun h => hjj h.1), if_neg (fun h => hjj h.1)]

/-- The scan of a column depends on the entries of that column only. -/
theorem column_extremes_congr (m1 m2 : Matrix α) (c : Nat) (hR : m1.num_rows = m2.num_rows)
    (h : ∀ r, matrix_at m1 r c = matrix_at m2 r c) :
    column_extremes m1 c = column_extremes m2 c := by
  unfold column_extremes
  simp only [hR, h]

/-- Closed form of `matrix_normalize_minmax` for `num_input_columns <= num_columns`: the
shape is kept; every entry of the first `num_input_columns` columns is rescaled with the
extremes of its column in the matrix passed in; the other columns are unchanged. -/
theorem matrix_normalize_minmax_eq (m : Matrix α) (nic : Nat) (new_min new_max : α)
    (hn : nic ≤ m.num_columns) :
    (matrix_normalize_minmax m nic new_min new_max).num_rows = m.num_rows ∧
    (matrix_normalize_minmax m nic new_min new_max).num_columns = m.num_columns ∧
    ∀ r c, c < m.num_columns →
      matrix_at (matrix_normalize_minmax m nic new_min new_max) r c
        = if c < nic ∧ r < m.num_rows then
            ((matrix_at m r c - (column_extremes m c).1) / column_value_range m c)
              * (new_max - new_min) + new_min
          else matrix_at m r c := by
  unfold matrix_normalize_minmax
  have key := for_loop_invariant
    (fun k (m' : Matrix α) =>
      m'.num_rows = m.num_rows ∧ m'.num_columns = m.num_columns ∧
      ∀ r c, c < m.num_columns →
        matrix_at m' r c
          = if c < k ∧ r < m.num_rows then
              ((matrix_at m r c - (column_extremes m c).1) / column_value_range m c)
                * (new_max - new_min) + new_min
            else matrix_at m r c)
    nic
    (fun col_idx (m' : Matrix α) =>
      for_loop m'.num_rows (fun row_idx m1 =>
        matrix_set m1 row_idx col_idx
          (((matrix_at m1 row_idx col_idx - (column_extremes m' col_idx).1)
              / column_value_range m' col_idx)
            * (new_max - new_min) + new_min)) m')
    m
    ⟨rfl, rfl, fun r c _ => by simp⟩
    (by
      intro k m' hk hP
      obtain ⟨p1, p2, p3⟩ := hP
      have hkC : k < m.num_columns := by omega
      have hcol : ∀ r, matrix_at m' r k = matrix_at m r k := by
        intro r
        rw [p3 r k hkC, if_neg (by omega)]
      have hext : column_extremes m' k = column_extremes m k :=
        column_extremes_congr m' m k p1 hcol
      have hrange : column_value_range m' k = column_value_range m k := by
        unfold column_value_range
        rw [hext]
      obtain ⟨c1, c2, c3⟩ := for_loop_column_cells m'.num_rows k
        (fun _ old => ((old - (column_extremes m' k).1) / column_value_range m' k)
          * (new_max - new_min) + new_min) m' (by rw [p2]; exact hkC)
      refine ⟨c1.trans p1, c2.trans p2, ?_⟩
      intro r c hc
      rw [c3 r c (by rw [p2]; exact hc)]
      by_cases hck : c = k
      · subst hck
        by_cases hr : r < m.num_rows
        · rw [if_pos ⟨rfl, by rw [p1]; exact hr⟩, if_pos ⟨Nat.lt_succ_self _, hr⟩, hcol, hext,
            hrange]
        · rw [if_neg (fun h => hr (by rw [← p1]; exact h.2)), if_neg (fun h => hr h.2), hcol]
      · rw [if_neg (fun h => hck h.1), p3 r c hc]
        by_cases h1 : c < k ∧ r < m.num_rows
        · rw [if_pos h1, if_pos ⟨by omega, h1.2⟩]
        · rw [if_neg h1, if_neg (fun h => h1 ⟨by omega, h.2⟩)])
  exact key

/-- Claim C18. `matrix_normalize_minmax` maps extremes to the new bounds: for every matrix
with at least one row, `num_input_columns <= num_columns` and every column
`c < num_input_columns` whose values are not all equal, after the call every entry that held
the column minimum equals `new_min_value`, every entry that held the column maximum equals
`new_max_value`, and the columns `c >= num_input_columns` are unchanged. -/
theorem matrix_normalize_minmax_extremes (m : Matrix α) (nic : Nat) (new_min new_max : α)
    (hR : 1 ≤ m.num_rows) (hn : nic ≤ m.num_columns) (c : Nat) (hc : c < nic)
    (hne : ∃ r1 r2, r1 < m.num_rows ∧ r2 < m.num_rows ∧ matrix_at m r1 c ≠ matrix_at m r2 c) :
    (∀ r, r < m.num_rows → (∀ r', r' < m.num_rows → matrix_at m r c ≤ matrix_at m r' c) →
      matrix_at (matrix_normalize_minmax m nic new_min new_max) r c = new_min) ∧
    (∀ r, r < m.num_rows → (∀ r', r' < m.num_rows → matrix_at m r' c ≤ matrix_at m r c) →
      matrix_at (matrix_normalize_minmax m nic new_min new_max) r c = new_max) ∧
    (∀ r c', r < m.num_rows → nic ≤ c' → c' < m.num_columns →
      matrix_at (matrix_normalize_minmax m nic new_min new_max) r c' = matrix_at m r c') := by
  obtain ⟨_, _, hval⟩ := matrix_normalize_minmax_eq m nic new_min new_max hn
  obtain ⟨hb, ⟨rmin, hrmin, emin⟩, ⟨rmax, hrmax, emax⟩⟩ := column_extremes_spec m c hR
  obtain ⟨r1, r2, h1, h2, h12⟩ := hne
  have hlt : (column_extremes m c).1 < (column_extremes m c).2 := by
    rcases lt_or_ge (column_extremes m c).1 (column_extremes m c).2 with h | h
    · exact h
    · exfalso
      apply h12
      have a1 := hb r1 h1
      have a2 := hb r2 h2
      exact le_antisymm (le_trans a1.2 (le_trans h a2.1)) (le_trans a2.2 (le_trans h a1.1))
  have hrange : column_value_range m c = (column_extremes m c).2 - (column_extremes m c).1 := by
    unfold column_value_range
    rw [if_neg (ne_of_gt (sub_pos.mpr hlt))]
  have hpos : (column_extremes m c).2 - (column_extremes m c).1 ≠ 0 :=
    ne_of_gt (sub_pos.mpr hlt)
  refine ⟨?_, ?_, ?_⟩
  · intro r hr hmin
    have hv : matrix_at m r c = (column_extremes m c).1 :=
      le_antisymm (by rw [emin]; exact hmin rmin hrmin) (hb r hr).1
    rw [hval r c (by omega), if_pos ⟨hc, hr⟩, hv, sub_self, zero_div, zero_mul, zero_add]
  · intro r hr hmax
    have hv : matrix_at m r c = (column_extremes m c).2 :=
      le_antisymm (hb r hr).2 (by rw [emax]; exact hmax rmax hrmax)
    rw [hval r c (by omega), if_pos ⟨hc, hr⟩, hv, hrange, div_self hpos, one_mul,
      sub_add_cancel]
  · intro r c' hr hc1 hc2
    rw [hval r c' hc2, if_neg (fun h => by omega)]

/-- Column 0 of `example_columns` (values 1, 3, 2) normalized to the interval from -1 to 1:
the entry that held 1 becomes -1, the entry that held 3 becomes 1. -/
theorem matrix_normalize_minmax_extremes_witness :
    (1 ≤ example_columns.num_rows ∧ 1 ≤ example_columns.num_columns ∧ 0 < 1 ∧
      ∃ r1 r2, r1 < example_columns.num_rows ∧ r2 < example_columns.num_rows ∧
        matrix_at example_columns r1 0 ≠ matrix_at example_columns r2 0) ∧
    matrix_at (matrix_normalize_minmax example_columns 1 (-1) 1) 0 0 = -1 ∧
    matrix_at (matrix_normalize_minmax example_columns 1 (-1) 1) 1 0 = 1 := by
  have hne : ∃ r1 r2, r1 < example_columns.num_rows ∧ r2 < example_columns.num_rows ∧
      matrix_at example_columns r1 0 ≠ matrix_at example_columns r2 0 :=
    ⟨0, 1, by decide, by decide, by
      simp [example_columns, matrix_at, matrix_of_list]⟩
  have h := matrix_normalize_minmax_extremes example_columns 1 (-1) 1 (by decide) (by decide) 0
    (by decide) hne
  refine ⟨⟨by decide, by decide, by decide, hne⟩, ?_, ?_⟩
  · apply h.1 0 (by decide)
    intro r' hr'
    have h3 : r' < 3 := hr'
    interval_cases r' <;> simp [example_columns, matrix_at, matrix_of_list]
  · apply h.2.1 1 (by decide)
    intro r' hr'
    have h3 : r' < 3 := hr'
    interval_cases r' <;> simp [example_columns, matrix_at, matrix_of_list] <;> norm_num

/-- In exact arithmetic `matrix_normalize_minmax` maps a constant column to `new_min_value`:
the divisor `value_range` used for the column is 1 and every entry becomes
`0 * (new_max_value - new_min_value) + new_min_value`. -/
theorem matrix_normalize_minmax_constant (m : Matrix α) (nic : Nat) (new_min new_max : α)
    (hR : 1 ≤ m.num_rows) (hn : nic ≤ m.num_columns) (c : Nat) (hc : c < nic)
    (hconst : ∀ r r', r < m.num_rows → r' < m.num_rows → matrix_at m r c = matrix_at m r' c) :
    column_value_range m c = 1 ∧
    ∀ r, r < m.num_rows →
      matrix_at (matrix_normalize_minmax m nic new_min new_max) r c = new_min := by
  obtain ⟨_, _, hval⟩ := matrix_normalize_minmax_eq m nic new_min new_max hn
  obtain ⟨_, ⟨rmin, hrmin, emin⟩, ⟨rmax, hrmax, emax⟩⟩ := column_extremes_spec m c hR
  have heq : (column_extremes m c).2 = (column_extremes m c).1 := by
    rw [emin, emax]
    exact hconst rmax rmin hrmax hrmin
  have hrange : column_value_range m c = 1 := by
    unfold column_value_range
    rw [heq, sub_self, if_pos rfl]
  refine ⟨hrange, ?_⟩
  intro r hr
  have hv : matrix_at m r c = (column_extremes m c).1 := by
    rw [emin]
    exact hconst r rmin hr hrmin
  rw [hval r c (by omega), if_pos ⟨hc, hr⟩, hv, sub_self, zero_div, zero_mul, zero_add]

/-- A transposition of two indices below `n` permutes the indices below `n`. -/
theorem range_map_swap (n a b : Nat) (ha : a < n) (hb : b < n) :
    (Multiset.range n).map (Equiv.swap a b) = Multiset.range n := by
  have h : (Finset.range n).map (Equiv.swap a b).toEmbedding = Finset.range n := by
    ext x
    simp only [Finset.mem_map, Finset.mem_range, Equiv.coe_toEmbedding]
    constructor
    · rintro ⟨y, hy, rfl⟩
      by_cases h1 : y = a
      · subst h1
        rw [Equiv.swap_apply_left]
        exact hb
      · by_cases h2 : y = b
        · subst h2
          rw [Equiv.swap_apply_right]
          exact ha
        · rw [Equiv.swap_apply_of_ne_of_ne h1 h2]
          exact hy
    · intro hx
      refine ⟨Equiv.swap a b x, ?_, Equiv.swap_apply_self a b x⟩
      by_cases h1 : x = a
      · subst h1
        rw [Equiv.swap_apply_left]
        exact hb
      · by_cases h2 : x = b
        · subst h2
          rw [Equiv.swap_apply_right]
          exact ha
        · rw [Equiv.swap_apply_of_ne_of_ne h1 h2]
          exact hx
  have h2 := congrArg Finset.val h
  rw [Finset.map_val] at h2
  exact h2

/-- The column loop of the row exchange: after `c` columns the entries of the first `c`
columns of the two rows are exchanged. -/
theorem matrix_swap_rows_loop (m : Matrix α) (a b : Nat) (hab : a ≠ b) (c : Nat)
    (hc : c ≤ m.num_columns) :
    (for_loop c (fun col_idx m =>
        matrix_set (matrix_set m a col_idx (matrix_at m b col_idx)) b col_idx
          (matrix_at m a col_idx)) m).num_rows = m.num_rows ∧
    (for_loop c (fun col_idx m =>
        matrix_set (matrix_set m a col_idx (matrix_at m b col_idx)) b col_idx
          (matrix_at m a col_idx)) m).num_columns = m.num_columns ∧
    ∀ i j, j < m.num_columns →
      matrix_at (for_loop c (fun col_idx m =>
          matrix_set (matrix_set m a col_idx (matrix_at m b col_idx)) b col_idx
            (matrix_at m a col_idx)) m) i j
        = if j < c then matrix_at m (Equiv.swap a b i) j else matrix_at m i j := by
  induction c with
  | zero => simp [for_loop]
  | succ k ih =>
    obtain ⟨h1, h2, h3⟩ := ih (by omega)
    rw [for_loop_succ]
    generalize for_loop k (fun col_idx m =>
      matrix_set (matrix_set m a col_idx (matrix_at m b col_idx)) b col_idx
        (matrix_at m a col_idx)) m = M at h1 h2 h3 ⊢
    refine ⟨h1, h2, ?_⟩
    intro i j hj
    have hk : k < m.num_columns := by omega
    have hjM : j < M.num_columns := by rw [h2]; exact hj
    have hkM : k < M.num_columns := by rw [h2]; exact hk
    have hjM1 : ∀ v, j < (matrix_set M a k v).num_columns := fun _ => hjM
    have hkM1 : ∀ v, k < (matrix_set M a k v).num_columns := fun _ => hkM
    by_cases hjk : j = k
    · subst hjk
      rw [if_pos (Nat.lt_succ_self j)]
      by_cases hib : i = b
      · subst hib
        rw [matrix_at_set, h3 a j hj, if_neg (lt_irrefl j), Equiv.swap_apply_right]
      · rw [matrix_at_set_ne _ _ _ _ _ _ (hkM1 _) (hjM1 _) (fun h => hib h.1)]
        by_cases hia : i = a
        · subst hia
          rw [matrix_at_set, h3 b j hj, if_neg (lt_irrefl j), Equiv.swap_apply_left]
        · rw [matrix_at_set_ne _ _ _ _ _ _ hkM hjM (fun h => hia h.1), h3 i j hj,
            if_neg (lt_irrefl j), Equiv.swap_apply_of_ne_of_ne hia hib]
    · rw [matrix_at_set_ne _ _ _ _ _ _ (hkM1 _) (hjM1 _) (fun h => hjk h.2),
        matrix_at_set_ne _ _ _ _ _ _ hkM hjM (fun h => hjk h.2), h3 i j hj]
      by_cases hlt : j < k
      · rw [if_pos hlt, if_pos (Nat.lt_succ_of_lt hlt)]
      · rw [if_neg hlt, if_neg (by omega)]

/-- The exchange of two different rows below `num_rows` keeps the shape and the multiset of
rows. -/
theorem matrix_swap_rows_spec (m : Matrix α) (a b : Nat) (hab : a ≠ b) (ha : a < m.num_rows)
    (hb : b < m.num_rows) :
    (matrix_swap_rows m a b).num_rows = m.num_rows ∧
    (matrix_swap_rows m a b).num_columns = m.num_columns ∧
    (∀ i j, j < m.num_columns →
      matrix_at (matrix_swap_rows m a b) i j = matrix_at m (Equiv.swap a b i) j) ∧
    matrix_rows (matrix_swap_rows m a b) = matrix_rows m := by
  obtain ⟨h1, h2, h3⟩ := matrix_swap_rows_loop m a b hab m.num_columns le_rfl
  have h3' : ∀ i j, j < m.num_columns →
      matrix_at (matrix_swap_rows m a b) i j = matrix_at m (Equiv.swap a b i) j := by
    intro i j hj
    have h := h3 i j hj
    rw [if_pos hj] at h
    exact h
  refine ⟨h1, h2, h3', ?_⟩
  have e1 : (matrix_swap_rows m a b).num_rows = m.num_rows := h1
  have e2 : (matrix_swap_rows m a b).num_columns = m.num_columns := h2
  unfold matrix_rows
  rw [e1, e2]
  have hrow : ∀ i, ((List.range m.num_columns).map fun j => matrix_at (matrix_swap_rows m a b) i j)
      = (fun i => (List.range m.num_columns).map fun j => matrix_at m i j) (Equiv.swap a b i) := by
    intro i
    apply List.map_congr_left
    intro j hj
    exact h3' i j (List.mem_range.mp hj)
  simp only [hrow]
  conv_rhs => rw [← range_map_swap m.num_rows a b ha hb, Multiset.map_map]
  rfl

/-- Claim C17. `matrix_shuffle_rows` is a permutation of rows: for every matrix and every
sequence of values returned by `rand()`, the multiset of rows (each row the list of its
column values) after the call equals the multiset before it and the shape is unchanged; for
matrices with 0 or 1 rows the call changes nothing (and does not call `rand()`). -/
theorem matrix_shuffle_rows_spec (rand : Nat → Nat) (m : Matrix α) (calls : Nat) :
    matrix_rows (matrix_shuffle_rows rand m calls).1 = matrix_rows m ∧
    (matrix_shuffle_rows rand m calls).1.num_rows = m.num_rows ∧
    (matrix_shuffle_rows rand m calls).1.num_columns = m.num_columns ∧
    (m.num_rows ≤ 1 → matrix_shuffle_rows rand m calls = (m, calls)) := by
  unfold matrix_shuffle_rows
  by_cases hR : m.num_rows ≤ 1
  · rw [if_pos hR]
    exact ⟨rfl, rfl, rfl, fun _ => rfl⟩
  · rw [if_neg hR]
    have key := for_loop_invariant
      (fun _ (st : Matrix α × Nat) =>
        matrix_rows st.1 = matrix_rows m ∧ st.1.num_rows = m.num_rows ∧
        st.1.num_columns = m.num_columns)
      m.num_rows
      (fun current_idx (st : Matrix α × Nat) =>
        if current_idx ≠ current_idx + rand st.2 % (m.num_rows - current_idx) then
          (matrix_swap_rows st.1 current_idx
            (current_idx + rand st.2 % (m.num_rows - current_idx)), st.2 + 1)
        else (st.1, st.2 + 1))
      (m, calls) ⟨rfl, rfl, rfl⟩
      (by
        intro i st hi hP
        obtain ⟨p1, p2, p3⟩ := hP
        have hlt : i + rand st.2 % (m.num_rows - i) < m.num_rows := by
          have := Nat.mod_lt (rand st.2) (show 0 < m.num_rows - i by omega)
          omega
        dsimp only
        by_cases hne : i ≠ i + rand st.2 % (m.num_rows - i)
        · rw [if_pos hne]
          obtain ⟨q1, q2, _, q4⟩ := matrix_swap_rows_spec st.1 i
            (i + rand st.2 % (m.num_rows - i)) hne (by rw [p2]; exact hi) (by rw [p2]; exact hlt)
          exact ⟨q4.trans p1, q1.trans p2, q2.trans p3⟩
        · rw [if_neg hne]
          exact ⟨p1, p2, p3⟩)
    exact ⟨key.1, key.2.1, key.2.2, fun h => absurd h hR⟩

/-- The three rows of `example_columns`, shuffled with a generator that returns 1, 2, 3, ...,
and a matrix of one row, which the call leaves alone. -/
theorem matrix_shuffle_rows_spec_witness :
    (matrix_rows (matrix_shuffle_rows (fun k => k + 1) example_columns 0).1
        = matrix_rows example_columns ∧
      (matrix_shuffle_rows (fun k => k + 1) example_columns 0).1.num_rows = 3) ∧
    ((matrix_of_list 1 2 [4, 5] : Matrix ℚ).num_rows ≤ 1 ∧
      matrix_shuffle_rows (fun k => k + 1) (matrix_of_list 1 2 [4, 5] : Matrix ℚ) 0
        = (matrix_of_list 1 2 [4, 5], 0)) :=
  ⟨⟨(matrix_shuffle_rows_spec (fun k => k + 1) example_columns 0).1,
      (matrix_shuffle_rows_spec (fun k => k + 1) example_columns 0).2.1⟩,
    le_refl 1,
    (matrix_shuffle_rows_spec (fun k => k + 1) (matrix_of_list 1 2 [4, 5]) 0).2.2.2 (le_refl 1)⟩

/-- The gradient network of a one-row batch holds the factors `delta` and their products
with the activations of the layer before. -/
theorem compute_gradients_one_row (expf : α → α) (arena : MemoryArena)
    (network : NeuralNetwork α) (dataset : Matrix α) (hinv : shape_invariant network)
    (hfit : dataset_fits network dataset)
    (hroom : arena_has_room arena network.layer_sizes network.total_layers)
    (hN : dataset.num_rows = 1) :
    ∃ r, neural_network_compute_gradients expf arena network dataset = some r ∧
      ∀ l, 1 ≤ l → l < network.total_layers → ∀ j, j < network.layer_sizes l →
        (r.2.2.bias_vectors (l - 1)).element j = sample_delta expf network dataset 0 l j ∧
        ∀ p, p < network.layer_sizes (l - 1) →
          matrix_at (r.2.2.weight_matrices (l - 1)) p j
            = sample_delta expf network dataset 0 l j
              * sample_activation expf network dataset 0 (l - 1) p := by
  obtain ⟨n, G, hG, _, _, hval⟩ :=
    neural_network_compute_gradients_eq expf arena network dataset hinv hfit hroom
  refine ⟨_, hG, ?_⟩
  intro l hl1 hl2 j hj
  have hm : l - 1 + 1 = l := by omega
  obtain ⟨v1, v2⟩ := hval (l - 1) (by omega)
  rw [hm] at v1 v2
  constructor
  · show (G.bias_vectors (l - 1)).element j = _
    rw [v2 j hj, hN, Finset.sum_range_one, Nat.cast_one, div_one]
  · intro p hp
    show matrix_at (G.weight_matrices (l - 1)) p j = _
    rw [v1 p j hp hj, hN, Finset.sum_range_one, Nat.cast_one, div_one]
    unfold sample_weight_gradient
    rw [hm]

/-- Claim C35. Backpropagation recurrences of `neural_network_compute_gradients` on a one-row
batch: with `a` the forward-pass activations of the row, `err (L-1) k = a (L-1) k - target k`,
`delta l j = err l j * activation_compute_derivative (a l j) (tag l)` and
`err (l-1) p = sum over j of delta l j * W (l-1) p j` for `l = L-1` down to 1, the call
returns and the returned gradient network has bias gradient `(l-1)[j] = delta l j` and weight
gradient `(l-1)[p][j] = delta l j * a (l-1) p` for every layer `1 <= l < L`, unit `j` and
previous-layer unit `p`. -/
theorem neural_network_compute_gradients_recurrences (expf : α → α) (arena : MemoryArena)
    (network : NeuralNetwork α) (dataset : Matrix α) (hinv : shape_invariant network)
    (hfit : dataset_fits network dataset)
    (hroom : arena_has_room arena network.layer_sizes network.total_layers)
    (hN : dataset.num_rows = 1) :
    ∃ (r : MemoryArena × NeuralNetwork α × NeuralNetwork α) (err delta : Nat → Nat → α),
      neural_network_compute_gradients expf arena network dataset = some r ∧
      (∀ k, err (network.total_layers - 1) k
        = sample_activation expf network dataset 0 (network.total_layers - 1) k
          - target network dataset 0 k) ∧
      (∀ l j, delta l j
        = err l j * activation_compute_derivative (sample_activation expf network dataset 0 l j)
            (network.activation_types l)) ∧
      (∀ l p, 1 ≤ l → l < network.total_layers →
        err (l - 1) p
          = ∑ j ∈ Finset.range (network.layer_sizes l),
              delta l j * matrix_at (network.weight_matrices (l - 1)) p j) ∧
      ∀ l, 1 ≤ l → l < network.total_layers → ∀ j, j < network.layer_sizes l →
        (r.2.2.bias_vectors (l - 1)).element j = delta l j ∧
        ∀ p, p < network.layer_sizes (l - 1) →
          matrix_at (r.2.2.weight_matrices (l - 1)) p j
            = delta l j * sample_activation expf network dataset 0 (l - 1) p := by
  obtain ⟨r, hr, hval⟩ :=
    compute_gradients_one_row expf arena network dataset hinv hfit hroom hN
  refine ⟨r,
    fun l j => backprop_error network (sample_activation expf network dataset 0)
      (target network dataset 0) (network.total_layers - 1 - l) j,
    fun l j => sample_delta expf network dataset 0 l j, hr, ?_, ?_, ?_, hval⟩
  · intro k
    simp only [Nat.sub_self, backprop_error]
  · intro l j
    rfl
  · intro l p hl1 hl2
    have hm : l - 1 + 1 = l := by omega
    have h := backprop_error_layer network (sample_activation expf network dataset 0)
      (target network dataset 0) (l - 1) p (by omega)
    rw [hm] at h
    exact h

/-- The recurrences on `single_unit_network` and its single sample. -/
theorem neural_network_compute_gradients_recurrences_witness :
    (shape_invariant single_unit_network ∧ dataset_fits single_unit_network single_sample ∧
      arena_has_room example_arena single_unit_network.layer_sizes
        single_unit_network.total_layers ∧ single_sample.num_rows = 1) ∧
    ∃ (r : MemoryArena × NeuralNetwork ℚ × NeuralNetwork ℚ) (err delta : Nat → Nat → ℚ),
      neural_network_compute_gradients example_expf example_arena single_unit_network
        single_sample = some r ∧
      (r.2.2.bias_vectors 0).element 0 = delta 1 0 ∧
      delta 1 0 = err 1 0 * activation_compute_derivative
        (sample_activation example_expf single_unit_network single_sample 0 1 0)
        ACTIVATION_SIGMOID := by
  obtain ⟨r, err, delta, h1, _, h3, _, h5⟩ :=
    neural_network_compute_gradients_recurrences example_expf example_arena single_unit_network
      single_sample single_unit_network_shape single_sample_fits single_unit_room rfl
  exact ⟨⟨single_unit_network_shape, single_sample_fits, single_unit_room, rfl⟩, r, err, delta,
    h1, (h5 1 (by decide) (by decide) 0 (by decide)).1, h3 1 0⟩

/-- Claim C39. The ReLU derivative never gates a gradient: for every input `x`,
`activation_relu(x) >= 0` and `activation_compute_derivative(activation_relu(x),
ACTIVATION_RELU) = 1`; hence, on a one-row batch, the bias gradient that
`neural_network_compute_gradients` returns for a unit of a layer tagged RELU is the error term
of the unit itself, whatever its pre-activation was. -/
theorem relu_derivative_never_gates (expf : α → α) :
    (∀ x : α, 0 ≤ activation_relu x ∧
      activation_compute_derivative (activation_relu x) ACTIVATION_RELU = 1) ∧
    ∀ (arena : MemoryArena) (network : NeuralNetwork α) (dataset : Matrix α),
      shape_invariant network → dataset_fits network dataset →
      arena_has_room arena network.layer_sizes network.total_layers →
      dataset.num_rows = 1 →
      ∃ r, neural_network_compute_gradients expf arena network dataset = some r ∧
        ∀ l, 1 ≤ l → l < network.total_layers →
          network.activation_types l = ACTIVATION_RELU → ∀ j, j < network.layer_sizes l →
          (r.2.2.bias_vectors (l - 1)).element j
            = backprop_error network (sample_activation expf network dataset 0)
                (target network dataset 0) (network.total_layers - 1 - l) j := by
  have hrelu : ∀ x : α, 0 ≤ activation_relu x ∧
      activation_compute_derivative (activation_relu x) ACTIVATION_RELU = 1 := by
    intro x
    have h0 : 0 ≤ activation_relu x := by
      unfold activation_relu
      split_ifs with h
      · exact le_of_lt h
      · exact le_refl 0
    refine ⟨h0, ?_⟩
    simp only [activation_compute_derivative]
    rw [if_pos h0]
  refine ⟨hrelu, ?_⟩
  intro arena network dataset hinv hfit hroom hN
  obtain ⟨r, hr, hval⟩ :=
    compute_gradients_one_row expf arena network dataset hinv hfit hroom hN
  refine ⟨r, hr, ?_⟩
  intro l hl1 hl2 htag j hj
  have hm : l - 1 + 1 = l := by omega
  have hact := (sample_activation_layer expf network dataset 0 hinv hfit (by omega)).2 (l - 1) j
    (by omega) (by rw [hm]; exact hj)
  rw [hm] at hact
  rw [(hval l hl1 hl2 j hj).1]
  unfold sample_delta backprop_delta
  rw [hact, htag]
  simp only [activation_apply]
  rw [(hrelu _).2, mul_one]

/-- The first row of `example_dataset` as a one-row batch for `example_network`, whose layer 1
is tagged RELU. -/
theorem relu_derivative_never_gates_witness :
    (shape_invariant example_network ∧
      dataset_fits example_network (single_row_batch example_dataset 0) ∧
      arena_has_room example_arena example_network.layer_sizes example_network.total_layers ∧
      (single_row_batch example_dataset 0).num_rows = 1 ∧
      example_network.activation_types 1 = ACTIVATION_RELU) ∧
    ∃ r, neural_network_compute_gradients example_expf example_arena example_network
        (single_row_batch example_dataset 0) = some r ∧
      (r.2.2.bias_vectors 0).element 2
        = backprop_error example_network
            (sample_activation example_expf example_network (single_row_batch example_dataset 0) 0)
            (target example_network (single_row_batch example_dataset 0) 0) 1 2 := by
  have hfit : dataset_fits example_network (single_row_batch example_dataset 0) :=
    example_dataset_fits
  obtain ⟨r, hr, hval⟩ := (relu_derivative_never_gates example_expf).2 example_arena
    example_network (single_row_batch example_dataset 0) example_network_shape hfit
    example_network_room rfl
  exact ⟨⟨example_network_shape, hfit, example_network_room, rfl, rfl⟩, r, hr,
    hval 1 (by decide) (by decide) rfl 2 (by decide)⟩

/-- Claim C40. Shape assertions are unreachable on allocated networks: every network returned
by `neural_network_allocate` for `L >= 2` layers of widths `>= 1` has the shape invariant, so
`neural_network_forward_pass` on it returns (no assertion of the matrix product or of the bias
addition fails), and `neural_network_compute_gradients` on it returns for every batch whose
rows have at least `width[0] + width[L-1]` columns (row slicing, input copy and forward pass
hit no failing assertion), given an arena with room for the gradient network. -/
theorem allocated_network_assertions (expf : α → α) (arena : MemoryArena) (arch : Nat → Nat)
    (L : Nat) (r : MemoryArena × NeuralNetwork α)
    (hr : neural_network_allocate arena arch L = some r) (hw : ∀ i, i < L → 1 ≤ arch i) :
    2 ≤ L ∧ shape_invariant r.2 ∧
    (∃ n, neural_network_forward_pass expf r.2 = some n) ∧
    ∀ (arena2 : MemoryArena) (batch : Matrix α), arena_has_room arena2 arch L →
      arch 0 + arch (L - 1) ≤ batch.num_columns → batch.num_columns < SIZE_MODULUS →
      (∀ s, s < batch.num_rows → ∃ n, sample_forward expf r.2 batch s = some n) ∧
      ∃ g, neural_network_compute_gradients expf arena2 r.2 batch = some g := by
  obtain ⟨hL, hnet⟩ := neural_network_allocate_some arena arch L r hr
  obtain ⟨s1, s2, s3, s4⟩ := neural_network_fresh_shape arch L r.2 hnet
  have hinv : shape_invariant r.2 := by
    refine ⟨by rw [s1]; exact hL, ?_, ?_⟩
    · intro i hi
      rw [s1] at hi
      rw [s2]
      exact s3 i hi
    · intro i hi
      rw [s1] at hi
      rw [s2]
      exact s4 i hi
  obtain ⟨n, hn, _⟩ := neural_network_forward_pass_correct expf r.2 hinv
  refine ⟨hL, hinv, ⟨n, hn⟩, ?_⟩
  intro arena2 batch hroom hcols hsize
  have hfit : dataset_fits r.2 batch := by
    unfold dataset_fits
    rw [s1, s2]
    exact ⟨hcols, hw (L - 1) (by omega), hsize⟩
  constructor
  · intro s hs
    obtain ⟨F, hF, _⟩ := sample_forward_ok expf r.2 r.2 batch s hinv (same_parameters_refl r.2)
      hfit hs
    exact ⟨F, hF⟩
  · obtain ⟨n1, G, hG, _⟩ := neural_network_compute_gradients_eq expf arena2 r.2 batch hinv hfit
      (by rw [s1, s2]; exact hroom)
    exact ⟨_, hG⟩

/-- A network of widths 2, 3, 1 allocated in an arena of 1000 buffers: forward pass and
gradient computation on `example_dataset` return. -/
theorem allocated_network_assertions_witness :
    ∃ r : MemoryArena × NeuralNetwork ℚ,
      neural_network_allocate example_arena example_architecture 3 = some r ∧
      (∀ i, i < 3 → 1 ≤ example_architecture i) ∧
      (∃ n, neural_network_forward_pass example_expf r.2 = some n) ∧
      arena_has_room example_arena example_architecture 3 ∧
      ∃ g, neural_network_compute_gradients example_expf example_arena r.2 example_dataset
        = some g := by
  have hroom : arena_has_room example_arena example_architecture 3 := by
    unfold arena_has_room
    decide
  have hr : (neural_network_allocate example_arena example_architecture 3 :
      Option (MemoryArena × NeuralNetwork ℚ)) = _ :=
    neural_network_allocate_fits example_arena example_architecture 3 (by decide) hroom
  have hw : ∀ i, i < 3 → 1 ≤ example_architecture i := by decide
  obtain ⟨_, _, hfp, hcg⟩ := allocated_network_assertions example_expf example_arena
    example_architecture 3 _ hr hw
  exact ⟨_, hr, hw, hfp, hroom,
    (hcg example_arena example_dataset hroom (by decide) (by decide)).2⟩

/-- The order after `k + d` iterations is the order after `k` iterations followed by the
exchanges of the next `d` iterations. -/
theorem shuffle_order_tail (t : Nat → Nat) (d : Nat) :
    ∀ k, shuffle_order t k * shuffle_tail t d k = shuffle_order t (k + d) := by
  induction d with
  | zero =>
    intro k
    simp [shuffle_tail]
  | succ d ih =>
    intro k
    have h := ih (k + 1)
    have e1 : shuffle_order t (k + 1) = shuffle_order t k * Equiv.swap k (t k) := rfl
    have e2 : shuffle_tail t (d + 1) k = Equiv.swap k (t k) * shuffle_tail t d (k + 1) := rfl
    have hidx : k + 1 + d = k + (d + 1) := by omega
    rw [e1, hidx] at h
    rw [e2, ← mul_assoc, h]

/-- The exchanges of the iterations from `k` on leave the positions before `k` alone. -/
theorem shuffle_tail_below (t : Nat → Nat) (d : Nat) :
    ∀ k, (∀ j, k ≤ j → j < k + d → j ≤ t j) → ∀ i, i < k → shuffle_tail t d k i = i := by
  induction d with
  | zero =>
    intro k _ i _
    rfl
  | succ d ih =>
    intro k ht i hi
    simp only [shuffle_tail, Equiv.Perm.mul_apply]
    rw [ih (k + 1) (fun j h1 h2 => ht j (by omega) (by omega)) i (by omega)]
    have h1 : i ≠ k := by omega
    have h2 : i ≠ t k := by
      have := ht k (le_refl k) (by omega)
      omega
    exact Equiv.swap_apply_of_ne_of_ne h1 h2

/-- The exchanges of the iterations `k, ..., k + d - 1` with targets below `k + d` leave the
positions from `k + d` on alone. -/
theorem shuffle_tail_above (t : Nat → Nat) (d : Nat) :
    ∀ k, (∀ j, k ≤ j → j < k + d → t j < k + d) → ∀ i, k + d ≤ i →
      shuffle_tail t d k i = i := by
  induction d with
  | zero =>
    intro k _ i _
    rfl
  | succ d ih =>
    intro k ht i hi
    simp only [shuffle_tail, Equiv.Perm.mul_apply]
    rw [ih (k + 1) (fun j h1 h2 => by have := ht j (by omega) (by omega); omega) i (by omega)]
    have h1 : i ≠ k := by omega
    have h2 : i ≠ t k := by
      have := ht k (le_refl k) (by omega)
      omega
    exact Equiv.swap_apply_of_ne_of_ne h1 h2

/-- The first exchange decides where position `k` comes from. -/
theorem shuffle_tail_first (t : Nat → Nat) (d k : Nat)
    (ht : ∀ j, k ≤ j → j < k + (d + 1) → j ≤ t j) :
    shuffle_tail t (d + 1) k k = t k := by
  simp only [shuffle_tail, Equiv.Perm.mul_apply]
  rw [shuffle_tail_below t d (k + 1) (fun j h1 h2 => ht j (by omega) (by omega)) k (by omega)]
  exact Equiv.swap_apply_left k (t k)

/-- Different target sequences give different orders. -/
theorem shuffle_tail_injective (t t' : Nat → Nat) (d : Nat) :
    ∀ k, (∀ j, k ≤ j → j < k + d → j ≤ t j) → (∀ j, k ≤ j → j < k + d → j ≤ t' j) →
      shuffle_tail t d k = shuffle_tail t' d k → ∀ j, k ≤ j → j < k + d → t j = t' j := by
  induction d with
  | zero =>
    intro k _ _ _ j h1 h2
    omega
  | succ d ih =>
    intro k ht ht' heq j h1 h2
    have hk : t k = t' k := by
      rw [← shuffle_tail_first t d k ht, ← shuffle_tail_first t' d k ht', heq]
    by_cases hjk : j = k
    · rw [hjk]
      exact hk
    · have hrest : shuffle_tail t d (k + 1) = shuffle_tail t' d (k + 1) := by
        have h := heq
        simp only [shuffle_tail] at h
        rw [hk] at h
        exact mul_left_cancel h
      exact ih (k + 1) (fun j h1 h2 => ht j (by omega) (by omega))
        (fun j h1 h2 => ht' j (by omega) (by omega)) hrest j (by omega) (by omega)

/-- The composition of the exchanges depends on the targets of its own iterations only. -/
theorem shuffle_tail_congr (t t' : Nat → Nat) (d : Nat) :
    ∀ k, (∀ j, k ≤ j → j < k + d → t j = t' j) → shuffle_tail t d k = shuffle_tail t' d k := by
  induction d with
  | zero =>
    intro k _
    rfl
  | succ d ih =>
    intro k h
    simp only [shuffle_tail]
    rw [h k (le_refl k) (by omega),
      ih (k + 1) (fun j h1 h2 => h j (by omega) (by omega))]

/-- A permutation that fixes the positions outside `[k, k + d)` maps that interval to
itself. -/
theorem perm_interval (σ : Equiv.Perm Nat) (k d : Nat)
    (hfix : ∀ i, i < k ∨ k + d ≤ i → σ i = i) (i : Nat) (h1 : k ≤ i) (h2 : i < k + d) :
    k ≤ σ i ∧ σ i < k + d := by
  by_contra h
  have hout : σ i < k ∨ k + d ≤ σ i := by omega
  have h3 := hfix (σ i) hout
  have h4 : σ i = i := σ.injective h3
  omega

/-- Every permutation of the positions `k, ..., k + d - 1` is the composition of the
exchanges of some target sequence. -/
theorem shuffle_tail_surjective (d : Nat) :
    ∀ k (σ : Equiv.Perm Nat), (∀ i, i < k ∨ k + d ≤ i → σ i = i) →
      ∃ t : Nat → Nat, (∀ j, k ≤ j → j < k + d → j ≤ t j ∧ t j < k + d) ∧
        shuffle_tail t d k = σ := by
  induction d with
  | zero =>
    intro k σ hfix
    refine ⟨fun j => j, fun j h1 h2 => by omega, ?_⟩
    ext i
    simp only [shuffle_tail, Equiv.Perm.coe_one, id_eq]
    exact (hfix i (by omega)).symm
  | succ d ih =>
    intro k σ hfix
    obtain ⟨hk1, hk2⟩ := perm_interval σ k (d + 1) hfix k (le_refl k) (by omega)
    have hfix' : ∀ i, i < k + 1 ∨ k + 1 + d ≤ i → (Equiv.swap k (σ k) * σ) i = i := by
      intro i hi
      simp only [Equiv.Perm.mul_apply]
      by_cases hik : i = k
      · rw [hik]
        exact Equiv.swap_apply_right k (σ k)
      · have hσ : σ i = i := hfix i (by omega)
        rw [hσ]
        have hne : i ≠ σ k := by
          intro h
          have : σ i = σ k := by rw [hσ]; exact h
          exact hik (σ.injective this)
        exact Equiv.swap_apply_of_ne_of_ne hik hne
    obtain ⟨t', ht', hprod⟩ := ih (k + 1) (Equiv.swap k (σ k) * σ) hfix'
    refine ⟨Function.update t' k (σ k), ?_, ?_⟩
    · intro j h1 h2
      by_cases hjk : j = k
      · subst hjk
        rw [Function.update_same]
        exact ⟨hk1, hk2⟩
      · rw [Function.update_noteq hjk]
        have := ht' j (by omega) (by omega)
        omega
    · simp only [shuffle_tail, Function.update_same]
      rw [shuffle_tail_congr (Function.update t' k (σ k)) t' d (k + 1)
        (fun j h1 h2 => Function.update_noteq (by omega) _ _), hprod, ← mul_assoc,
        Equiv.swap_mul_self, one_mul]

/-- The targets that the shuffle computes lie between the current row and the last row. -/
theorem shuffle_target_range (rand : Nat → Nat) (n calls i : Nat) (hi : i < n) :
    i ≤ shuffle_target rand n calls i ∧ shuffle_target rand n calls i < n := by
  unfold shuffle_target
  have := Nat.mod_lt (rand (calls + i)) (show 0 < n - i by omega)
  omega

/-- The row order of the whole shuffle is the composition of its exchanges. -/
theorem shuffle_order_eq_tail (t : Nat → Nat) (n : Nat) :
    shuffle_order t n = shuffle_tail t n 0 := by
  have h := shuffle_order_tail t n 0
  rw [Nat.zero_add] at h
  rw [← h]
  exact (one_mul _).symm

/-- Closed form of `matrix_shuffle_rows`: row `i` of the result is the row
`shuffle_order t n i` of the argument, where `t` are the swap targets of the call. -/
theorem matrix_shuffle_rows_order (rand : Nat → Nat) (m : Matrix α) (calls : Nat) :
    ∀ i j, j < m.num_columns →
      matrix_at (matrix_shuffle_rows rand m calls).1 i j
        = matrix_at m (shuffle_order (shuffle_target rand m.num_rows calls) m.num_rows i) j := by
  unfold matrix_shuffle_rows
  by_cases hR : m.num_rows ≤ 1
  · rw [if_pos hR]
    intro i j _
    have hone : shuffle_order (shuffle_target rand m.num_rows calls) m.num_rows = 1 := by
      rcases Nat.le_one_iff_eq_zero_or_eq_one.mp hR with h0 | h1
      · rw [h0]
        rfl
      · rw [h1]
        show 1 * Equiv.swap 0 (shuffle_target rand 1 calls 0) = 1
        have ht : shuffle_target rand 1 calls 0 = 0 := by
          unfold shuffle_target
          simp [Nat.mod_one]
        rw [ht, Equiv.swap_self]
        rfl
    rw [hone]
    rfl
  · rw [if_neg hR]
    have key := for_loop_invariant
      (fun k (st : Matrix α × Nat) =>
        st.2 = calls + k ∧ st.1.num_rows = m.num_rows ∧ st.1.num_columns = m.num_columns ∧
        ∀ i j, j < m.num_columns → matrix_at st.1 i j
          = matrix_at m (shuffle_order (shuffle_target rand m.num_rows calls) k i) j)
      m.num_rows
      (fun current_idx (st : Matrix α × Nat) =>
        if current_idx ≠ current_idx + rand st.2 % (m.num_rows - current_idx) then
          (matrix_swap_rows st.1 current_idx
            (current_idx + rand st.2 % (m.num_rows - current_idx)), st.2 + 1)
        else (st.1, st.2 + 1))
      (m, calls) ⟨rfl, rfl, rfl, fun _ _ _ => rfl⟩
      (by
        intro k st hk hP
        obtain ⟨p0, p2, p3, p4⟩ := hP
        have htk : k + rand st.2 % (m.num_rows - k) = shuffle_target rand m.num_rows calls k := by
          rw [p0]
          rfl
        have hlt := (shuffle_target_range rand m.num_rows calls k hk).2
        dsimp only
        rw [htk]
        by_cases hne : k ≠ shuffle_target rand m.num_rows calls k
        · rw [if_pos hne]
          obtain ⟨q1, q2, q3, _⟩ := matrix_swap_rows_spec st.1 k
            (shuffle_target rand m.num_rows calls k) hne (by rw [p2]; exact hk)
            (by rw [p2]; exact hlt)
          refine ⟨by show st.2 + 1 = calls + (k + 1); omega, q1.trans p2, q2.trans p3, ?_⟩
          intro i j hj
          show matrix_at (matrix_swap_rows st.1 k (shuffle_target rand m.num_rows calls k)) i j = _
          rw [q3 i j (by rw [p3]; exact hj), p4 _ j hj]
          rfl
        · rw [if_neg hne]
          refine ⟨by show st.2 + 1 = calls + (k + 1); omega, p2, p3, ?_⟩
          intro i j hj
          show matrix_at st.1 i j = _
          have hself : shuffle_target rand m.num_rows calls k = k := (not_not.mp hne).symm
          rw [p4 i j hj]
          show _ = matrix_at m ((shuffle_order (shuffle_target rand m.num_rows calls) k
            * Equiv.swap k (shuffle_target rand m.num_rows calls k)) i) j
          rw [hself, Equiv.swap_self]
          rfl)
    exact key.2.2.2

/-- Claim C36. Fisher-Yates bijection of `matrix_shuffle_rows` on a matrix of `n` rows: the
swap targets `j_0, ..., j_(n-1)` that the loop computes satisfy `i <= j_i < n` and every such
sequence is computed for some values of `rand()`; row `i` of the result is the row
`shuffle_order j n i` of the argument, where `shuffle_order j n` is a permutation of the row
indices below `n`; two target sequences with the same row order are equal; and every
permutation of the row indices below `n` is the row order of some target sequence, hence
the result of the call for some values of `rand()`. -/
theorem matrix_shuffle_rows_bijection (m : Matrix α) :
    (∀ rand calls i, i < m.num_rows →
      i ≤ shuffle_target rand m.num_rows calls i ∧
      shuffle_target rand m.num_rows calls i < m.num_rows) ∧
    (∀ (t : Nat → Nat) calls, (∀ i, i < m.num_rows → i ≤ t i ∧ t i < m.num_rows) →
      ∃ rand : Nat → Nat, ∀ i, i < m.num_rows → shuffle_target rand m.num_rows calls i = t i) ∧
    (∀ rand calls i j, j < m.num_columns →
      matrix_at (matrix_shuffle_rows rand m calls).1 i j
        = matrix_at m (shuffle_order (shuffle_target rand m.num_rows calls) m.num_rows i) j) ∧
    (∀ t : Nat → Nat, (∀ i, i < m.num_rows → i ≤ t i ∧ t i < m.num_rows) →
      (∀ i, m.num_rows ≤ i → shuffle_order t m.num_rows i = i) ∧
      (∀ i, i < m.num_rows → shuffle_order t m.num_rows i < m.num_rows)) ∧
    (∀ t t' : Nat → Nat, (∀ i, i < m.num_rows → i ≤ t i ∧ t i < m.num_rows) →
      (∀ i, i < m.num_rows → i ≤ t' i ∧ t' i < m.num_rows) →
      (∀ i, i < m.num_rows → shuffle_order t m.num_rows i = shuffle_order t' m.num_rows i) →
      ∀ i, i < m.num_rows → t i = t' i) ∧
    (∀ σ : Equiv.Perm Nat, (∀ i, m.num_rows ≤ i → σ i = i) → ∀ calls,
      ∃ rand : Nat → Nat,
        shuffle_order (shuffle_target rand m.num_rows calls) m.num_rows = σ ∧
        ∀ i j, j < m.num_columns →
          matrix_at (matrix_shuffle_rows rand m calls).1 i j = matrix_at m (σ i) j) := by
  have hrealise : ∀ (t : Nat → Nat) calls,
      (∀ i, i < m.num_rows → i ≤ t i ∧ t i < m.num_rows) →
      ∃ rand : Nat → Nat, ∀ i, i < m.num_rows →
        shuffle_target rand m.num_rows calls i = t i := by
    intro t calls ht
    refine ⟨fun c => t (c - calls) - (c - calls), ?_⟩
    intro i hi
    unfold shuffle_target
    have h1 : calls + i - calls = i := by omega
    dsimp only
    rw [h1]
    obtain ⟨a, b⟩ := ht i hi
    rw [Nat.mod_eq_of_lt (by omega)]
    omega
  have hfixes : ∀ t : Nat → Nat, (∀ i, i < m.num_rows → i ≤ t i ∧ t i < m.num_rows) →
      ∀ i, m.num_rows ≤ i → shuffle_order t m.num_rows i = i := by
    intro t ht i hi
    rw [shuffle_order_eq_tail]
    exact shuffle_tail_above t m.num_rows 0
      (fun j _ h2 => by have := (ht j (by omega)).2; omega) i (by omega)
  refine ⟨fun rand calls i hi => shuffle_target_range rand m.num_rows calls i hi, hrealise,
    fun rand calls => matrix_shuffle_rows_order rand m calls, ?_, ?_, ?_⟩
  · intro t ht
    refine ⟨hfixes t ht, ?_⟩
    intro i hi
    have h := perm_interval (shuffle_order t m.num_rows) 0 m.num_rows
      (fun i hi => hfixes t ht i (by omega)) i (Nat.zero_le i) (by omega)
    omega
  · intro t t' ht ht' heq i hi
    have hperm : shuffle_tail t m.num_rows 0 = shuffle_tail t' m.num_rows 0 := by
      rw [← shuffle_order_eq_tail, ← shuffle_order_eq_tail]
      ext x
      by_cases hx : x < m.num_rows
      · exact heq x hx
      · rw [hfixes t ht x (by omega), hfixes t' ht' x (by omega)]
    exact shuffle_tail_injective t t' m.num_rows 0
      (fun j _ h2 => (ht j (by omega)).1) (fun j _ h2 => (ht' j (by omega)).1) hperm i
      (Nat.zero_le i) (by omega)
  · intro σ hσ calls
    obtain ⟨t, ht, hprod⟩ := shuffle_tail_surjective m.num_rows 0 σ
      (fun i hi => hσ i (by omega))
    have ht' : ∀ i, i < m.num_rows → i ≤ t i ∧ t i < m.num_rows := by
      intro i hi
      have := ht i (Nat.zero_le i) (by omega)
      omega
    obtain ⟨rand, hrand⟩ := hrealise t calls ht'
    have hσeq : shuffle_order (shuffle_target rand m.num_rows calls) m.num_rows = σ := by
      rw [shuffle_order_eq_tail, ← hprod]
      exact shuffle_tail_congr _ _ m.num_rows 0 (fun j _ h2 => hrand j (by omega))
    refine ⟨rand, hσeq, ?_⟩
    intro i j hj
    rw [matrix_shuffle_rows_order rand m calls i j hj, hσeq]

/-- The three rows of `example_columns`: the order that exchanges the first and the last row
is the result of the shuffle for some values of `rand()`. -/
theorem matrix_shuffle_rows_bijection_witness :
    (∀ i, example_columns.num_rows ≤ i → Equiv.swap 0 2 i = i) ∧
    ∃ rand : Nat → Nat,
      shuffle_order (shuffle_target rand example_columns.num_rows 0) example_columns.num_rows
        = Equiv.swap 0 2 ∧
      ∀ i j, j < example_columns.num_columns →
        matrix_at (matrix_shuffle_rows rand example_columns 0).1 i j
          = matrix_at example_columns (Equiv.swap 0 2 i) j :=
  have h : ∀ i, example_columns.num_rows ≤ i → Equiv.swap 0 2 i = i := fun i hi =>
    Equiv.swap_apply_of_ne_of_ne
      (by have h3 : 3 ≤ i := hi; omega) (by have h3 : 3 ≤ i := hi; omega)
  ⟨h, (matrix_shuffle_rows_bijection example_columns).2.2.2.2.2 (Equiv.swap 0 2) h 0⟩

/-- What a call of `arena_allocate_region` that returns has done. -/
theorem arena_allocate_region_some (arena arena1 : MemoryArena) (buffer buffer1 : Nat → Nat)
    (size_in_bytes offset : Nat)
    (h : arena_allocate_region arena buffer size_in_bytes = some (arena1, buffer1, offset)) :
    arena_allocate_memory arena size_in_bytes = some arena1 ∧
    offset = arena.used_buffers ∧
    arena1.used_buffers = size_add arena.used_buffers (required_buffers size_in_bytes) ∧
    arena1.total_capacity = arena.total_capacity ∧
    ∀ b, buffer1 b =
      if offset * buffer_element_size ≤ b ∧ b < offset * buffer_element_size + size_in_bytes
      then 0 else buffer b := by
  unfold arena_allocate_region at h
  unfold arena_allocate_memory
  by_cases hc : size_add arena.used_buffers (required_buffers size_in_bytes)
      ≤ arena.total_capacity
  · rw [if_pos hc] at h
    rw [if_pos hc]
    simp only [Option.some.injEq, Prod.mk.injEq] at h
    obtain ⟨e1, e2, e3⟩ := h
    subst e1
    subst e3
    subst e2
    exact ⟨rfl, rfl, rfl, rfl, fun _ => rfl⟩
  · rw [if_neg hc] at h
    cases h

/-- Where the rounding up of the request does not wrap around, `required_buffers` is
`ceil(size_in_bytes / 8)`. -/
theorem required_buffers_eq (size_in_bytes : Nat)
    (h : size_in_bytes + buffer_element_size - 1 < SIZE_MODULUS) :
    required_buffers size_in_bytes
      = (size_in_bytes + buffer_element_size - 1) / buffer_element_size := by
  have hM : SIZE_MODULUS = 18446744073709551616 := by norm_num [SIZE_MODULUS]
  have hw : buffer_element_size = 8 := rfl
  unfold required_buffers size_sub size_add
  rw [hM, hw] at h ⊢
  have key : ((size_in_bytes + 8) % 18446744073709551616 + 18446744073709551616 - 1)
      % 18446744073709551616 = size_in_bytes + 8 - 1 := by
    omega
  rw [key]

/-- Claim C38. Arena allocations do not overlap: for two successive calls of
`arena_allocate_memory` that return, with no reset in between, on an arena whose buffer
`arena_create` could allocate and with the first region inside that buffer, the second
region starts at word offset `first offset + ceil(first size / 8)`, no byte belongs to both
regions, and the zero fill of the second call leaves every byte of the first region as the
first call left it; both regions are zero after their own call. -/
theorem arena_allocate_disjoint (arena arena1 arena2 : MemoryArena)
    (buffer buffer1 buffer2 : Nat → Nat) (size1 size2 offset1 offset2 : Nat)
    (hcap : arena.total_capacity * buffer_element_size < SIZE_MODULUS)
    (h1 : arena_allocate_region arena buffer size1 = some (arena1, buffer1, offset1))
    (hin : offset1 * buffer_element_size + size1 ≤ arena.total_capacity * buffer_element_size)
    (h2 : arena_allocate_region arena1 buffer1 size2 = some (arena2, buffer2, offset2)) :
    arena_allocate_memory arena size1 = some arena1 ∧
    arena_allocate_memory arena1 size2 = some arena2 ∧
    offset1 = arena.used_buffers ∧
    offset2 = offset1 + (size1 + buffer_element_size - 1) / buffer_element_size ∧
    offset1 * buffer_element_size + size1 ≤ offset2 * buffer_element_size ∧
    (∀ b, offset1 * buffer_element_size ≤ b → b < offset1 * buffer_element_size + size1 →
      ¬ (offset2 * buffer_element_size ≤ b ∧ b < offset2 * buffer_element_size + size2)) ∧
    (∀ b, offset1 * buffer_element_size ≤ b → b < offset1 * buffer_element_size + size1 →
      buffer1 b = 0 ∧ buffer2 b = buffer1 b) ∧
    (∀ b, offset2 * buffer_element_size ≤ b → b < offset2 * buffer_element_size + size2 →
      buffer2 b = 0) := by
  obtain ⟨a1, a2, a3, _, a5⟩ := arena_allocate_region_some arena arena1 buffer buffer1 size1
    offset1 h1
  obtain ⟨b1, b2, _, _, b5⟩ := arena_allocate_region_some arena1 arena2 buffer1 buffer2 size2
    offset2 h2
  have hM : SIZE_MODULUS = 18446744073709551616 := by norm_num [SIZE_MODULUS]
  have hw : buffer_element_size = 8 := rfl
  rw [hw] at hin hcap
  rw [hM] at hcap
  have hsize : size1 + buffer_element_size - 1 < SIZE_MODULUS := by
    rw [hM, hw]
    omega
  have hreq := required_buffers_eq size1 hsize
  have hoff : offset2 = offset1 + (size1 + buffer_element_size - 1) / buffer_element_size := by
    rw [b2, a3, ← a2, hreq]
    unfold size_add
    apply Nat.mod_eq_of_lt
    rw [hM, hw] at hsize ⊢
    omega
  have hle : offset1 * buffer_element_size + size1 ≤ offset2 * buffer_element_size := by
    rw [hoff, hw]
    omega
  refine ⟨a1, b1, a2, hoff, hle, ?_, ?_, ?_⟩
  · intro b _ hb2 hb3
    omega
  · intro b hb1 hb2
    constructor
    · rw [a5 b, if_pos ⟨hb1, hb2⟩]
    · rw [b5 b, if_neg (by omega)]
  · intro b hb1 hb2
    rw [b5 b, if_pos ⟨hb1, hb2⟩]

/-- Two requests of 20 and of 12 bytes in the arena of `arena_create(1000)`, whose buffer
holds the byte 7 everywhere: the regions are the bytes 0..19 and 24..35. -/
theorem arena_allocate_disjoint_witness :
    arena_allocate_region (arena_create 1000) (fun _ => 7) 20
      = some ({ total_capacity := 125, used_buffers := 3 },
          (fun b => if 0 * buffer_element_size ≤ b ∧ b < 0 * buffer_element_size + 20 then 0
            else 7), 0) ∧
    arena_allocate_region { total_capacity := 125, used_buffers := 3 }
        (fun b => if 0 * buffer_element_size ≤ b ∧ b < 0 * buffer_element_size + 20 then 0
          else 7) 12
      = some ({ total_capacity := 125, used_buffers := 5 },
          (fun b => if 3 * buffer_element_size ≤ b ∧ b < 3 * buffer_element_size + 12 then 0
            else if 0 * buffer_element_size ≤ b ∧ b < 0 * buffer_element_size + 20 then 0
            else 7), 3) ∧
    (3 : Nat) = 0 + (20 + buffer_element_size - 1) / buffer_element_size ∧
    0 * buffer_element_size + 20 ≤ 3 * buffer_element_size :=
  have h1 : arena_allocate_region (arena_create 1000) (fun _ => 7) 20
      = some ({ total_capacity := 125, used_buffers := 3 },
          (fun b => if 0 * buffer_element_size ≤ b ∧ b < 0 * buffer_element_size + 20 then 0
            else 7), 0) := rfl
  have h2 : arena_allocate_region { total_capacity := 125, used_buffers := 3 }
        (fun b => if 0 * buffer_element_size ≤ b ∧ b < 0 * buffer_element_size + 20 then 0
          else 7) 12
      = some ({ total_capacity := 125, used_buffers := 5 },
          (fun b => if 3 * buffer_element_size ≤ b ∧ b < 3 * buffer_element_size + 12 then 0
            else if 0 * buffer_element_size ≤ b ∧ b < 0 * buffer_element_size + 20 then 0
            else 7), 3) := rfl
  have h := arena_allocate_disjoint (arena_create 1000) _ _ _ _ _ 20 12 0 3 (by decide) h1
    (by decide) h2
  ⟨h1, h2, h.2.2.2.1, h.2.2.2.2.1⟩

/-- Evaluation for C37: a dataset of 5 rows, the cursor at row 3 and `batch_size = 2^64 - 2`.
The `size_t` sum `current_start_idx + batch_size` wraps around to 1, which is below 5, so
`actual_batch_size` is `batch_size`; the assertion of `matrix_create_row_slice` computes the
same sum, passes, and the slice has `2^64 - 2` rows from row 3 on: it does not lie within
the dataset. -/
theorem batch_slice_wraps :
    size_add 3 (2 ^ 64 - 2) = 1 ∧
    batch_actual_size
      (batch_restart ({ current_start_idx := 3
                        accumulated_cost := 0
                        is_epoch_finished := false } : BatchProcessor ℚ)).current_start_idx
      (2 ^ 64 - 2) example_dataset.num_rows = 2 ^ 64 - 2 ∧
    ∃ current_batch : Matrix ℚ,
      matrix_create_row_slice example_dataset
        (batch_restart ({ current_start_idx := 3
                          accumulated_cost := 0
                          is_epoch_finished := false } : BatchProcessor ℚ)).current_start_idx
        (batch_actual_size 3 (2 ^ 64 - 2) example_dataset.num_rows) = some current_batch ∧
      current_batch.num_rows = 2 ^ 64 - 2 ∧
      ¬ (3 + current_batch.num_rows ≤ example_dataset.num_rows) := by
  have hact : batch_actual_size 3 (2 ^ 64 - 2) example_dataset.num_rows = 2 ^ 64 - 2 := by
    decide
  refine ⟨by decide, hact, ?_⟩
  show ∃ current_batch : Matrix ℚ,
    matrix_create_row_slice example_dataset 3
      (batch_actual_size 3 (2 ^ 64 - 2) example_dataset.num_rows) = some current_batch ∧ _
  rw [hact]
  unfold matrix_create_row_slice
  rw [if_pos (by decide)]
  exact ⟨_, rfl, rfl, by decide⟩

theorem binary32_round_zero : binary32_round 0 = Binary32.finite 0 := by
  unfold binary32_round
  rw [if_pos rfl]

/-- An exact result below the overflow threshold rounds to a finite value. -/
theorem binary32_round_finite (x : ℚ) (h : |x| < 2 ^ 128 - 2 ^ 103) :
    ∃ d, binary32_round x = Binary32.finite d := by
  unfold binary32_round
  by_cases h0 : x = 0
  · rw [if_pos h0]
    exact ⟨0, rfl⟩
  · rw [if_neg h0, if_neg (not_le.mpr h)]
    exact ⟨_, rfl⟩

/-- A positive exact result from the overflow threshold on rounds to the infinity. -/
theorem binary32_round_overflow (x : ℚ) (hx : 0 < x) (h : 2 ^ 128 - 2 ^ 103 ≤ x) :
    binary32_round x = Binary32.infinite false := by
  have habs : 2 ^ 128 - 2 ^ 103 ≤ |x| := by
    rw [abs_of_pos hx]
    exact h
  unfold binary32_round
  rw [if_neg (ne_of_gt hx), if_pos habs]
  congr 1
  exact decide_eq_false (not_lt.mpr hx.le)

/-- A store into another cell of the same matrix of `float` does not change the cell read. -/
theorem binary32_at_set_ne (m : Matrix Binary32) (i j i' j' : Nat) (x : Binary32)
    (hj : j < m.num_columns) (hj' : j' < m.num_columns) (h : ¬ (i' = i ∧ j' = j)) :
    matrix_at (matrix_set m i j x) i' j' = matrix_at m i' j' := by
  simp only [matrix_set, matrix_at]
  apply Function.update_noteq
  intro heq
  apply h
  have h1 := congrArg (fun x => x / m.num_columns) heq
  have h2 := congrArg (fun x => x % m.num_columns) heq
  simp only [flat_index_div _ _ _ hj, flat_index_div _ _ _ hj', flat_index_mod _ _ _ hj,
    flat_index_mod _ _ _ hj'] at h1 h2
  exact ⟨h1, h2⟩

/-- A loop down one column of a matrix of `float` that rewrites each cell from its own old
value. -/
theorem binary32_column_cells (P j : Nat) (g : Nat → Binary32 → Binary32)
    (m : Matrix Binary32) (hj : j < m.num_columns) :
    (for_loop P (fun p m => matrix_set m p j (g p (matrix_at m p j))) m).num_rows = m.num_rows ∧
    (for_loop P (fun p m => matrix_set m p j (g p (matrix_at m p j))) m).num_columns
      = m.num_columns ∧
    ∀ p' j', j' < m.num_columns →
      matrix_at (for_loop P (fun p m => matrix_set m p j (g p (matrix_at m p j))) m) p' j'
        = if j' = j ∧ p' < P then g p' (matrix_at m p' j') else matrix_at m p' j' := by
  induction P with
  | zero => simp [for_loop]
  | succ k ih =>
    obtain ⟨h1, h2, h3⟩ := ih
    rw [for_loop_succ]
    refine ⟨h1, h2, ?_⟩
    intro p' j' hj'
    by_cases hc : p' = k ∧ j' = j
    · obtain ⟨rfl, rfl⟩ := hc
      rw [matrix_at_set, h3 p' j' hj', if_neg (by omega), if_pos ⟨rfl, Nat.lt_succ_self _⟩]
    · rw [binary32_at_set_ne _ _ _ _ _ _ (by rw [h2]; exact hj) (by rw [h2]; exact hj') hc,
        h3 p' j' hj']
      by_cases hjj : j' = j
      · have hpk : p' ≠ k := fun e => hc ⟨e, hjj⟩
        by_cases hlt : p' < k
        · rw [if_pos ⟨hjj, hlt⟩, if_pos ⟨hjj, Nat.lt_succ_of_lt hlt⟩]
        · rw [if_neg (fun h => hlt h.2), if_neg (fun h => hlt (by omega))]
      · rw [if_neg (fun h => hjj h.1), if_neg (fun h => hjj h.1)]

/-- The scan of a column depends on the entries of that column only. -/
theorem column_extremes_binary32_congr (m1 m2 : Matrix Binary32) (c : Nat)
    (hR : m1.num_rows = m2.num_rows) (h : ∀ r, matrix_at m1 r c = matrix_at m2 r c) :
    column_extremes_binary32 m1 c = column_extremes_binary32 m2 c := by
  unfold column_extremes_binary32
  simp only [hR, h]

/-- Closed form of `matrix_normalize_minmax_binary32` for `num_input_columns <= num_columns`:
every entry of the first `num_input_columns` columns is rescaled with the extremes of its
column in the matrix passed in; the other columns are unchanged. -/
theorem matrix_normalize_minmax_binary32_eq (m : Matrix Binary32) (nic : Nat)
    (new_min new_max : Binary32) (hn : nic ≤ m.num_columns) :
    (matrix_normalize_minmax_binary32 m nic new_min new_max).num_rows = m.num_rows ∧
    (matrix_normalize_minmax_binary32 m nic new_min new_max).num_columns = m.num_columns ∧
    ∀ r c, c < m.num_columns →
      matrix_at (matrix_normalize_minmax_binary32 m nic new_min new_max) r c
        = if c < nic ∧ r < m.num_rows then
            binary32_add
              (binary32_mul
                (binary32_div (binary32_sub (matrix_at m r c) (column_extremes_binary32 m c).1)
                  (column_value_range_binary32 m c))
                (binary32_sub new_max new_min))
              new_min
          else matrix_at m r c := by
  unfold matrix_normalize_minmax_binary32
  have key := for_loop_invariant
    (fun k (m' : Matrix Binary32) =>
      m'.num_rows = m.num_rows ∧ m'.num_columns = m.num_columns ∧
      ∀ r c, c < m.num_columns →
        matrix_at m' r c
          = if c < k ∧ r < m.num_rows then
              binary32_add
                (binary32_mul
                  (binary32_div
                    (binary32_sub (matrix_at m r c) (column_extremes_binary32 m c).1)
                    (column_value_range_binary32 m c))
                  (binary32_sub new_max new_min))
                new_min
            else matrix_at m r c)
    nic
    (fun col_idx (m' : Matrix Binary32) =>
      for_loop m'.num_rows (fun row_idx m1 =>
        matrix_set m1 row_idx col_idx
          (binary32_add
            (binary32_mul
              (binary32_div
                (binary32_sub (matrix_at m1 row_idx col_idx)
                  (column_extremes_binary32 m' col_idx).1)
                (column_value_range_binary32 m' col_idx))
              (binary32_sub new_max new_min))
            new_min)) m')
    m
    ⟨rfl, rfl, fun r c _ => by simp⟩
    (by
      intro k m' hk hP
      obtain ⟨p1, p2, p3⟩ := hP
      have hkC : k < m.num_columns := by omega
      have hcol : ∀ r, matrix_at m' r k = matrix_at m r k := by
        intro r
        rw [p3 r k hkC, if_neg (by omega)]
      have hext : column_extremes_binary32 m' k = column_extremes_binary32 m k :=
        column_extremes_binary32_congr m' m k p1 hcol
      have hrange : column_value_range_binary32 m' k = column_value_range_binary32 m k := by
        unfold column_value_range_binary32
        rw [hext]
      obtain ⟨c1, c2, c3⟩ := binary32_column_cells m'.num_rows k
        (fun _ old =>
          binary32_add
            (binary32_mul
              (binary32_div (binary32_sub old (column_extremes_binary32 m' k).1)
                (column_value_range_binary32 m' k))
              (binary32_sub new_max new_min))
            new_min) m' (by rw [p2]; exact hkC)
      refine ⟨c1.trans p1, c2.trans p2, ?_⟩
      intro r c hc
      rw [c3 r c (by rw [p2]; exact hc)]
      by_cases hck : c = k
      · subst hck
        by_cases hr : r < m.num_rows
        · rw [if_pos ⟨rfl, by rw [p1]; exact hr⟩, if_pos ⟨Nat.lt_succ_self _, hr⟩, hcol, hext,
            hrange]
        · rw [if_neg (fun h => hr (by rw [← p1]; exact h.2)), if_neg (fun h => hr h.2), hcol]
      · rw [if_neg (fun h => hck h.1), p3 r c hc]
        by_cases h1 : c < k ∧ r < m.num_rows
        · rw [if_pos h1, if_pos ⟨by omega, h1.2⟩]
        · rw [if_neg h1, if_neg (fun h => h1 ⟨by omega, h.2⟩)])
  exact key

/-- The scan of a column whose entries all are the value `x`, with `x < x` false, leaves
`x` as minimum and as maximum. -/
theorem column_extremes_binary32_constant (m : Matrix Binary32) (c : Nat) (x : Binary32)
    (hx : binary32_lt x x = false) (hconst : ∀ r, r < m.num_rows → matrix_at m r c = x)
    (hR : 1 ≤ m.num_rows) :
    column_extremes_binary32 m c = (x, x) := by
  unfold column_extremes_binary32
  have key := for_loop_invariant
    (fun _ (st : Binary32 × Binary32) => st = (x, x))
    (m.num_rows - 1)
    (fun k (st : Binary32 × Binary32) =>
      (if binary32_lt (matrix_at m (k + 1) c) st.1 then matrix_at m (k + 1) c else st.1,
       if binary32_lt st.2 (matrix_at m (k + 1) c) then matrix_at m (k + 1) c else st.2))
    (matrix_at m 0 c, matrix_at m 0 c)
    (by rw [hconst 0 (by omega)])
    (by
      intro k st hk hst
      dsimp only
      rw [hst, hconst (k + 1) (by omega)]
      simp only [hx]
      rfl)
  exact key

/-- A product with a NaN on the left is a NaN. -/
theorem binary32_mul_nan (y : Binary32) : binary32_mul Binary32.nan y = Binary32.nan := by
  cases y <;> rfl

/-- A sum with a NaN on the left is a NaN. -/
theorem binary32_add_nan (y : Binary32) : binary32_add Binary32.nan y = Binary32.nan := by
  cases y <;> rfl

/-- The value -1 is a value of `float`. -/
theorem binary32_round_neg_one : binary32_round (-1) = Binary32.finite (-1) := by
  unfold binary32_round
  have hlog : Int.log 2 |(-1 : ℚ)| = 0 := by
    rw [abs_neg, abs_one]
    exact Int.log_one_right 2
  have hthr : ¬ ((2 : ℚ) ^ 128 - 2 ^ 103 ≤ |(-1 : ℚ)|) := by
    rw [abs_neg, abs_one]
    norm_num
  rw [if_neg (by norm_num), if_neg hthr]
  simp only [hlog]
  have hsp : (2 : ℚ) ^ ((max (0 : ℤ) (-126)) - 23) = 1 / 8388608 := by
    have : max (0 : ℤ) (-126) - 23 = -23 := by decide
    rw [this]
    norm_num [zpow_neg]
  rw [hsp]
  have hq : (-1 : ℚ) / (1 / 8388608) = ((-8388608 : ℤ) : ℚ) := by norm_num
  have hr : round_half_even (((-8388608 : ℤ) : ℚ)) = -8388608 := by
    unfold round_half_even
    rw [Int.floor_intCast]
    simp
  rw [hq, hr]
  norm_num

/-- The steps of the rescaling of an entry that equals the column minimum, with a divisor 1
and bounds whose difference is finite: the result is `new_min_value`. -/
theorem binary32_rescale_minimum (v a b : ℚ) (ha : binary32_round a = Binary32.finite a)
    (hrange : |b - a| < 2 ^ 128 - 2 ^ 103) :
    binary32_add
      (binary32_mul
        (binary32_div (binary32_sub (Binary32.finite v) (Binary32.finite v))
          (Binary32.finite 1))
        (binary32_sub (Binary32.finite b) (Binary32.finite a)))
      (Binary32.finite a) = Binary32.finite a := by
  obtain ⟨d, hd⟩ := binary32_round_finite (b - a) hrange
  have h1 : binary32_sub (Binary32.finite v) (Binary32.finite v) = Binary32.finite 0 := by
    show binary32_round (v - v) = _
    rw [sub_self, binary32_round_zero]
  have h2 : binary32_div (Binary32.finite 0) (Binary32.finite 1) = Binary32.finite 0 := by
    simp only [binary32_div]
    rw [if_neg one_ne_zero, zero_div, binary32_round_zero]
  have h3 : binary32_sub (Binary32.finite b) (Binary32.finite a) = Binary32.finite d := hd
  have h4 : binary32_mul (Binary32.finite 0) (Binary32.finite d) = Binary32.finite 0 := by
    show binary32_round (0 * d) = _
    rw [zero_mul, binary32_round_zero]
  have h5 : binary32_add (Binary32.finite 0) (Binary32.finite a) = Binary32.finite a := by
    show binary32_round (0 + a) = _
    rw [zero_add, ha]
  rw [h1, h2, h3, h4, h5]

/-- The divisor of a column whose entries all are the finite value `v` is 1. -/
theorem column_value_range_binary32_constant (m : Matrix Binary32) (c : Nat) (v : ℚ)
    (hconst : ∀ r, r < m.num_rows → matrix_at m r c = Binary32.finite v)
    (hR : 1 ≤ m.num_rows) :
    column_extremes_binary32 m c = (Binary32.finite v, Binary32.finite v) ∧
    column_value_range_binary32 m c = Binary32.finite 1 := by
  have hx : binary32_lt (Binary32.finite v) (Binary32.finite v) = false := by
    show decide (v < v) = false
    exact decide_eq_false (lt_irrefl v)
  have hext := column_extremes_binary32_constant m c (Binary32.finite v) hx hconst hR
  refine ⟨hext, ?_⟩
  unfold column_value_range_binary32
  rw [hext]
  have h1 : binary32_sub (Binary32.finite v) (Binary32.finite v) = Binary32.finite 0 := by
    show binary32_round (v - v) = _
    rw [sub_self, binary32_round_zero]
  show (if binary32_eq (binary32_sub (Binary32.finite v) (Binary32.finite v))
      (Binary32.finite 0) = true then _ else _) = _
  rw [h1]
  rfl

/-- Claim C19, amended. `matrix_normalize_minmax` on a constant column, in binary32: for
every matrix with at least one row, `num_input_columns <= num_columns` and every column
`c < num_input_columns` all of whose entries are the same finite value, and for finite
`new_min_value` and `new_max_value` whose difference does not overflow, the divisor
`value_range` used for the column is 1 (no division by zero) and after the call every entry
of the column equals `new_min_value`. -/
theorem matrix_normalize_minmax_binary32_constant (m : Matrix Binary32) (nic : Nat)
    (v a b : ℚ) (hR : 1 ≤ m.num_rows) (hn : nic ≤ m.num_columns) (c : Nat) (hc : c < nic)
    (hconst : ∀ r, r < m.num_rows → matrix_at m r c = Binary32.finite v)
    (ha : binary32_round a = Binary32.finite a)
    (hrange : |b - a| < 2 ^ 128 - 2 ^ 103) :
    column_value_range_binary32 m c = Binary32.finite 1 ∧
    ∀ r, r < m.num_rows →
      matrix_at
        (matrix_normalize_minmax_binary32 m nic (Binary32.finite a) (Binary32.finite b)) r c
        = Binary32.finite a := by
  obtain ⟨_, _, hval⟩ :=
    matrix_normalize_minmax_binary32_eq m nic (Binary32.finite a) (Binary32.finite b) hn
  obtain ⟨hext, hdiv⟩ := column_value_range_binary32_constant m c v hconst hR
  refine ⟨hdiv, ?_⟩
  intro r hr
  rw [hval r c (by omega), if_pos ⟨hc, hr⟩, hconst r hr, hext, hdiv]
  exact binary32_rescale_minimum v a b ha hrange

/-- A 2 x 2 matrix of the value 5, both columns normalized to the interval from -1 to 1:
the entries of column 1 become -1. -/
theorem matrix_normalize_minmax_binary32_constant_witness :
    (binary32_round (-1) = Binary32.finite (-1) ∧ |(1 : ℚ) - (-1)| < 2 ^ 128 - 2 ^ 103) ∧
    column_value_range_binary32 (constant_matrix 2 2 (Binary32.finite 5)) 1
      = Binary32.finite 1 ∧
    matrix_at
      (matrix_normalize_minmax_binary32 (constant_matrix 2 2 (Binary32.finite 5)) 2
        (Binary32.finite (-1)) (Binary32.finite 1)) 0 1 = Binary32.finite (-1) :=
  have hr : |(1 : ℚ) - (-1)| < 2 ^ 128 - 2 ^ 103 := by
    rw [abs_of_pos (by norm_num)]
    norm_num
  have h := matrix_normalize_minmax_binary32_constant (constant_matrix 2 2 (Binary32.finite 5))
    2 5 (-1) 1 (by decide) (by decide) 1 (by decide) (fun _ _ => rfl) binary32_round_neg_one hr
  ⟨⟨binary32_round_neg_one, hr⟩, h.1, h.2 0 (by decide)⟩

/-- Refutes C19 as stated, in binary32.  A column of two entries 5 and the finite bounds
`-2^127` and `2^127`: the difference of the bounds overflows to the infinity, `0 * inf` is a
NaN and the entry becomes a NaN, not `new_min_value`.  A column of two entries `+inf` and
the bounds 0 and 1: `inf - inf` is a NaN, so the divisor is a NaN and so is the entry. -/
theorem matrix_normalize_minmax_binary32_overflow :
    (matrix_at (constant_matrix 2 1 (Binary32.finite 5)) 0 0
        = matrix_at (constant_matrix 2 1 (Binary32.finite 5)) 1 0 ∧
      matrix_at
        (matrix_normalize_minmax_binary32 (constant_matrix 2 1 (Binary32.finite 5)) 1
          (Binary32.finite (-(2 ^ 127))) (Binary32.finite (2 ^ 127))) 0 0 = Binary32.nan ∧
      Binary32.nan ≠ Binary32.finite (-(2 ^ 127))) ∧
    (matrix_at (constant_matrix 2 1 (Binary32.infinite false)) 0 0
        = matrix_at (constant_matrix 2 1 (Binary32.infinite false)) 1 0 ∧
      matrix_at
        (matrix_normalize_minmax_binary32 (constant_matrix 2 1 (Binary32.infinite false)) 1
          (Binary32.finite 0) (Binary32.finite 1)) 0 0 = Binary32.nan ∧
      Binary32.nan ≠ Binary32.finite 0) := by
  have hne : ∀ x : ℚ, Binary32.nan ≠ Binary32.finite x := by
    intro x h
    cases h
  refine ⟨⟨rfl, ?_, hne _⟩, rfl, ?_, hne _⟩
  · obtain ⟨_, _, hval⟩ := matrix_normalize_minmax_binary32_eq
      (constant_matrix 2 1 (Binary32.finite 5)) 1 (Binary32.finite (-(2 ^ 127)))
      (Binary32.finite (2 ^ 127)) (le_refl 1)
    obtain ⟨hext, hdiv⟩ := column_value_range_binary32_constant
      (constant_matrix 2 1 (Binary32.finite 5)) 0 5 (fun _ _ => rfl) (by decide)
    rw [hval 0 0 (by decide), if_pos ⟨by decide, by decide⟩, hext, hdiv]
    have h0 : matrix_at (constant_matrix 2 1 (Binary32.finite 5)) 0 0 = Binary32.finite 5 := rfl
    rw [h0]
    have h1 : binary32_sub (Binary32.finite 5) (Binary32.finite 5) = Binary32.finite 0 := by
      show binary32_round (5 - 5) = _
      rw [sub_self, binary32_round_zero]
    have h2 : binary32_div (Binary32.finite 0) (Binary32.finite 1) = Binary32.finite 0 := by
      simp only [binary32_div]
      rw [if_neg one_ne_zero, zero_div, binary32_round_zero]
    have h3 : binary32_sub (Binary32.finite (2 ^ 127)) (Binary32.finite (-(2 ^ 127)))
        = Binary32.infinite false := by
      show binary32_round (2 ^ 127 - -(2 ^ 127)) = _
      have hsum : (2 : ℚ) ^ 127 - -(2 ^ 127) = 2 ^ 128 := by ring
      rw [hsum]
      exact binary32_round_overflow (2 ^ 128) (by positivity)
        (sub_le_self _ (by positivity))
    rw [h1, h2, h3]
    rfl
  · obtain ⟨_, _, hval⟩ := matrix_normalize_minmax_binary32_eq
      (constant_matrix 2 1 (Binary32.infinite false)) 1 (Binary32.finite 0)
      (Binary32.finite 1) (le_refl 1)
    have hext := column_extremes_binary32_constant
      (constant_matrix 2 1 (Binary32.infinite false)) 0 (Binary32.infinite false) rfl
      (fun _ _ => rfl) (by decide)
    have hdiv : column_value_range_binary32 (constant_matrix 2 1 (Binary32.infinite false)) 0
        = Binary32.nan := by
      unfold column_value_range_binary32
      rw [hext]
      rfl
    have h0 : matrix_at (constant_matrix 2 1 (Binary32.infinite false)) 0 0
        = Binary32.infinite false := rfl
    have h1 : binary32_sub (Binary32.infinite false) (Binary32.infinite false)
        = Binary32.nan := rfl
    have h2 : binary32_div Binary32.nan Binary32.nan = Binary32.nan := rfl
    rw [hval 0 0 (by decide), if_pos ⟨by decide, by decide⟩, hext, hdiv, h0, h1, h2,
      binary32_mul_nan, binary32_add_nan]

end Theorems

end NN

namespace Bellshade

/-! ## Theorems on `math/algoritma_euclid.c` -/

theorem euklides_loop_nat (b : Nat) : ∀ a : Nat, euklides_loop a b = Nat.gcd a b := by
  induction b using Nat.strong_induction_on with
  | _ b ih =>
    intro a
    rw [euklides_loop]
    by_cases hb : b = 0
    · subst hb
      simp
    · have hb' : (b : Int) ≠ 0 := by exact_mod_cast hb
      rw [dif_neg hb']
      have hmod : (a : Int).tmod b = ((a % b : Nat) : Int) := by
        rw [Int.tmod_eq_emod (by positivity) (by positivity)]
        norm_cast
      rw [hmod, ih (a % b) (Nat.mod_lt a (Nat.pos_of_ne_zero hb)) b]
      congr 1
      rw [Nat.gcd_comm a b, Nat.gcd_rec b a, Nat.gcd_comm]

/-- C29. For all integers `A ≥ B ≥ 0` the loop of `euklides` terminates (the model is a total
function) and `euklides(A, B)` returns `gcd(A, B)`; `gcd(A, 0) = A`; `euklides(36, 6) = 6`;
for `A < B` the function does not return (it exits the program). -/
theorem euklides_spec :
    (∀ A B : Int, 0 ≤ B → B ≤ A → euklides A B = some (Int.gcd A B : Int)) ∧
    (∀ A : Int, 0 ≤ A → euklides A 0 = some A) ∧
    euklides 36 6 = some 6 ∧
    (∀ A B : Int, A < B → euklides A B = none) := by
  have main : ∀ A B : Int, 0 ≤ B → B ≤ A → euklides A B = some (Int.gcd A B : Int) := by
    intro A B hB hAB
    have hA : 0 ≤ A := le_trans hB hAB
    obtain ⟨a, rfl⟩ := Int.eq_ofNat_of_zero_le hA
    obtain ⟨b, rfl⟩ := Int.eq_ofNat_of_zero_le hB
    unfold euklides
    rw [if_neg (not_lt.mpr hAB), euklides_loop_nat]
    simp [Int.gcd]
  refine ⟨main, ?_, ?_, ?_⟩
  · intro A hA
    rw [main A 0 le_rfl hA]
    simp [abs_of_nonneg hA]
  · rw [main 36 6 (by decide) (by decide)]
    rfl
  · intro A B h
    unfold euklides
    rw [if_pos h]

/-- Witness for C29: the statement at `A = 48`, `B = 18`. -/
theorem euklides_spec_witness :
    ((0 : Int) ≤ 18 ∧ (18 : Int) ≤ 48) ∧ euklides 48 18 = some (Int.gcd 48 18 : Int) :=
  ⟨⟨by decide, by decide⟩, euklides_spec.1 48 18 (by decide) (by decide)⟩

/-! ## Theorems on `algoritma/searching/linear_search.c` -/

theorem linear_search_loop_found (array : Nat → Int) (target : Int) (remaining : Nat) :
    ∀ i k, k < remaining → array (i + k) = target → (∀ j, j < k → array (i + j) ≠ target) →
      linear_search_loop array target remaining i = ((i + k : Nat) : Int) := by
  induction remaining with
  | zero => intro i k hk; exact absurd hk (Nat.not_lt_zero k)
  | succ r ih =>
    intro i k hk hfound hbefore
    unfold linear_search_loop
    cases k with
    | zero => rw [if_pos (by simpa using hfound)]; simp
    | succ k =>
      have h0 : array i ≠ target := by simpa using hbefore 0 (Nat.succ_pos k)
      rw [if_neg h0]
      have := ih (i + 1) k (Nat.lt_of_succ_lt_succ hk)
        (by rw [Nat.add_assoc, Nat.add_comm 1 k]; exact hfound)
        (fun j hj => by
          have := hbefore (j + 1) (Nat.succ_lt_succ hj)
          rw [Nat.add_assoc, Nat.add_comm 1 j]; exact this)
      rw [this]
      congr 1
      omega

theorem linear_search_loop_absent (array : Nat → Int) (target : Int) (remaining : Nat) :
    ∀ i, linear_search_loop array target remaining i = -1 ↔
      ∀ j, j < remaining → array (i + j) ≠ target := by
  induction remaining with
  | zero =>
    intro i
    simp [linear_search_loop]
  | succ r ih =>
    intro i
    unfold linear_search_loop
    by_cases h0 : array i = target
    · rw [if_pos h0]
      constructor
      · intro h
        have : ((i : Nat) : Int) ≥ 0 := Int.ofNat_nonneg i
        omega
      · intro h
        exact absurd h0 (by simpa using h 0 (Nat.succ_pos r))
    · rw [if_neg h0, ih (i + 1)]
      constructor
      · intro h j hj
        cases j with
        | zero => simpa using h0
        | succ j =>
          have := h j (Nat.lt_of_succ_lt_succ hj)
          rw [Nat.add_assoc, Nat.add_comm 1 j] at this
          exact this
      · intro h j hj
        have := h (j + 1) (Nat.succ_lt_succ hj)
        rw [Nat.add_assoc, Nat.add_comm 1 j]
        exact this

/-- C28. For every int array, length `n ≥ 0` and target: if the target occurs among the first
`n` elements, `linear_search` returns the smallest index `i < n` with `array[i] == target`;
the result is `-1` if and only if the target does not occur among the first `n` elements;
searching `100` in `{30, 1, 91, 63, 3, 32}` gives `-1`. -/
theorem linear_search_spec :
    (∀ (array : Nat → Int) (target : Int) (n i : Nat), i < n → array i = target →
      (∀ j, j < i → array j ≠ target) → linear_search array target n = i) ∧
    (∀ (array : Nat → Int) (target : Int) (n : Nat),
      linear_search array target n = -1 ↔ ∀ i, i < n → array i ≠ target) ∧
    linear_search linear_search_example 100 6 = -1 := by
  refine ⟨?_, ?_, ?_⟩
  · intro array target n i hi hfound hbefore
    unfold linear_search
    have := linear_search_loop_found array target n 0 i hi (by simpa using hfound)
      (fun j hj => by simpa using hbefore j hj)
    simpa using this
  · intro array target n
    unfold linear_search
    have := linear_search_loop_absent array target n 0
    simpa using this
  · decide

/-- Witness for C28: the target `63` sits at index 3 of `{30, 1, 91, 63, 3, 32}`. -/
theorem linear_search_spec_witness :
    ((3 : Nat) < 6 ∧ linear_search_example 3 = 63 ∧
      ∀ j, j < 3 → linear_search_example j ≠ 63) ∧
    linear_search linear_search_example 63 ((6 : Nat) : Int) = ((3 : Nat) : Int) :=
  ⟨⟨by decide, by decide, by decide⟩,
    linear_search_spec.1 linear_search_example 63 6 3 (by decide) (by decide) (by decide)⟩

/-! ## Theorems on `hashing/hash_xor8.c` -/

theorem and_0xff (x : Nat) : x &&& 0xff = x % 256 :=
  Nat.and_pow_two_sub_one_eq_mod x 8

theorem xor_0xff : ∀ h : Fin 256, h.val ^^^ 0xff = 255 - h.val := by
  set_option maxRecDepth 100000 in decide

theorem xor8_foldl (s : List Nat) : ∀ h0 : Nat, h0 < 256 →
    s.foldl (fun hash c => (hash + c) &&& 0xff) h0 = (h0 + s.sum) % 256 := by
  induction s with
  | nil => intro h0 h; simp [Nat.mod_eq_of_lt h]
  | cons c t ih =>
    intro h0 _
    rw [List.foldl_cons, and_0xff, ih _ (Nat.mod_lt _ (by decide)), List.sum_cons]
    omega

/-- C30. For every null-terminated ASCII string `s` (characters `1 .. 127` before the
terminator), `xor8(s) = ((((sum of the characters) mod 256) XOR 0xFF) + 1) mod 256`; the
result is in `0 .. 255`, `(xor8(s) + sum of the characters) mod 256 = 0`, and `xor8` of the
empty string is 0. -/
theorem xor8_spec :
    (∀ s : List Nat, (∀ c ∈ s, 0 < c ∧ c < 128) →
      xor8 s = (((s.sum % 256) ^^^ 0xff) + 1) % 256 ∧ xor8 s < 256 ∧
      (xor8 s + s.sum) % 256 = 0) ∧
    xor8 [] = 0 := by
  refine ⟨?_, by decide⟩
  intro s _
  have h1 : xor8 s = (((s.sum % 256) ^^^ 0xff) + 1) % 256 := by
    unfold xor8
    simp only []
    rw [xor8_foldl s 0 (by decide), and_0xff, Nat.zero_add]
  have hx := xor_0xff ⟨s.sum % 256, Nat.mod_lt _ (by decide)⟩
  simp only at hx
  refine ⟨h1, ?_, ?_⟩
  · rw [h1]; exact Nat.mod_lt _ (by decide)
  · rw [h1, hx]
    omega

/-- Witness for C30: the statement at the string `"bellshade C"`. -/
theorem xor8_spec_witness :
    (∀ c ∈ xor8_example, 0 < c ∧ c < 128) ∧
    (xor8 xor8_example = (((xor8_example.sum % 256) ^^^ 0xff) + 1) % 256 ∧
      xor8 xor8_example < 256 ∧ (xor8 xor8_example + xor8_example.sum) % 256 = 0) :=
  ⟨by decide, xor8_spec.1 xor8_example (by decide)⟩


theorem permutation_below_refl (n : Nat) (a : Nat → Int) : permutation_below n a a :=
  ⟨Equiv.refl _, fun _ _ => rfl, fun _ => rfl⟩

theorem permutation_below_swap {n : Nat} {a b : Nat → Int} (h : permutation_below n a b)
    (i j : Nat) (hi : i < n) (hj : j < n) :
    permutation_below n a (fun k => b (Equiv.swap i j k)) := by
  obtain ⟨σ, hfix, hb⟩ := h
  refine ⟨(Equiv.swap i j).trans σ, ?_, ?_⟩
  · intro k hk
    have h1 : k ≠ i := by omega
    have h2 : k ≠ j := by omega
    simp [Equiv.swap_apply_of_ne_of_ne h1 h2, hfix k hk]
  · intro k
    simp [hb]

theorem permutation_below_mono {n m : Nat} {a b : Nat → Int} (h : permutation_below n a b)
    (hnm : n ≤ m) : permutation_below m a b := by
  obtain ⟨σ, hfix, hb⟩ := h
  exact ⟨σ, fun i hi => hfix i (le_trans hnm hi), hb⟩

theorem permutation_below_trans {n : Nat} {a b c : Nat → Int} (h1 : permutation_below n a b)
    (h2 : permutation_below n b c) : permutation_below n a c := by
  obtain ⟨σ, hfix, hb⟩ := h1
  obtain ⟨τ, hfix', hc⟩ := h2
  refine ⟨τ.trans σ, ?_, ?_⟩
  · intro k hk
    simp [hfix' k hk, hfix k hk]
  · intro k
    simp [hc, hb]

/-- A permutation that fixes every index from `n` on maps the indices below `n` to indices
below `n`. -/
theorem perm_lt_of_fix (σ : Equiv.Perm Nat) (n : Nat) (hfix : ∀ i, n ≤ i → σ i = i) (i : Nat)
    (hi : i < n) : σ i < n := by
  by_contra h
  have h1 : n ≤ σ i := Nat.le_of_not_lt h
  have h2 := hfix (σ i) h1
  have h3 : σ i = i := σ.injective h2
  omega

theorem permutation_below_outside {n : Nat} {a b : Nat → Int} (h : permutation_below n a b)
    (i : Nat) (hi : n ≤ i) : b i = a i := by
  obtain ⟨σ, hfix, hb⟩ := h
  rw [hb, hfix i hi]

/-- A rearrangement by an index permutation is a permutation of the list of the first `n`
elements. -/
theorem permutation_below_perm {n : Nat} {a b : Nat → Int} (h : permutation_below n a b) :
    (first_elements n b).Perm (first_elements n a) := by
  obtain ⟨σ, hfix, hb⟩ := h
  have h1 : first_elements n b = ((List.range n).map σ).map a := by
    simp [first_elements, List.map_map, Function.comp, hb]
  rw [h1]
  apply List.Perm.map
  apply List.perm_of_nodup_nodup_toFinset_eq
  · exact (List.nodup_range n).map σ.injective
  · exact List.nodup_range n
  · ext k
    simp only [List.mem_toFinset, List.mem_map, List.mem_range]
    constructor
    · rintro ⟨i, hi, rfl⟩
      exact perm_lt_of_fix σ n hfix i hi
    · intro hk
      refine ⟨σ.symm k, ?_, by simp⟩
      have hfix' : ∀ i, n ≤ i → σ.symm i = i := by
        intro i hi
        have := hfix i hi
        exact (Equiv.symm_apply_eq σ).mpr this.symm
      exact perm_lt_of_fix σ.symm n hfix' k hk

theorem tukar_eq_swap (a : Nat → Int) (i j : Nat) :
    tukar a i j = fun k => a (Equiv.swap i j k) := by
  funext k
  unfold tukar
  by_cases hj : k = j
  · subst hj
    simp
  · rw [Function.update_noteq hj]
    by_cases hi : k = i
    · subst hi
      simp
    · rw [Function.update_noteq hi, Equiv.swap_apply_of_ne_of_ne hi hj]

/-- What one pass of `k` iterations achieves. -/
theorem bubble_pass_spec (a : Nat → Int) (k : Nat) :
    (bubble_pass a k).2 ≤ k ∧
    permutation_below (k + 1) a (bubble_pass a k).1 ∧
    (∀ i, i ≤ k → (bubble_pass a k).1 i ≤ (bubble_pass a k).1 k) ∧
    (∀ i, (bubble_pass a k).2 ≤ i → i < k →
      (bubble_pass a k).1 i ≤ (bubble_pass a k).1 (i + 1)) ∧
    (∀ i, i < (bubble_pass a k).2 →
      (bubble_pass a k).1 i ≤ (bubble_pass a k).1 (bubble_pass a k).2) := by
  induction k with
  | zero =>
    refine ⟨le_rfl, permutation_below_refl _ _, ?_, ?_, ?_⟩
    · intro i hi
      have : i = 0 := by omega
      subst this
      exact le_rfl
    · intro i _ hi
      exact absurd hi (Nat.not_lt_zero i)
    · intro i hi
      exact absurd hi (Nat.not_lt_zero i)
  | succ k ih =>
    obtain ⟨h1, h2, h3, h4, h5⟩ := ih
    unfold bubble_pass
    simp only
    by_cases hswap : (bubble_pass a k).1 k > (bubble_pass a k).1 (k + 1)
    · rw [if_pos hswap]
      simp only [tukar_eq_swap]
      refine ⟨le_rfl, ?_, ?_, ?_, ?_⟩
      · exact permutation_below_swap (permutation_below_mono h2 (Nat.le_succ _)) k (k + 1)
          (by omega) (by omega)
      · intro i hi
        rw [Equiv.swap_apply_right]
        by_cases hik : i = k + 1
        · subst hik
          rw [Equiv.swap_apply_right]
        · by_cases hik' : i = k
          · subst hik'
            rw [Equiv.swap_apply_left]
            exact le_of_lt hswap
          · rw [Equiv.swap_apply_of_ne_of_ne hik' hik]
            exact h3 i (by omega)
      · intro i hi hi'
        omega
      · intro i hi
        rw [Equiv.swap_apply_right]
        by_cases hik' : i = k
        · subst hik'
          rw [Equiv.swap_apply_left]
          exact le_of_lt hswap
        · rw [Equiv.swap_apply_of_ne_of_ne hik' (by omega)]
          exact h3 i (by omega)
    · rw [if_neg hswap]
      refine ⟨Nat.le_succ_of_le h1, permutation_below_mono h2 (Nat.le_succ _), ?_, ?_, h5⟩
      · intro i hi
        have hle : (bubble_pass a k).1 k ≤ (bubble_pass a k).1 (k + 1) := not_lt.mp hswap
        by_cases hik : i = k + 1
        · subst hik
          exact le_rfl
        · exact le_trans (h3 i (by omega)) hle
      · intro i hi hi'
        by_cases hik : i = k
        · subst hik
          exact not_lt.mp hswap
        · exact h4 i hi (by omega)

/-- Adjacent order from `m` on gives order between any two positions from `m` on. -/
theorem sorted_of_adjacent (b : Nat → Int) (m n : Nat)
    (h : ∀ i, m ≤ i → i + 1 < n → b i ≤ b (i + 1)) :
    ∀ i j, m ≤ i → i ≤ j → j < n → b i ≤ b j := by
  intro i j hmi hij hjn
  induction j with
  | zero =>
    have : i = 0 := by omega
    subst this
    exact le_rfl
  | succ j ih =>
    by_cases hij' : i = j + 1
    · subst hij'
      exact le_rfl
    · exact le_trans (ih (by omega) (by omega)) (h j (by omega) hjn)

/-- The invariant of the `do ... while` loop of `bubble_sort` on an array of `N` elements:
with `n` elements still to be looked at, the elements from `n` on are in order and not
smaller than the elements before `n`. -/
theorem bubble_pass_invariant (N : Nat) (a : Nat → Int) (n : Nat) (hn : n ≤ N)
    (hsuf : ∀ i j, n ≤ i → i ≤ j → j < N → a i ≤ a j)
    (hpre : ∀ i j, i < n → n ≤ j → j < N → a i ≤ a j) :
    (bubble_pass a (n - 1)).2 ≤ n - 1 ∧
    permutation_below N a (bubble_pass a (n - 1)).1 ∧
    (∀ i j, (bubble_pass a (n - 1)).2 ≤ i → i ≤ j → j < N →
      (bubble_pass a (n - 1)).1 i ≤ (bubble_pass a (n - 1)).1 j) ∧
    (∀ i j, i < (bubble_pass a (n - 1)).2 → (bubble_pass a (n - 1)).2 ≤ j → j < N →
      (bubble_pass a (n - 1)).1 i ≤ (bubble_pass a (n - 1)).1 j) := by
  obtain ⟨h1, h2, h3, h4, h5⟩ := bubble_pass_spec a (n - 1)
  by_cases hn0 : n = 0
  · subst hn0
    refine ⟨h1, permutation_below_refl _ _, ?_, ?_⟩
    · intro i j _ hij hj
      exact hsuf i j (Nat.zero_le _) hij hj
    · intro i j hi
      exact absurd hi (Nat.not_lt_zero i)
  · have hk : n - 1 + 1 = n := by omega
    rw [hk] at h2
    have hperm : permutation_below N a (bubble_pass a (n - 1)).1 :=
      permutation_below_mono h2 hn
    obtain ⟨σ, hfix, hb⟩ := h2
    -- inside the pass range
    have hin : ∀ i j, (bubble_pass a (n - 1)).2 ≤ i → i ≤ j → j < n →
        (bubble_pass a (n - 1)).1 i ≤ (bubble_pass a (n - 1)).1 j :=
      sorted_of_adjacent _ _ n (fun i hi hi' => h4 i hi (by omega))
    -- an element below `n` against an element from `n` on
    have hcross : ∀ i j, i < n → n ≤ j → j < N →
        (bubble_pass a (n - 1)).1 i ≤ (bubble_pass a (n - 1)).1 j := by
      intro i j hi hj hjN
      rw [hb i, hb j, hfix j hj]
      exact hpre (σ i) j (perm_lt_of_fix σ n hfix i hi) hj hjN
    have hout : ∀ i j, n ≤ i → i ≤ j → j < N →
        (bubble_pass a (n - 1)).1 i ≤ (bubble_pass a (n - 1)).1 j := by
      intro i j hi hij hjN
      rw [hb i, hb j, hfix i hi, hfix j (le_trans hi hij)]
      exact hsuf i j hi hij hjN
    refine ⟨h1, hperm, ?_, ?_⟩
    · intro i j hi hij hjN
      by_cases hjn : j < n
      · exact hin i j hi hij hjn
      · by_cases hin' : i < n
        · exact hcross i j hin' (by omega) hjN
        · exact hout i j (by omega) hij hjN
    · intro i j hi hj hjN
      by_cases hjn : j < n
      · exact le_trans (h5 i hi) (hin _ j le_rfl hj hjn)
      · exact hcross i j (by omega) (by omega) hjN

/-- The `do ... while` loop ends within the fuel and leaves the array sorted. -/
theorem bubble_loop_spec (N : Nat) (a0 : Nat → Int) :
    ∀ (fuel : Nat) (a : Nat → Int) (n : Nat), n < fuel → n ≤ N → permutation_below N a0 a →
      (∀ i j, n ≤ i → i ≤ j → j < N → a i ≤ a j) →
      (∀ i j, i < n → n ≤ j → j < N → a i ≤ a j) →
      ∃ r, bubble_loop fuel a n = some r ∧ sorted_below N r ∧ permutation_below N a0 r := by
  intro fuel
  induction fuel with
  | zero => intro a n h; exact absurd h (Nat.not_lt_zero n)
  | succ fuel ih =>
    intro a n hfuel hn hperm hsuf hpre
    obtain ⟨h1, h2, h3, h4⟩ := bubble_pass_invariant N a n hn hsuf hpre
    unfold bubble_loop
    simp only
    by_cases hgo : (bubble_pass a (n - 1)).2 > 1
    · rw [if_pos hgo]
      exact ih _ _ (by omega) (by omega) (permutation_below_trans hperm h2) h3 h4
    · rw [if_neg hgo]
      refine ⟨_, rfl, ?_, permutation_below_trans hperm h2⟩
      intro i j hij hj
      by_cases hi : (bubble_pass a (n - 1)).2 ≤ i
      · exact h3 i j hi hij hj
      · by_cases hj' : (bubble_pass a (n - 1)).2 ≤ j
        · exact h4 i j (by omega) hj' hj
        · have : i = j := by omega
          subst this
          exact le_rfl

/-- C26. `bubble_sort` sorts in place: for every int array and every length `n ≥ 0` the
`do ... while` loop ends (within `n + 1` passes: any larger fuel gives the same result), and
afterwards the first `n` elements are in non-decreasing order and are a permutation of the
original first `n` elements, the elements from `n` on being untouched;
`{4,2,0,1,3,9,5,7,8,6}` becomes `{0,1,2,3,4,5,6,7,8,9}`. -/
theorem bubble_sort_spec :
    (∀ (array : Nat → Int) (n fuel : Nat), n < fuel →
      ∃ r, bubble_sort fuel array n = some r ∧ sorted_below n r ∧
        (first_elements n r).Perm (first_elements n array) ∧ ∀ i, n ≤ i → r i = array i) ∧
    (∀ fuel, 10 < fuel →
      (bubble_sort fuel sort_example 10).map (first_elements 10)
        = some [0, 1, 2, 3, 4, 5, 6, 7, 8, 9]) := by
  have main : ∀ (array : Nat → Int) (n fuel : Nat), n < fuel →
      ∃ r, bubble_sort fuel array n = some r ∧ sorted_below n r ∧
        (first_elements n r).Perm (first_elements n array) ∧ ∀ i, n ≤ i → r i = array i := by
    intro array n fuel hfuel
    obtain ⟨r, hr, hs, hp⟩ := bubble_loop_spec n array fuel array n hfuel le_rfl
      (permutation_below_refl _ _) (fun i j hi hij hj => by omega) (fun i j hi hj hjn => by omega)
    refine ⟨r, ?_, hs, permutation_below_perm hp, permutation_below_outside hp⟩
    unfold bubble_sort
    simpa using hr
  refine ⟨main, ?_⟩
  intro fuel hfuel
  obtain ⟨r, hr, hs, hp, _⟩ := main sort_example 10 fuel hfuel
  have hr' : bubble_sort fuel sort_example 10 = some r := hr
  rw [hr', Option.map_some']
  congr 1
  have hsorted : (first_elements 10 r).Sorted (· ≤ ·) := by
    unfold first_elements
    rw [List.Sorted, List.pairwise_map, List.pairwise_iff_get]
    intro i j hij
    simp only [List.get_eq_getElem, List.getElem_range]
    exact hs _ _ (le_of_lt hij) (by simpa using j.2)
  exact List.eq_of_perm_of_sorted
    (hp.trans (by decide : (first_elements 10 sort_example).Perm [0, 1, 2, 3, 4, 5, 6, 7, 8, 9]))
    hsorted (by decide)

/-- Witness for C26: the general statement at the array of `main` with fuel 11. -/
theorem bubble_sort_spec_witness :
    (10 < 11) ∧
    ∃ r, bubble_sort 11 sort_example ((10 : Nat) : Int) = some r ∧ sorted_below 10 r ∧
      (first_elements 10 r).Perm (first_elements 10 sort_example) ∧
      ∀ i, 10 ≤ i → r i = sort_example i :=
  ⟨by decide, bubble_sort_spec.1 sort_example 10 11 (by decide)⟩

/-- One shift of the `while` loop moves the hole one position down: on the array with the
hole filled by `x` it is a swap. -/
theorem insertion_hole_swap (a : Nat → Int) (j : Nat) (x : Int) :
    Function.update (Function.update a (j + 1) (a j)) j x
      = fun k => Function.update a (j + 1) x (Equiv.swap j (j + 1) k) := by
  funext k
  by_cases h1 : k = j
  · subst h1
    rw [Equiv.swap_apply_left]
    simp
  · by_cases h2 : k = j + 1
    · subst h2
      rw [Equiv.swap_apply_right]
      simp
    · rw [Equiv.swap_apply_of_ne_of_ne h1 h2]
      simp [Function.update_noteq h1, Function.update_noteq h2]

/-- The `while` loop, seen on the array whose hole `j` is filled with `x`: from an array that
is ordered when the hole is skipped and whose elements after the hole exceed `x`, it ends
on a sorted array. -/
theorem insertion_shift_spec (idx : Nat) (x : Int) (a0 : Nat → Int) :
    ∀ (j : Nat) (a : Nat → Int), j ≤ idx →
      permutation_below (idx + 1) a0 (Function.update a j x) →
      (∀ i i', i ≤ i' → i' ≤ idx → i ≠ j → i' ≠ j → a i ≤ a i') →
      (∀ i, j < i → i ≤ idx → x < a i) →
      sorted_below (idx + 1)
          (Function.update (insertion_shift x j a).1 (insertion_shift x j a).2 x) ∧
        permutation_below (idx + 1) a0
          (Function.update (insertion_shift x j a).1 (insertion_shift x j a).2 x) := by
  intro j
  induction j with
  | zero =>
    intro a _ hperm hskip hafter
    refine ⟨?_, hperm⟩
    unfold insertion_shift
    intro i i' hii' hi'
    by_cases h1 : i' = 0
    · have h2 : i = 0 := by omega
      subst h1; subst h2
      exact le_rfl
    · rw [Function.update_noteq h1]
      by_cases h2 : i = 0
      · subst h2
        rw [Function.update_same]
        exact le_of_lt (hafter i' (by omega) (by omega))
      · rw [Function.update_noteq h2]
        exact hskip i i' hii' (by omega) h2 h1
  | succ j ih =>
    intro a hj hperm hskip hafter
    unfold insertion_shift
    by_cases hgt : a j > x
    · rw [if_pos hgt]
      apply ih (Function.update a (j + 1) (a j)) (by omega)
      · rw [insertion_hole_swap]
        exact permutation_below_swap hperm j (j + 1) (by omega) (by omega)
      · intro i i' hii' hi' hi hi'j
        by_cases h1 : i = j + 1
        · subst h1
          rw [Function.update_same]
          have h2 : i' ≠ j + 1 ∨ i' = j + 1 := by omega
          rcases h2 with h2 | h2
          · rw [Function.update_noteq h2]
            exact hskip j i' (by omega) hi' (by omega) h2
          · subst h2
            rw [Function.update_same]
        · rw [Function.update_noteq h1]
          by_cases h2 : i' = j + 1
          · subst h2
            rw [Function.update_same]
            exact hskip i j (by omega) (by omega) h1 (by omega)
          · rw [Function.update_noteq h2]
            exact hskip i i' hii' hi' h1 h2
      · intro i hi hi'
        by_cases h1 : i = j + 1
        · subst h1
          rw [Function.update_same]
          exact hgt
        · rw [Function.update_noteq h1]
          exact hafter i (by omega) hi'
    · rw [if_neg hgt]
      refine ⟨?_, hperm⟩
      intro i i' hii' hi'
      by_cases h1 : i' = j + 1
      · subst h1
        rw [Function.update_same]
        by_cases h2 : i = j + 1
        · subst h2
          rw [Function.update_same]
        · rw [Function.update_noteq h2]
          exact le_trans (hskip i j (by omega) (by omega) h2 (by omega)) (not_lt.mp hgt)
      · rw [Function.update_noteq h1]
        by_cases h2 : i = j + 1
        · subst h2
          rw [Function.update_same]
          exact le_of_lt (hafter i' (by omega) (by omega))
        · rw [Function.update_noteq h2]
          exact hskip i i' hii' (by omega) h2 h1

/-- One iteration of the `for` loop inserts `array[indeks]` into the sorted prefix. -/
theorem insertion_step_spec (idx : Nat) (a : Nat → Int) (hs : sorted_below idx a) :
    sorted_below (idx + 1) (insertion_step idx a) ∧
      permutation_below (idx + 1) a (insertion_step idx a) := by
  unfold insertion_step
  simp only
  apply insertion_shift_spec idx (a idx) a idx a le_rfl
  · rw [Function.update_eq_self]
    exact permutation_below_refl _ _
  · intro i i' hii' hi' _ hi'j
    exact hs i i' hii' (by omega)
  · intro i hi hi'
    omega

theorem insertion_steps_spec (a : Nat → Int) (k : Nat) :
    sorted_below (k + 1) (insertion_steps a k) ∧
      permutation_below (k + 1) a (insertion_steps a k) := by
  induction k with
  | zero =>
    refine ⟨?_, permutation_below_refl _ _⟩
    intro i j hij hj
    have h1 : j = 0 := by omega
    have h2 : i = 0 := by omega
    subst h1; subst h2
    exact le_rfl
  | succ k ih =>
    obtain ⟨h1, h2⟩ := ih
    obtain ⟨h3, h4⟩ := insertion_step_spec (k + 1) (insertion_steps a k) h1
    exact ⟨h3, permutation_below_trans (permutation_below_mono h2 (Nat.le_succ _)) h4⟩

/-- C27. `insertion_sort` sorts in place: for every int array and every length `n ≥ 0`,
after `insertion_sort(array, n)` the first `n` elements are in non-decreasing order and are
a permutation of the original first `n` elements, the elements from `n` on being untouched;
`{4,2,0,1,3,9,5,7,8,6}` becomes `{0,1,2,3,4,5,6,7,8,9}`. -/
theorem insertion_sort_spec :
    (∀ (array : Nat → Int) (n : Nat),
      sorted_below n (insertion_sort array n) ∧
      (first_elements n (insertion_sort array n)).Perm (first_elements n array) ∧
      ∀ i, n ≤ i → insertion_sort array n i = array i) ∧
    first_elements 10 (insertion_sort sort_example 10) = [0, 1, 2, 3, 4, 5, 6, 7, 8, 9] := by
  have main : ∀ (array : Nat → Int) (n : Nat),
      sorted_below n (insertion_sort array n) ∧
        permutation_below n array (insertion_sort array n) := by
    intro array n
    unfold insertion_sort
    simp only [Int.toNat_ofNat]
    by_cases hn : n = 0
    · subst hn
      exact ⟨fun i j _ hj => absurd hj (Nat.not_lt_zero j), permutation_below_refl _ _⟩
    · have := insertion_steps_spec array (n - 1)
      have hk : n - 1 + 1 = n := by omega
      rw [hk] at this
      exact this
  refine ⟨fun array n => ⟨(main array n).1, permutation_below_perm (main array n).2,
    permutation_below_outside (main array n).2⟩, ?_⟩
  decide

/-- Witness for C27: the general statement at the array of `main`, read above the sorted
part. -/
theorem insertion_sort_spec_witness :
    (10 ≤ 12) ∧ insertion_sort sort_example ((10 : Nat) : Int) 12 = sort_example 12 :=
  ⟨by decide, (insertion_sort_spec.1 sort_example 10).2.2 12 (by decide)⟩

/-- Evaluation for C31. On the test case `[1, 2, 2, 3, 3, 4, 5]` of the file, whose least
element is 1 and whose greatest element is 5, `jangkauan` returns 2, not `5 - 1 = 4`: the
`else` branch stores every element that is not a new maximum into `mn`. -/
theorem jangkauan_example :
    jangkauan stats_example 7 = 2 ∧
    (∀ i, i < 7 → stats_example 0 ≤ stats_example i ∧ stats_example i ≤ stats_example 6) ∧
    stats_example 6 - stats_example 0 = 4 := by
  decide

/-- Evaluation for C32. On the data `[4, 9, 9]` with `mx = 9` and a frequency table that
starts at zero, `modus` returns 4, which occurs once, although 9 occurs twice: the loop
compares the frequency `freq[i]` with the value `Modus`, not with a frequency. -/
theorem modus_example_value :
    modus (fun _ => 0) modus_example 3 9 = 4 ∧
    (List.map modus_example (List.range 3)).count 4 = 1 ∧
    (List.map modus_example (List.range 3)).count 9 = 2 := by
  decide

/-- Evaluation for C33. On the single value 0.5 `square_x` returns 0 and `square_y` returns
0.25: `square_x` stores the square in an `int`. -/
theorem square_x_truncates :
    square_x (fun _ => 1 / 2) 1 = 0 ∧ square_y (fun _ => 1 / 2) 1 = 1 / 4 := by
  have h : double_to_int ((1 / 2 : ℚ) * (1 / 2)) = 0 := by
    unfold double_to_int
    rw [if_pos (by norm_num)]
    exact Int.floor_eq_iff.mpr ⟨by norm_num, by norm_num⟩
  constructor
  · show (0 : ℚ) + ((double_to_int ((1 / 2 : ℚ) * (1 / 2)) : Int) : ℚ) = 0
    rw [h]
    norm_num
  · show (0 : ℚ) + (1 / 2 : ℚ) * (1 / 2) = 1 / 4
    norm_num

/-- Evaluation for C34. For the stored terms `[2, 5, 8]` (first term 2, difference 3) the
first term asked with `x = 1` comes out as 5, not `2 + (1 - 1) * 3 = 2`, and `x = 3` reads
`deret[3]`, outside of the three stored terms: the branch `x <= n && x >= 0` returns
`deret[x]`. -/
theorem suku_n_example :
    suku_n [2, 5, 8] 1 3 = some 5 ∧ (2 : Int) + (1 - 1) * (5 - 2) = 2 ∧
    suku_n [2, 5, 8] 3 3 = none ∧ suku_n [2, 5, 8] 4 3 = some 11 := by
  decide

end Bellshade
